import Mathlib

/-!
# RCS_Datastructure: the SISO byte FIFO (`src/src/siso_fifo.c`)

A shallow embedding of the ring buffer of `siso_fifo.c` / `siso_fifo.h`.

* `size_t` is an unsigned 64-bit integer (the host the unit tests run on):
  a natural number below `SIZE_MOD`, subtraction and addition wrap.
* `int` is a signed 32-bit integer; `(int)first_chunk` is `int_cast`.
* A pointer into the storage block `handle->mem` is the offset it points
  to (`some off` for `&handle->mem[off]`), the null pointer is `none`.
* `RcsFifo_t fifo` is `Option RcsFifoHandle_t` (`none` for `NULL`), the
  output array `void *memAcquired[2]` is `Option Slots`.
* `FifoPortEnterCriticalFromAll` / `FifoPortExitCriticalFromAll` expand to
  `do { } while (0)` in `siso_fifo.h` and have no effect on the state.
* The diagnostic `printf` on the `RCS_FIFO_NO_SPACE` path of
  `RcsFifoSendAcquire` only writes to the standard output and is left out.
* `x % capacity` is only evaluated with `capacity = memSize`, which is nonzero
  in every descriptor produced by `RcsFifoCreate` / `RcsFifoCreateStatic`.
-/

namespace RcsFifo

/-! ## Machine integers -/

/-- Number of values of `size_t`. -/
def SIZE_MOD : Nat := 18446744073709551616

/-- Largest value of `int`. -/
def INT_MAX : Nat := 2147483647

/-- Unsigned subtraction `a - b` in `size_t`. -/
def size_sub (a b : Nat) : Nat := (a + SIZE_MOD - b % SIZE_MOD) % SIZE_MOD

/-- Unsigned addition `a + b` in `size_t`. -/
def size_add (a b : Nat) : Nat := (a + b) % SIZE_MOD

/-- The conversion `(int)x` of a `size_t` value: reduction modulo `2^32` into
the two's complement range. -/
def int_cast (x : Nat) : Int :=
  if x % 4294967296 < 2147483648 then ((x % 4294967296 : Nat) : Int)
  else ((x % 4294967296 : Nat) : Int) - 4294967296

/-! ## Status codes (`siso_fifo.h`) -/

def RCS_FIFO_OK : Int := 0
def RCS_FIFO_ERROR : Int := -1
def RCS_FIFO_INVALID_PARAM : Int := -2
def RCS_FIFO_NO_SPACE : Int := -3
def RCS_FIFO_NO_DATA : Int := -4
def RCS_FIFO_NOT_ALLOWED : Int := -5

/-! ## Data model -/

/-- The descriptor `RcsFifoHandle_t`; the storage pointer `mem` is
represented by the offsets handed out in the spans. -/
structure RcsFifoHandle_t where
  memSize : Nat
  indexWriteHead : Nat
  indexWriteTail : Nat
  indexReadHead : Nat
  indexReadTail : Nat
deriving DecidableEq, Repr

/-- A pointer into the storage block: `none` is `NULL`, `some off` is
`&handle->mem[off]`. -/
abbrev Ptr := Option Nat

/-- The two-slot array `void *memAcquired[2]`. -/
abbrev Slots := Ptr × Ptr

/-- Outcome of one API call: the returned `int`, the descriptor behind the
handle after the call and the caller's slot array after the call. -/
structure CallResult where
  ret : Int
  fifo : Option RcsFifoHandle_t
  memAcquired : Option Slots
deriving DecidableEq, Repr

/-! ## Space macros -/

/-- The macro `RCS_FIFO_FREE_SPACE`. -/
def RCS_FIFO_FREE_SPACE (fifo : RcsFifoHandle_t) : Nat :=
  if fifo.indexReadTail > fifo.indexWriteHead then
    size_sub (size_sub fifo.indexReadTail fifo.indexWriteHead) 1
  else
    size_sub (size_sub fifo.memSize (size_sub fifo.indexWriteHead fifo.indexReadTail)) 1

/-- The macro `RCS_FIFO_FREE_NOSPLIT_SPACE`. -/
def RCS_FIFO_FREE_NOSPLIT_SPACE (fifo : RcsFifoHandle_t) : Nat :=
  if fifo.indexReadTail > fifo.indexWriteHead then
    size_sub (size_sub fifo.indexReadTail fifo.indexWriteHead) 1
  else
    size_sub (size_sub fifo.memSize fifo.indexWriteHead)
      (if fifo.indexReadTail = 0 then 1 else 0)

/-- The macro `RCS_FIFO_USED_SPACE`. -/
def RCS_FIFO_USED_SPACE (fifo : RcsFifoHandle_t) : Nat :=
  if fifo.indexWriteTail ≥ fifo.indexReadHead then
    size_sub fifo.indexWriteTail fifo.indexReadHead
  else
    size_sub fifo.memSize (size_sub fifo.indexReadHead fifo.indexWriteTail)

/-- The macro `RCS_FIFO_USED_NOSPLIT_SPACE`. -/
def RCS_FIFO_USED_NOSPLIT_SPACE (fifo : RcsFifoHandle_t) : Nat :=
  if fifo.indexWriteTail ≥ fifo.indexReadHead then
    size_sub fifo.indexWriteTail fifo.indexReadHead
  else
    size_sub fifo.memSize fifo.indexReadHead

/-! ## Construction -/

/-- The function `RcsFifoCreateStatic`: `staticHandle` is the caller's
descriptor (`none` for `NULL`), `fifoMemory` tells whether the storage
pointer is non-null. -/
def RcsFifoCreateStatic (fifoSize : Nat) (staticHandle : Option RcsFifoHandle_t)
    (fifoMemory : Bool) : Option RcsFifoHandle_t :=
  match staticHandle with
  | none => none
  | some _ =>
    if fifoMemory = false ∨ fifoSize = 0 then none
    else some
      { memSize := fifoSize, indexWriteHead := 0, indexWriteTail := 0,
        indexReadHead := 0, indexReadTail := 0 }

/-- The function `RcsFifoCreate`: `handleAlloc` and `memAlloc` tell whether the
two `FifoPortMalloc` calls return a non-null block. -/
def RcsFifoCreate (fifoSize : Nat) (handleAlloc memAlloc : Bool) : Option RcsFifoHandle_t :=
  if fifoSize = 0 then none
  else if handleAlloc = false then none
  else if memAlloc = false then none
  else some
    { memSize := fifoSize, indexWriteHead := 0, indexWriteTail := 0,
      indexReadHead := 0, indexReadTail := 0 }

/-! ## Write side -/

/-- The function `RcsFifoSendAcquire`. -/
def RcsFifoSendAcquire (fifo : Option RcsFifoHandle_t) (size : Nat)
    (memAcquired : Option Slots) : CallResult :=
  match fifo, memAcquired with
  | none, _ => ⟨RCS_FIFO_INVALID_PARAM, fifo, memAcquired⟩
  | some _, none => ⟨RCS_FIFO_INVALID_PARAM, fifo, memAcquired⟩
  | some handle, some _ =>
    if size = 0 then ⟨RCS_FIFO_INVALID_PARAM, fifo, memAcquired⟩
    else if handle.indexWriteHead ≠ handle.indexWriteTail then
      ⟨RCS_FIFO_NOT_ALLOWED, fifo, memAcquired⟩
    else if size > RCS_FIFO_FREE_SPACE handle then
      ⟨RCS_FIFO_NO_SPACE, fifo, memAcquired⟩
    else
      let head := handle.indexWriteHead
      let tail := handle.indexReadTail
      let capacity := handle.memSize
      let right := size_sub capacity head
      let out : Slots × Nat :=
        if head ≥ tail then
          if right ≥ size then ((some head, none), size)
          else ((some head, some 0), right)
        else ((some head, none), size)
      ⟨int_cast out.2,
       some { handle with indexWriteHead := size_add head size % capacity },
       some out.1⟩

/-- The function `RcsFifoSendAcquireNoSplit`. -/
def RcsFifoSendAcquireNoSplit (fifo : Option RcsFifoHandle_t) (size : Nat)
    (memAcquired : Option Slots) : CallResult :=
  match fifo, memAcquired with
  | none, _ => ⟨RCS_FIFO_INVALID_PARAM, fifo, memAcquired⟩
  | some _, none => ⟨RCS_FIFO_INVALID_PARAM, fifo, memAcquired⟩
  | some handle, some _ =>
    if size = 0 then ⟨RCS_FIFO_INVALID_PARAM, fifo, memAcquired⟩
    else if handle.indexWriteHead ≠ handle.indexWriteTail then
      ⟨RCS_FIFO_NOT_ALLOWED, fifo, memAcquired⟩
    else if size > RCS_FIFO_FREE_NOSPLIT_SPACE handle then
      ⟨RCS_FIFO_NO_SPACE, fifo, memAcquired⟩
    else
      let head := handle.indexWriteHead
      let tail := handle.indexReadTail
      let capacity := handle.memSize
      let right := size_sub capacity head
      -- `some (span 0, head, first_chunk)`, or `none` for the early return
      let sel : Option (Nat × Nat × Nat) :=
        if head ≥ tail then
          if right ≥ size then some (head, head, size)
          else if tail > size then some (0, 0, size)
          else none
        else
          if size_sub tail head > size then some (head, head, size)
          else none
      match sel with
      | none => ⟨RCS_FIFO_NOT_ALLOWED, fifo, memAcquired⟩
      | some (span, head', first_chunk) =>
        ⟨int_cast first_chunk,
         some { handle with indexWriteHead := size_add head' size % capacity },
         some (some span, none)⟩

/-- The function `RcsFifoSendComplete`. -/
def RcsFifoSendComplete (fifo : Option RcsFifoHandle_t)
    (memAcquired : Option Slots) : CallResult :=
  match fifo, memAcquired with
  | none, _ => ⟨RCS_FIFO_INVALID_PARAM, fifo, memAcquired⟩
  | some _, none => ⟨RCS_FIFO_INVALID_PARAM, fifo, memAcquired⟩
  | some _, some (none, _) => ⟨RCS_FIFO_INVALID_PARAM, fifo, memAcquired⟩
  | some handle, some (some _, _) =>
    if handle.indexWriteTail ≠ handle.indexWriteHead then
      ⟨0, some { handle with indexWriteTail := handle.indexWriteHead }, memAcquired⟩
    else ⟨0, some handle, memAcquired⟩

/-! ## Read side -/

/-- The function `RcsFifoRecvAcquire`. -/
def RcsFifoRecvAcquire (fifo : Option RcsFifoHandle_t) (size : Nat)
    (memAcquired : Option Slots) : CallResult :=
  match fifo, memAcquired with
  | none, _ => ⟨RCS_FIFO_INVALID_PARAM, fifo, memAcquired⟩
  | some _, none => ⟨RCS_FIFO_INVALID_PARAM, fifo, memAcquired⟩
  | some handle, some _ =>
    if size = 0 then ⟨RCS_FIFO_INVALID_PARAM, fifo, memAcquired⟩
    else if handle.indexReadHead ≠ handle.indexReadTail then
      ⟨RCS_FIFO_NOT_ALLOWED, fifo, memAcquired⟩
    else if size > RCS_FIFO_USED_SPACE handle then
      ⟨RCS_FIFO_NO_DATA, fifo, memAcquired⟩
    else
      let head := handle.indexReadHead
      let tail := handle.indexWriteTail
      let capacity := handle.memSize
      let right := size_sub capacity head
      let out : Slots × Nat :=
        if head ≥ tail then
          if right ≥ size then ((some head, none), size)
          else ((some head, some 0), right)
        else ((some head, none), size)
      ⟨int_cast out.2,
       some { handle with indexReadHead := size_add head size % capacity },
       some out.1⟩

/-- The function `RcsFifoRecvAcquireNoSplit`. -/
def RcsFifoRecvAcquireNoSplit (fifo : Option RcsFifoHandle_t) (size : Nat)
    (memAcquired : Option Slots) : CallResult :=
  match fifo, memAcquired with
  | none, _ => ⟨RCS_FIFO_INVALID_PARAM, fifo, memAcquired⟩
  | some _, none => ⟨RCS_FIFO_INVALID_PARAM, fifo, memAcquired⟩
  | some handle, some _ =>
    if size = 0 then ⟨RCS_FIFO_INVALID_PARAM, fifo, memAcquired⟩
    else if handle.indexReadHead ≠ handle.indexReadTail then
      ⟨RCS_FIFO_NOT_ALLOWED, fifo, memAcquired⟩
    else if size > RCS_FIFO_USED_NOSPLIT_SPACE handle then
      ⟨RCS_FIFO_NO_DATA, fifo, memAcquired⟩
    else
      let head := handle.indexReadHead
      let tail := handle.indexWriteTail
      let capacity := handle.memSize
      let right := size_sub capacity head
      -- `some (span 0, head, first_chunk)`, or `none` for the early return
      let sel : Option (Nat × Nat × Nat) :=
        if head ≥ tail then
          if right ≥ size then some (head, head, size)
          else if tail > size then some (0, 0, size)
          else none
        else
          if size_sub tail head ≥ handle.memSize then some (head, head, size)
          else none
      match sel with
      | none => ⟨RCS_FIFO_NOT_ALLOWED, fifo, memAcquired⟩
      | some (span, head', first_chunk) =>
        ⟨int_cast first_chunk,
         some { handle with indexReadHead := size_add head' size % capacity },
         some (some span, none)⟩

/-- The function `RcsFifoRecvComplete`. -/
def RcsFifoRecvComplete (fifo : Option RcsFifoHandle_t)
    (memAcquired : Option Slots) : CallResult :=
  match fifo, memAcquired with
  | none, _ => ⟨RCS_FIFO_INVALID_PARAM, fifo, memAcquired⟩
  | some _, none => ⟨RCS_FIFO_INVALID_PARAM, fifo, memAcquired⟩
  | some _, some (none, _) => ⟨RCS_FIFO_INVALID_PARAM, fifo, memAcquired⟩
  | some handle, some (some _, _) =>
    if handle.indexReadTail ≠ handle.indexReadHead then
      ⟨0, some { handle with indexReadTail := handle.indexReadHead }, memAcquired⟩
    else ⟨0, some handle, memAcquired⟩

/-! ## Call sequences -/

/-- One call of the acquire/complete interface with its arguments. -/
inductive FifoOp where
  | sendAcquire (size : Nat) (memAcquired : Option Slots)
  | sendAcquireNoSplit (size : Nat) (memAcquired : Option Slots)
  | sendComplete (memAcquired : Option Slots)
  | recvAcquire (size : Nat) (memAcquired : Option Slots)
  | recvAcquireNoSplit (size : Nat) (memAcquired : Option Slots)
  | recvComplete (memAcquired : Option Slots)
deriving DecidableEq, Repr

/-- Perform the call `op` on the handle `fifo`. -/
def FifoOp.call (op : FifoOp) (fifo : Option RcsFifoHandle_t) : CallResult :=
  match op with
  | .sendAcquire size m => RcsFifoSendAcquire fifo size m
  | .sendAcquireNoSplit size m => RcsFifoSendAcquireNoSplit fifo size m
  | .sendComplete m => RcsFifoSendComplete fifo m
  | .recvAcquire size m => RcsFifoRecvAcquire fifo size m
  | .recvAcquireNoSplit size m => RcsFifoRecvAcquireNoSplit fifo size m
  | .recvComplete m => RcsFifoRecvComplete fifo m

/-- The call is `RcsFifoSendComplete`. -/
def FifoOp.isSendComplete : FifoOp → Bool
  | .sendComplete _ => true
  | _ => false

/-- The call is `RcsFifoRecvComplete`. -/
def FifoOp.isRecvComplete : FifoOp → Bool
  | .recvComplete _ => true
  | _ => false

/-- The handle after a sequence of calls, performed from left to right. -/
def run (fifo : Option RcsFifoHandle_t) (ops : List FifoOp) : Option RcsFifoHandle_t :=
  ops.foldl (fun f op => (op.call f).fifo) fifo

/-- The descriptor `s` is reachable from a buffer created with capacity `c`
(both allocations succeeding; `RcsFifoCreateStatic` yields the same initial
descriptor) through some sequence of calls. -/
def Reachable (c : Nat) (s : RcsFifoHandle_t) : Prop :=
  ∃ ops : List FifoOp, run (RcsFifoCreate c true true) ops = some s

/-- The data model of the descriptor: a nonzero capacity whose byte counts fit
the `int` return type, and the four indices inside `[0, capacity)`. -/
def Valid (s : RcsFifoHandle_t) : Prop :=
  0 < s.memSize ∧ s.memSize ≤ INT_MAX ∧
  s.indexWriteHead < s.memSize ∧ s.indexWriteTail < s.memSize ∧
  s.indexReadHead < s.memSize ∧ s.indexReadTail < s.memSize

instance (s : RcsFifoHandle_t) : Decidable (Valid s) := by
  unfold Valid; infer_instance

/-- Cyclic distance from `a` forward to `b` in a ring of `c` positions. -/
def cdist (c a b : Nat) : Nat := if a ≤ b then b - a else c - (a - b)

/-- The region invariant: the in-flight read, the committed data and the
in-flight write, laid out from `indexReadTail` forward, fit in `memSize - 1`
positions. -/
def Ordered (s : RcsFifoHandle_t) : Prop :=
  cdist s.memSize s.indexReadTail s.indexReadHead
    + cdist s.memSize s.indexReadHead s.indexWriteTail
    + cdist s.memSize s.indexWriteTail s.indexWriteHead + 1 ≤ s.memSize

instance (s : RcsFifoHandle_t) : Decidable (Ordered s) := by
  unfold Ordered; infer_instance

/-- The index range of the data model alone: the four indices inside
`[0, memSize)`. -/
def InRange (s : RcsFifoHandle_t) : Prop :=
  s.indexWriteHead < s.memSize ∧ s.indexWriteTail < s.memSize ∧
  s.indexReadHead < s.memSize ∧ s.indexReadTail < s.memSize

instance (s : RcsFifoHandle_t) : Decidable (InRange s) := by
  unfold InRange; infer_instance

/-- `RcsFifoSendAcquire` restricted to single-span outcomes: the result of
`RcsFifoSendAcquire` when it succeeds with a null second span; otherwise a
refusal that changes nothing, `RCS_FIFO_NOT_ALLOWED` when a write is
outstanding and `RCS_FIFO_NO_SPACE` in every other case. -/
def sendAcquireSingleSpan (s : RcsFifoHandle_t) (size : Nat) (m : Slots) : CallResult :=
  if 0 ≤ (RcsFifoSendAcquire (some s) size (some m)).ret
      ∧ (RcsFifoSendAcquire (some s) size (some m)).memAcquired.map Prod.snd = some none then
    RcsFifoSendAcquire (some s) size (some m)
  else if s.indexWriteHead ≠ s.indexWriteTail then ⟨RCS_FIFO_NOT_ALLOWED, some s, some m⟩
  else ⟨RCS_FIFO_NO_SPACE, some s, some m⟩

/-! ## Outstanding acquisitions (bookkeeping of the protocol) -/

/-- Which sides hold an acquisition that has not been completed. -/
structure Outstanding where
  write : Bool
  read : Bool
deriving DecidableEq, Repr

/-- Bookkeeping of one call that returned `ret`: a successful acquire (a
non-negative return) opens an acquisition on its side, a successful complete
(return `RCS_FIFO_OK`) closes it. -/
def Outstanding.track (g : Outstanding) (op : FifoOp) (ret : Int) : Outstanding :=
  match op with
  | .sendAcquire _ _ => if 0 ≤ ret then { g with write := true } else g
  | .sendAcquireNoSplit _ _ => if 0 ≤ ret then { g with write := true } else g
  | .sendComplete _ => if ret = RCS_FIFO_OK then { g with write := false } else g
  | .recvAcquire _ _ => if 0 ≤ ret then { g with read := true } else g
  | .recvAcquireNoSplit _ _ => if 0 ≤ ret then { g with read := true } else g
  | .recvComplete _ => if ret = RCS_FIFO_OK then { g with read := false } else g

/-- The handle together with the bookkeeping after a sequence of calls. -/
def runTracked (fifo : Option RcsFifoHandle_t) (g : Outstanding) (ops : List FifoOp) :
    Option RcsFifoHandle_t × Outstanding :=
  ops.foldl (fun st op => ((op.call st.1).fifo, st.2.track op (op.call st.1).ret)) (fifo, g)

/-- The bookkeeping agrees with the indices: a side is idle (head = tail)
exactly when no acquisition is recorded as outstanding on it. -/
def Coherent (s : RcsFifoHandle_t) (g : Outstanding) : Prop :=
  (s.indexWriteHead = s.indexWriteTail ↔ g.write = false)
  ∧ (s.indexReadHead = s.indexReadTail ↔ g.read = false)

/-! ## The critical section as a nesting counter

`siso_fifo.h` ships `FifoPortEnterCriticalFromAll` and
`FifoPortExitCriticalFromAll` as empty statements. Here they increment and
decrement a nesting counter, and each `_crit` function follows the `return`
statements of its C function in order and gives the counter at the `return`
that is taken, from the counter `n` at entry. -/

/-- The hook `FifoPortEnterCriticalFromAll` as an increment of the counter. -/
def FifoPortEnterCriticalFromAll (n : Int) : Int := n + 1

/-- The hook `FifoPortExitCriticalFromAll` as a decrement of the counter. -/
def FifoPortExitCriticalFromAll (n : Int) : Int := n - 1

/-- The nesting counter when `RcsFifoSendAcquire` returns. -/
def RcsFifoSendAcquire_crit (fifo : Option RcsFifoHandle_t) (size : Nat)
    (memAcquired : Option Slots) (n : Int) : Int :=
  match fifo, memAcquired with
  | none, _ => n
  | some _, none => n
  | some handle, some _ =>
    if size = 0 then n
    else
      let n1 := FifoPortEnterCriticalFromAll n
      if handle.indexWriteHead ≠ handle.indexWriteTail then FifoPortExitCriticalFromAll n1
      else if size > RCS_FIFO_FREE_SPACE handle then FifoPortExitCriticalFromAll n1
      else FifoPortExitCriticalFromAll n1

/-- The nesting counter when `RcsFifoSendAcquireNoSplit` returns. -/
def RcsFifoSendAcquireNoSplit_crit (fifo : Option RcsFifoHandle_t) (size : Nat)
    (memAcquired : Option Slots) (n : Int) : Int :=
  match fifo, memAcquired with
  | none, _ => n
  | some _, none => n
  | some handle, some _ =>
    if size = 0 then n
    else
      let n1 := FifoPortEnterCriticalFromAll n
      if handle.indexWriteHead ≠ handle.indexWriteTail then FifoPortExitCriticalFromAll n1
      else if size > RCS_FIFO_FREE_NOSPLIT_SPACE handle then FifoPortExitCriticalFromAll n1
      else
        let head := handle.indexWriteHead
        let tail := handle.indexReadTail
        let capacity := handle.memSize
        let right := size_sub capacity head
        if head ≥ tail then
          if right ≥ size then FifoPortExitCriticalFromAll n1
          else if tail > size then FifoPortExitCriticalFromAll n1
          else FifoPortExitCriticalFromAll n1
        else
          if size_sub tail head > size then FifoPortExitCriticalFromAll n1
          else FifoPortExitCriticalFromAll n1

/-- The nesting counter when `RcsFifoSendComplete` returns. -/
def RcsFifoSendComplete_crit (fifo : Option RcsFifoHandle_t)
    (memAcquired : Option Slots) (n : Int) : Int :=
  match fifo, memAcquired with
  | none, _ => n
  | some _, none => n
  | some _, some (none, _) => n
  | some _, some (some _, _) =>
    FifoPortExitCriticalFromAll (FifoPortEnterCriticalFromAll n)

/-- The nesting counter when `RcsFifoRecvAcquire` returns. -/
def RcsFifoRecvAcquire_crit (fifo : Option RcsFifoHandle_t) (size : Nat)
    (memAcquired : Option Slots) (n : Int) : Int :=
  match fifo, memAcquired with
  | none, _ => n
  | some _, none => n
  | some handle, some _ =>
    if size = 0 then n
    else
      let n1 := FifoPortEnterCriticalFromAll n
      if handle.indexReadHead ≠ handle.indexReadTail then FifoPortExitCriticalFromAll n1
      else if size > RCS_FIFO_USED_SPACE handle then FifoPortExitCriticalFromAll n1
      else FifoPortExitCriticalFromAll n1

/-- The nesting counter when `RcsFifoRecvAcquireNoSplit` returns; the two
`return RCS_FIFO_NOT_ALLOWED;` statements behind the space check are not
preceded by `FifoPortExitCriticalFromAll()`. -/
def RcsFifoRecvAcquireNoSplit_crit (fifo : Option RcsFifoHandle_t) (size : Nat)
    (memAcquired : Option Slots) (n : Int) : Int :=
  match fifo, memAcquired with
  | none, _ => n
  | some _, none => n
  | some handle, some _ =>
    if size = 0 then n
    else
      let n1 := FifoPortEnterCriticalFromAll n
      if handle.indexReadHead ≠ handle.indexReadTail then FifoPortExitCriticalFromAll n1
      else if size > RCS_FIFO_USED_NOSPLIT_SPACE handle then FifoPortExitCriticalFromAll n1
      else
        let head := handle.indexReadHead
        let tail := handle.indexWriteTail
        let capacity := handle.memSize
        let right := size_sub capacity head
        if head ≥ tail then
          if right ≥ size then FifoPortExitCriticalFromAll n1
          else if tail > size then FifoPortExitCriticalFromAll n1
          else n1
        else
          if size_sub tail head ≥ handle.memSize then FifoPortExitCriticalFromAll n1
          else n1

/-- The nesting counter when `RcsFifoRecvComplete` returns. -/
def RcsFifoRecvComplete_crit (fifo : Option RcsFifoHandle_t)
    (memAcquired : Option Slots) (n : Int) : Int :=
  match fifo, memAcquired with
  | none, _ => n
  | some _, none => n
  | some _, some (none, _) => n
  | some _, some (some _, _) =>
    FifoPortExitCriticalFromAll (FifoPortEnterCriticalFromAll n)

/-! ## Storage access by the caller (as in `src/test/fifo_test.cpp`) -/

/-- The storage block `handle->mem`: the byte at each offset. -/
abbrev Mem := Nat → Nat

/-- The call `memcpy(&mem[off], src, src.length)`. -/
def memcpy_to (mem : Mem) (off : Nat) : List Nat → Mem
  | [] => mem
  | b :: bs => memcpy_to (fun a => if a = off then b else mem a) (off + 1) bs

/-- The `n` bytes starting at `&mem[off]`. -/
def bytes_at (mem : Mem) (off n : Nat) : List Nat :=
  (List.range n).map (fun i => mem (off + i))

/-- Fill the acquired spans as the loop-back tests do: the first
`firstLen` bytes of `data` go to span 0, the rest to span 1 (a null span
receives nothing). -/
def fillSpans (mem : Mem) (blk : Slots) (firstLen : Nat) (data : List Nat) : Mem :=
  let m1 := match blk.1 with
    | some o0 => memcpy_to mem o0 (data.take firstLen)
    | none => mem
  match blk.2 with
  | some o1 => memcpy_to m1 o1 (data.drop firstLen)
  | none => m1

/-- Collect the acquired spans as the loop-back tests do: `rxFirst` bytes of
span 0 followed by `size - rxFirst` bytes of span 1 (a null span yields
nothing). -/
def readSpans (mem : Mem) (blk : Slots) (rxFirst size : Nat) : List Nat :=
  (match blk.1 with
    | some o0 => bytes_at mem o0 rxFirst
    | none => [])
  ++ (match blk.2 with
    | some o1 => bytes_at mem o1 (size - rxFirst)
    | none => [])

/-- The capacity-16 buffer of the test fixture after 13 bytes went through it
(step 1 of `Loopback_Trunc_Boundary`): all four indices at 13. -/
def fifo16_at13 : RcsFifoHandle_t := ⟨16, 13, 13, 13, 13⟩

/-- The capacity-16 buffer of the test fixture with an acquisition outstanding
on both sides: 3 committed bytes are being read while 3 more are being
written. -/
def fifo16_busy : RcsFifoHandle_t := ⟨16, 6, 3, 3, 0⟩

/-- The capacity-16 buffer of the test fixture holding 5 committed bytes (as in
`ReadRead_NoTrunc_Boundary` after the write is completed). -/
def fifo16_five : RcsFifoHandle_t := ⟨16, 5, 5, 0, 0⟩

/-- The calls that lead from creation to `fifo16_five`. -/
def ops_five : List FifoOp :=
  [.sendAcquire 5 (some (none, none)), .sendComplete (some (some 0, none))]

/-- The calls of `OperationAllowed` up to the first write acquisition. -/
def ops_acquired : List FifoOp := [.sendAcquire 3 (some (none, none))]

/-- The capacity-16 buffer of the test fixture after 13 bytes were written and
committed and 2 of them read and released. -/
def fifo16_13_2 : RcsFifoHandle_t := ⟨16, 13, 13, 2, 2⟩

/-- The capacity-16 buffer of the test fixture with 5 committed bytes that
straddle the physical end (offsets 13, 14, 15, 0, 1), as after step 3 of
`Loopback_Trunc_Boundary` with a 5-byte write. -/
def fifo16_wrapped : RcsFifoHandle_t := ⟨16, 2, 2, 13, 13⟩

/-- The calls that lead from creation to `fifo16_at13`. -/
def ops_at13 : List FifoOp :=
  [.sendAcquire 13 (some (none, none)), .sendComplete (some (some 0, none)),
   .recvAcquire 13 (some (none, none)), .recvComplete (some (some 0, none))]

/-- The calls that lead from creation to `fifo16_13_2`. -/
def ops_13_2 : List FifoOp :=
  [.sendAcquire 13 (some (none, none)), .sendComplete (some (some 0, none)),
   .recvAcquire 2 (some (none, none)), .recvComplete (some (some 0, none))]

/-- The calls that lead from creation to `fifo16_wrapped`. -/
def ops_wrapped : List FifoOp :=
  ops_at13 ++ [.sendAcquire 5 (some (none, none)), .sendComplete (some (some 13, some 0))]

/-- The calls that lead from creation to `fifo16_busy`. -/
def ops_busy : List FifoOp :=
  [.sendAcquire 3 (some (none, none)), .sendComplete (some (some 0, none)),
   .sendAcquire 3 (some (none, none)), .recvAcquire 3 (some (none, none))]

/-! ## A full buffer of capacity `2^63 + 1` -/

theorem mod_wrap (x c : Nat) (h : x < 2 * c) : x % c = if x < c then x else x - c := by
  split
  · exact Nat.mod_eq_of_lt (by assumption)
  · rw [Nat.mod_eq_sub_mod (by omega)]
    exact Nat.mod_eq_of_lt (by omega)

theorem size_sub_eq {a b : Nat} (hb : b ≤ a) (ha : a < SIZE_MOD) : size_sub a b = a - b := by
  unfold size_sub SIZE_MOD at *
  omega

theorem size_add_eq {a b : Nat} (h : a + b < SIZE_MOD) : size_add a b = a + b := by
  unfold size_add SIZE_MOD at *
  omega

theorem int_cast_eq {x : Nat} (h : x ≤ INT_MAX) : int_cast x = (x : Int) := by
  unfold int_cast INT_MAX at *
  have : x % 4294967296 = x := Nat.mod_eq_of_lt (by omega)
  rw [this, if_pos (by omega)]

theorem free_space_eq {s : RcsFifoHandle_t} (hv : Valid s) :
    RCS_FIFO_FREE_SPACE s =
      if s.indexReadTail > s.indexWriteHead then s.indexReadTail - s.indexWriteHead - 1
      else s.memSize - (s.indexWriteHead - s.indexReadTail) - 1 := by
  obtain ⟨h0, hmax, hwh, hwt, hrh, hrt⟩ := hv
  unfold RCS_FIFO_FREE_SPACE size_sub SIZE_MOD
  unfold INT_MAX at hmax
  split <;> omega

theorem used_space_eq {s : RcsFifoHandle_t} (hv : Valid s) :
    RCS_FIFO_USED_SPACE s =
      if s.indexWriteTail ≥ s.indexReadHead then s.indexWriteTail - s.indexReadHead
      else s.memSize - (s.indexReadHead - s.indexWriteTail) := by
  obtain ⟨h0, hmax, hwh, hwt, hrh, hrt⟩ := hv
  unfold RCS_FIFO_USED_SPACE size_sub SIZE_MOD
  unfold INT_MAX at hmax
  split <;> omega

theorem sendAcquire_ok {s : RcsFifoHandle_t} (m : Slots) {size : Nat} (hv : Valid s)
    (hidle : s.indexWriteHead = s.indexWriteTail) (h0 : 0 < size)
    (hfree : size ≤ RCS_FIFO_FREE_SPACE s) :
    RcsFifoSendAcquire (some s) size (some m) =
      ⟨((if s.indexReadTail ≤ s.indexWriteHead ∧ s.memSize - s.indexWriteHead < size
          then s.memSize - s.indexWriteHead else size : Nat) : Int),
       some { s with indexWriteHead := (s.indexWriteHead + size) % s.memSize },
       some (some s.indexWriteHead,
          if s.indexReadTail ≤ s.indexWriteHead ∧ s.memSize - s.indexWriteHead < size
          then some 0 else none)⟩ := by
  have hfree' := hfree
  rw [free_space_eq hv] at hfree'
  obtain ⟨hc0, hmax, hwh, hwt, hrh, hrt⟩ := hv
  have hsz : size < s.memSize := by split at hfree' <;> omega
  have hmax' : s.memSize ≤ 2147483647 := hmax
  have hM : s.memSize < SIZE_MOD := by unfold SIZE_MOD; omega
  have hr : size_sub s.memSize s.indexWriteHead = s.memSize - s.indexWriteHead :=
    size_sub_eq (by omega) hM
  have ha : size_add s.indexWriteHead size = s.indexWriteHead + size :=
    size_add_eq (by unfold SIZE_MOD; omega)
  have hi1 : int_cast size = (size : Int) := int_cast_eq (by unfold INT_MAX; omega)
  have hi2 : int_cast (s.memSize - s.indexWriteHead) = ((s.memSize - s.indexWriteHead : Nat) : Int) :=
    int_cast_eq (by unfold INT_MAX; omega)
  have hidle' : ¬ (s.indexWriteHead ≠ s.indexWriteTail) := fun h => h hidle
  unfold RcsFifoSendAcquire
  dsimp only
  rw [if_neg (Nat.pos_iff_ne_zero.mp h0), if_neg hidle', if_neg (Nat.not_lt.mpr hfree), hr, ha]
  by_cases h1 : s.indexReadTail ≤ s.indexWriteHead
  · by_cases h2 : size ≤ s.memSize - s.indexWriteHead
    · simp [h1, Nat.not_lt.mpr h2, h2, hi1]
    · simp [h1, h2, hi2, Nat.lt_of_not_le h2]
  · simp [h1, hi1]

theorem recvAcquire_ok {s : RcsFifoHandle_t} (m : Slots) {size : Nat} (hv : Valid s)
    (hidle : s.indexReadHead = s.indexReadTail) (h0 : 0 < size)
    (hused : size ≤ RCS_FIFO_USED_SPACE s) :
    RcsFifoRecvAcquire (some s) size (some m) =
      ⟨((if s.indexWriteTail ≤ s.indexReadHead ∧ s.memSize - s.indexReadHead < size
          then s.memSize - s.indexReadHead else size : Nat) : Int),
       some { s with indexReadHead := (s.indexReadHead + size) % s.memSize },
       some (some s.indexReadHead,
          if s.indexWriteTail ≤ s.indexReadHead ∧ s.memSize - s.indexReadHead < size
          then some 0 else none)⟩ := by
  have hused' := hused
  rw [used_space_eq hv] at hused'
  obtain ⟨hc0, hmax, hwh, hwt, hrh, hrt⟩ := hv
  have hsz : size < s.memSize := by split at hused' <;> omega
  have hmax' : s.memSize ≤ 2147483647 := hmax
  have hM : s.memSize < SIZE_MOD := by unfold SIZE_MOD; omega
  have hr : size_sub s.memSize s.indexReadHead = s.memSize - s.indexReadHead :=
    size_sub_eq (by omega) hM
  have ha : size_add s.indexReadHead size = s.indexReadHead + size :=
    size_add_eq (by unfold SIZE_MOD; omega)
  have hi1 : int_cast size = (size : Int) := int_cast_eq (by unfold INT_MAX; omega)
  have hi2 : int_cast (s.memSize - s.indexReadHead) = ((s.memSize - s.indexReadHead : Nat) : Int) :=
    int_cast_eq (by unfold INT_MAX; omega)
  have hidle' : ¬ (s.indexReadHead ≠ s.indexReadTail) := fun h => h hidle
  unfold RcsFifoRecvAcquire
  dsimp only
  rw [if_neg (Nat.pos_iff_ne_zero.mp h0), if_neg hidle', if_neg (Nat.not_lt.mpr hused), hr, ha]
  by_cases h1 : s.indexWriteTail ≤ s.indexReadHead
  · by_cases h2 : size ≤ s.memSize - s.indexReadHead
    · simp [h1, Nat.not_lt.mpr h2, h2, hi1]
    · simp [h1, h2, hi2, Nat.lt_of_not_le h2]
  · simp [h1, hi1]

theorem sendComplete_ok (s : RcsFifoHandle_t) (o : Nat) (x : Ptr) :
    RcsFifoSendComplete (some s) (some (some o, x)) =
      ⟨RCS_FIFO_OK, some { s with indexWriteTail := s.indexWriteHead }, some (some o, x)⟩ := by
  unfold RcsFifoSendComplete RCS_FIFO_OK
  dsimp only
  split
  · rfl
  · rename_i h
    have h' : s.indexWriteTail = s.indexWriteHead := not_not.mp h
    cases s
    simp_all

theorem recvComplete_ok (s : RcsFifoHandle_t) (o : Nat) (x : Ptr) :
    RcsFifoRecvComplete (some s) (some (some o, x)) =
      ⟨RCS_FIFO_OK, some { s with indexReadTail := s.indexReadHead }, some (some o, x)⟩ := by
  unfold RcsFifoRecvComplete RCS_FIFO_OK
  dsimp only
  split
  · rfl
  · rename_i h
    have h' : s.indexReadTail = s.indexReadHead := not_not.mp h
    cases s
    simp_all

theorem free_nosplit_eq {s : RcsFifoHandle_t} (hv : Valid s) :
    RCS_FIFO_FREE_NOSPLIT_SPACE s =
      if s.indexReadTail > s.indexWriteHead then s.indexReadTail - s.indexWriteHead - 1
      else s.memSize - s.indexWriteHead - (if s.indexReadTail = 0 then 1 else 0) := by
  obtain ⟨h0, hmax, hwh, hwt, hrh, hrt⟩ := hv
  unfold RCS_FIFO_FREE_NOSPLIT_SPACE size_sub SIZE_MOD
  unfold INT_MAX at hmax
  split
  · omega
  · split <;> omega

theorem used_nosplit_eq {s : RcsFifoHandle_t} (hv : Valid s) :
    RCS_FIFO_USED_NOSPLIT_SPACE s =
      if s.indexWriteTail ≥ s.indexReadHead then s.indexWriteTail - s.indexReadHead
      else s.memSize - s.indexReadHead := by
  obtain ⟨h0, hmax, hwh, hwt, hrh, hrt⟩ := hv
  unfold RCS_FIFO_USED_NOSPLIT_SPACE size_sub SIZE_MOD
  unfold INT_MAX at hmax
  split <;> omega

theorem sendAcquireNoSplit_ok {s : RcsFifoHandle_t} (m : Slots) {size : Nat} (hv : Valid s)
    (hidle : s.indexWriteHead = s.indexWriteTail) (h0 : 0 < size)
    (hfree : size ≤ RCS_FIFO_FREE_NOSPLIT_SPACE s) :
    RcsFifoSendAcquireNoSplit (some s) size (some m) =
      ⟨(size : Int), some { s with indexWriteHead := (s.indexWriteHead + size) % s.memSize },
       some (some s.indexWriteHead, none)⟩ := by
  have hfree' := hfree
  rw [free_nosplit_eq hv] at hfree'
  obtain ⟨hc0, hmax, hwh, hwt, hrh, hrt⟩ := hv
  have hsz : size ≤ s.memSize - s.indexWriteHead := by split at hfree' <;> omega
  have hmax' : s.memSize ≤ 2147483647 := hmax
  have hM : s.memSize < SIZE_MOD := by unfold SIZE_MOD; omega
  have hr : size_sub s.memSize s.indexWriteHead = s.memSize - s.indexWriteHead :=
    size_sub_eq (by omega) hM
  have ha : size_add s.indexWriteHead size = s.indexWriteHead + size :=
    size_add_eq (by unfold SIZE_MOD; omega)
  have hi1 : int_cast size = (size : Int) := int_cast_eq (by unfold INT_MAX; omega)
  have hidle' : ¬ (s.indexWriteHead ≠ s.indexWriteTail) := fun h => h hidle
  unfold RcsFifoSendAcquireNoSplit
  dsimp only
  rw [if_neg (Nat.pos_iff_ne_zero.mp h0), if_neg hidle', if_neg (Nat.not_lt.mpr hfree), hr]
  by_cases h1 : s.indexReadTail ≤ s.indexWriteHead
  · simp [h1, hsz, hi1, ha]
  · have hts : size_sub s.indexReadTail s.indexWriteHead = s.indexReadTail - s.indexWriteHead :=
      size_sub_eq (by omega) (by omega)
    have h3 : size < s.indexReadTail - s.indexWriteHead := by
      rw [if_pos (by omega)] at hfree'; omega
    simp [h1, hts, h3, hi1, ha]

theorem recvAcquireNoSplit_ok {s : RcsFifoHandle_t} (m : Slots) {size : Nat} (hv : Valid s)
    (hidle : s.indexReadHead = s.indexReadTail) (h0 : 0 < size)
    (hused : size ≤ RCS_FIFO_USED_NOSPLIT_SPACE s) :
    RcsFifoRecvAcquireNoSplit (some s) size (some m) =
      if s.indexWriteTail < s.indexReadHead then
        ⟨(size : Int), some { s with indexReadHead := (s.indexReadHead + size) % s.memSize },
         some (some s.indexReadHead, none)⟩
      else ⟨RCS_FIFO_NOT_ALLOWED, some s, some m⟩ := by
  have hused' := hused
  rw [used_nosplit_eq hv] at hused'
  obtain ⟨hc0, hmax, hwh, hwt, hrh, hrt⟩ := hv
  have hmax' : s.memSize ≤ 2147483647 := hmax
  have hM : s.memSize < SIZE_MOD := by unfold SIZE_MOD; omega
  have hr : size_sub s.memSize s.indexReadHead = s.memSize - s.indexReadHead :=
    size_sub_eq (by omega) hM
  have hidle' : ¬ (s.indexReadHead ≠ s.indexReadTail) := fun h => h hidle
  unfold RcsFifoRecvAcquireNoSplit
  dsimp only
  rw [if_neg (Nat.pos_iff_ne_zero.mp h0), if_neg hidle', if_neg (Nat.not_lt.mpr hused), hr]
  by_cases h1 : s.indexWriteTail < s.indexReadHead
  · have hsz : size ≤ s.memSize - s.indexReadHead := by rw [if_neg (by omega)] at hused'; omega
    have ha : size_add s.indexReadHead size = s.indexReadHead + size :=
      size_add_eq (by unfold SIZE_MOD; omega)
    have hi1 : int_cast size = (size : Int) := int_cast_eq (by unfold INT_MAX; omega)
    simp [h1, Nat.le_of_lt h1, hsz, hi1, ha]
  · have h2 : s.indexReadHead < s.indexWriteTail := by
      rw [if_pos (by omega)] at hused'; omega
    have hts : size_sub s.indexWriteTail s.indexReadHead = s.indexWriteTail - s.indexReadHead :=
      size_sub_eq (by omega) (by omega)
    have h3 : ¬ (s.indexWriteTail ≤ s.indexReadHead) := by omega
    have h4 : ¬ (s.memSize ≤ s.indexWriteTail - s.indexReadHead) := by omega
    simp [h1, h3, hts, h4]

/-! ## Outcomes of the calls and preservation of the invariants -/

theorem sendAcquire_cases (s : RcsFifoHandle_t) (size : Nat) (mo : Option Slots) :
    (∃ e : Int, e < 0 ∧ RcsFifoSendAcquire (some s) size mo = ⟨e, some s, mo⟩) ∨
    (∃ m, mo = some m ∧ 0 < size ∧ s.indexWriteHead = s.indexWriteTail
      ∧ size ≤ RCS_FIFO_FREE_SPACE s) := by
  cases mo with
  | none => exact Or.inl ⟨RCS_FIFO_INVALID_PARAM, by decide, rfl⟩
  | some m =>
    by_cases h0 : size = 0
    · exact Or.inl ⟨RCS_FIFO_INVALID_PARAM, by decide, by simp [RcsFifoSendAcquire, h0]⟩
    · by_cases h1 : s.indexWriteHead = s.indexWriteTail
      · by_cases h2 : size > RCS_FIFO_FREE_SPACE s
        · refine Or.inl ⟨RCS_FIFO_NO_SPACE, by decide, ?_⟩
          unfold RcsFifoSendAcquire
          dsimp only
          rw [if_neg h0, if_neg (fun h => h h1), if_pos h2]
        · exact Or.inr ⟨m, rfl, Nat.pos_of_ne_zero h0, h1, Nat.le_of_not_lt h2⟩
      · refine Or.inl ⟨RCS_FIFO_NOT_ALLOWED, by decide, ?_⟩
        unfold RcsFifoSendAcquire
        dsimp only
        rw [if_neg h0, if_pos h1]

theorem sendAcquireNoSplit_cases (s : RcsFifoHandle_t) (size : Nat) (mo : Option Slots) :
    (∃ e : Int, e < 0 ∧ RcsFifoSendAcquireNoSplit (some s) size mo = ⟨e, some s, mo⟩) ∨
    (∃ m, mo = some m ∧ 0 < size ∧ s.indexWriteHead = s.indexWriteTail
      ∧ size ≤ RCS_FIFO_FREE_NOSPLIT_SPACE s) := by
  cases mo with
  | none => exact Or.inl ⟨RCS_FIFO_INVALID_PARAM, by decide, rfl⟩
  | some m =>
    by_cases h0 : size = 0
    · exact Or.inl ⟨RCS_FIFO_INVALID_PARAM, by decide, by simp [RcsFifoSendAcquireNoSplit, h0]⟩
    · by_cases h1 : s.indexWriteHead = s.indexWriteTail
      · by_cases h2 : size > RCS_FIFO_FREE_NOSPLIT_SPACE s
        · refine Or.inl ⟨RCS_FIFO_NO_SPACE, by decide, ?_⟩
          unfold RcsFifoSendAcquireNoSplit
          dsimp only
          rw [if_neg h0, if_neg (fun h => h h1), if_pos h2]
        · exact Or.inr ⟨m, rfl, Nat.pos_of_ne_zero h0, h1, Nat.le_of_not_lt h2⟩
      · refine Or.inl ⟨RCS_FIFO_NOT_ALLOWED, by decide, ?_⟩
        unfold RcsFifoSendAcquireNoSplit
        dsimp only
        rw [if_neg h0, if_pos h1]

theorem recvAcquire_cases (s : RcsFifoHandle_t) (size : Nat) (mo : Option Slots) :
    (∃ e : Int, e < 0 ∧ RcsFifoRecvAcquire (some s) size mo = ⟨e, some s, mo⟩) ∨
    (∃ m, mo = some m ∧ 0 < size ∧ s.indexReadHead = s.indexReadTail
      ∧ size ≤ RCS_FIFO_USED_SPACE s) := by
  cases mo with
  | none => exact Or.inl ⟨RCS_FIFO_INVALID_PARAM, by decide, rfl⟩
  | some m =>
    by_cases h0 : size = 0
    · exact Or.inl ⟨RCS_FIFO_INVALID_PARAM, by decide, by simp [RcsFifoRecvAcquire, h0]⟩
    · by_cases h1 : s.indexReadHead = s.indexReadTail
      · by_cases h2 : size > RCS_FIFO_USED_SPACE s
        · refine Or.inl ⟨RCS_FIFO_NO_DATA, by decide, ?_⟩
          unfold RcsFifoRecvAcquire
          dsimp only
          rw [if_neg h0, if_neg (fun h => h h1), if_pos h2]
        · exact Or.inr ⟨m, rfl, Nat.pos_of_ne_zero h0, h1, Nat.le_of_not_lt h2⟩
      · refine Or.inl ⟨RCS_FIFO_NOT_ALLOWED, by decide, ?_⟩
        unfold RcsFifoRecvAcquire
        dsimp only
        rw [if_neg h0, if_pos h1]

theorem recvAcquireNoSplit_cases (s : RcsFifoHandle_t) (size : Nat) (mo : Option Slots) :
    (∃ e : Int, e < 0 ∧ RcsFifoRecvAcquireNoSplit (some s) size mo = ⟨e, some s, mo⟩) ∨
    (∃ m, mo = some m ∧ 0 < size ∧ s.indexReadHead = s.indexReadTail
      ∧ size ≤ RCS_FIFO_USED_NOSPLIT_SPACE s) := by
  cases mo with
  | none => exact Or.inl ⟨RCS_FIFO_INVALID_PARAM, by decide, rfl⟩
  | some m =>
    by_cases h0 : size = 0
    · exact Or.inl ⟨RCS_FIFO_INVALID_PARAM, by decide, by simp [RcsFifoRecvAcquireNoSplit, h0]⟩
    · by_cases h1 : s.indexReadHead = s.indexReadTail
      · by_cases h2 : size > RCS_FIFO_USED_NOSPLIT_SPACE s
        · refine Or.inl ⟨RCS_FIFO_NO_DATA, by decide, ?_⟩
          unfold RcsFifoRecvAcquireNoSplit
          dsimp only
          rw [if_neg h0, if_neg (fun h => h h1), if_pos h2]
        · exact Or.inr ⟨m, rfl, Nat.pos_of_ne_zero h0, h1, Nat.le_of_not_lt h2⟩
      · refine Or.inl ⟨RCS_FIFO_NOT_ALLOWED, by decide, ?_⟩
        unfold RcsFifoRecvAcquireNoSplit
        dsimp only
        rw [if_neg h0, if_pos h1]

theorem sendComplete_cases (s : RcsFifoHandle_t) (mo : Option Slots) :
    RcsFifoSendComplete (some s) mo = ⟨RCS_FIFO_INVALID_PARAM, some s, mo⟩ ∨
    RcsFifoSendComplete (some s) mo =
      ⟨RCS_FIFO_OK, some { s with indexWriteTail := s.indexWriteHead }, mo⟩ := by
  rcases mo with _ | ⟨_ | o, x⟩
  · exact Or.inl rfl
  · exact Or.inl rfl
  · exact Or.inr (sendComplete_ok s o x)

theorem recvComplete_cases (s : RcsFifoHandle_t) (mo : Option Slots) :
    RcsFifoRecvComplete (some s) mo = ⟨RCS_FIFO_INVALID_PARAM, some s, mo⟩ ∨
    RcsFifoRecvComplete (some s) mo =
      ⟨RCS_FIFO_OK, some { s with indexReadTail := s.indexReadHead }, mo⟩ := by
  rcases mo with _ | ⟨_ | o, x⟩
  · exact Or.inl rfl
  · exact Or.inl rfl
  · exact Or.inr (recvComplete_ok s o x)

theorem valid_advance_wh {s : RcsFifoHandle_t} (hv : Valid s) (x : Nat) :
    Valid { s with indexWriteHead := x % s.memSize } := by
  obtain ⟨h0, hmax, hwh, hwt, hrh, hrt⟩ := hv
  exact ⟨h0, hmax, Nat.mod_lt _ h0, hwt, hrh, hrt⟩

theorem valid_advance_rh {s : RcsFifoHandle_t} (hv : Valid s) (x : Nat) :
    Valid { s with indexReadHead := x % s.memSize } := by
  obtain ⟨h0, hmax, hwh, hwt, hrh, hrt⟩ := hv
  exact ⟨h0, hmax, hwh, hwt, Nat.mod_lt _ h0, hrt⟩

theorem ordered_send {s : RcsFifoHandle_t} {size : Nat} (hv : Valid s) (ho : Ordered s)
    (hidle : s.indexWriteHead = s.indexWriteTail) (hfree : size ≤ RCS_FIFO_FREE_SPACE s) :
    Ordered { s with indexWriteHead := (s.indexWriteHead + size) % s.memSize } := by
  rw [free_space_eq hv] at hfree
  obtain ⟨h0, hmax, hwh, hwt, hrh, hrt⟩ := hv
  have hsz : size < s.memSize := by split at hfree <;> omega
  have hm := mod_wrap (s.indexWriteHead + size) s.memSize (by omega)
  unfold Ordered cdist at *
  simp only
  rw [hm]
  split_ifs at * <;> omega

theorem free_nosplit_le {s : RcsFifoHandle_t} (hv : Valid s) :
    RCS_FIFO_FREE_NOSPLIT_SPACE s ≤ RCS_FIFO_FREE_SPACE s := by
  rw [free_space_eq hv, free_nosplit_eq hv]
  obtain ⟨h0, hmax, hwh, hwt, hrh, hrt⟩ := hv
  split_ifs <;> omega

theorem ordered_recv {s : RcsFifoHandle_t} {size : Nat} (hv : Valid s) (ho : Ordered s)
    (hidle : s.indexReadHead = s.indexReadTail) (hused : size ≤ RCS_FIFO_USED_SPACE s) :
    Ordered { s with indexReadHead := (s.indexReadHead + size) % s.memSize } := by
  rw [used_space_eq hv] at hused
  obtain ⟨h0, hmax, hwh, hwt, hrh, hrt⟩ := hv
  have hsz : size < s.memSize := by split at hused <;> omega
  have hm := mod_wrap (s.indexReadHead + size) s.memSize (by omega)
  unfold Ordered cdist at *
  simp only
  rw [hm]
  split_ifs at * <;> omega

theorem used_nosplit_le {s : RcsFifoHandle_t} (hv : Valid s) :
    RCS_FIFO_USED_NOSPLIT_SPACE s ≤ RCS_FIFO_USED_SPACE s := by
  rw [used_space_eq hv, used_nosplit_eq hv]
  obtain ⟨h0, hmax, hwh, hwt, hrh, hrt⟩ := hv
  split_ifs <;> omega

theorem ordered_sendComplete {s : RcsFifoHandle_t} (hv : Valid s) (ho : Ordered s) :
    Ordered { s with indexWriteTail := s.indexWriteHead } := by
  obtain ⟨h0, hmax, hwh, hwt, hrh, hrt⟩ := hv
  unfold Ordered cdist at *
  simp only
  split_ifs at * <;> omega

theorem ordered_recvComplete {s : RcsFifoHandle_t} (hv : Valid s) (ho : Ordered s) :
    Ordered { s with indexReadTail := s.indexReadHead } := by
  obtain ⟨h0, hmax, hwh, hwt, hrh, hrt⟩ := hv
  unfold Ordered cdist at *
  simp only
  split_ifs at * <;> omega

theorem call_inv (op : FifoOp) {s : RcsFifoHandle_t} (hv : Valid s) (ho : Ordered s) :
    ∃ t, (op.call (some s)).fifo = some t ∧ Valid t ∧ Ordered t ∧ t.memSize = s.memSize := by
  cases op with
  | sendAcquire size mo =>
    rcases sendAcquire_cases s size mo with ⟨e, _, he⟩ | ⟨m, rfl, h0, hidle, hfree⟩
    · exact ⟨s, by simp [FifoOp.call, he], hv, ho, rfl⟩
    · exact ⟨_, by simp only [FifoOp.call, sendAcquire_ok m hv hidle h0 hfree],
        valid_advance_wh hv _, ordered_send hv ho hidle hfree, rfl⟩
  | sendAcquireNoSplit size mo =>
    rcases sendAcquireNoSplit_cases s size mo with ⟨e, _, he⟩ | ⟨m, rfl, h0, hidle, hfree⟩
    · exact ⟨s, by simp [FifoOp.call, he], hv, ho, rfl⟩
    · exact ⟨_, by simp only [FifoOp.call, sendAcquireNoSplit_ok m hv hidle h0 hfree],
        valid_advance_wh hv _,
        ordered_send hv ho hidle (Nat.le_trans hfree (free_nosplit_le hv)), rfl⟩
  | sendComplete mo =>
    rcases sendComplete_cases s mo with he | he
    · exact ⟨s, by simp [FifoOp.call, he], hv, ho, rfl⟩
    · refine ⟨_, by simp only [FifoOp.call, he], ?_, ordered_sendComplete hv ho, rfl⟩
      obtain ⟨h0, hmax, hwh, hwt, hrh, hrt⟩ := hv
      exact ⟨h0, hmax, hwh, hwh, hrh, hrt⟩
  | recvAcquire size mo =>
    rcases recvAcquire_cases s size mo with ⟨e, _, he⟩ | ⟨m, rfl, h0, hidle, hused⟩
    · exact ⟨s, by simp [FifoOp.call, he], hv, ho, rfl⟩
    · exact ⟨_, by simp only [FifoOp.call, recvAcquire_ok m hv hidle h0 hused],
        valid_advance_rh hv _, ordered_recv hv ho hidle hused, rfl⟩
  | recvAcquireNoSplit size mo =>
    rcases recvAcquireNoSplit_cases s size mo with ⟨e, _, he⟩ | ⟨m, rfl, h0, hidle, hused⟩
    · exact ⟨s, by simp [FifoOp.call, he], hv, ho, rfl⟩
    · have hr := recvAcquireNoSplit_ok m hv hidle h0 hused
      by_cases hlt : s.indexWriteTail < s.indexReadHead
      · rw [if_pos hlt] at hr
        exact ⟨_, by simp only [FifoOp.call, hr], valid_advance_rh hv _,
          ordered_recv hv ho hidle (Nat.le_trans hused (used_nosplit_le hv)), rfl⟩
      · rw [if_neg hlt] at hr
        exact ⟨s, by simp only [FifoOp.call, hr], hv, ho, rfl⟩
  | recvComplete mo =>
    rcases recvComplete_cases s mo with he | he
    · exact ⟨s, by simp [FifoOp.call, he], hv, ho, rfl⟩
    · refine ⟨_, by simp only [FifoOp.call, he], ?_, ordered_recvComplete hv ho, rfl⟩
      obtain ⟨h0, hmax, hwh, hwt, hrh, hrt⟩ := hv
      exact ⟨h0, hmax, hwh, hwt, hrh, hrh⟩

theorem run_inv (ops : List FifoOp) : ∀ {s : RcsFifoHandle_t}, Valid s → Ordered s →
    ∃ t, run (some s) ops = some t ∧ Valid t ∧ Ordered t ∧ t.memSize = s.memSize := by
  induction ops with
  | nil => intro s hv ho; exact ⟨s, rfl, hv, ho, rfl⟩
  | cons op ops ih =>
    intro s hv ho
    obtain ⟨t, ht, hvt, hot, hmt⟩ := call_inv op hv ho
    obtain ⟨u, hu, hvu, hou, hmu⟩ := ih hvt hot
    refine ⟨u, ?_, hvu, hou, hmu.trans hmt⟩
    show run ((op.call (some s)).fifo) ops = some u
    rw [ht]; exact hu

theorem call_none (op : FifoOp) : (op.call none).fifo = none := by
  cases op <;> rfl

theorem run_none (ops : List FifoOp) : run none ops = none := by
  induction ops with
  | nil => rfl
  | cons op ops ih =>
    show run ((op.call none).fifo) ops = none
    rw [call_none]; exact ih

theorem create_eq {c : Nat} (hc : 0 < c) :
    RcsFifoCreate c true true = some ⟨c, 0, 0, 0, 0⟩ := by
  unfold RcsFifoCreate
  simp [Nat.pos_iff_ne_zero.mp hc]

theorem reachable_inv {c : Nat} {s : RcsFifoHandle_t} (hc : c ≤ INT_MAX)
    (h : Reachable c s) : Valid s ∧ Ordered s ∧ s.memSize = c := by
  obtain ⟨ops, hops⟩ := h
  by_cases h0 : c = 0
  · subst h0
    have : RcsFifoCreate 0 true true = none := rfl
    rw [this, run_none] at hops
    exact absurd hops (by simp)
  · have hpos : 0 < c := Nat.pos_of_ne_zero h0
    rw [create_eq hpos] at hops
    have hv : Valid ⟨c, 0, 0, 0, 0⟩ := ⟨hpos, hc, hpos, hpos, hpos, hpos⟩
    have ho : Ordered ⟨c, 0, 0, 0, 0⟩ := by
      unfold Ordered cdist; simp only [le_refl, if_true]; omega
    obtain ⟨t, ht, hvt, hot, hmt⟩ := run_inv ops hv ho
    rw [ht] at hops
    cases hops
    exact ⟨hvt, hot, hmt⟩

theorem sendAcquire_not_allowed (s : RcsFifoHandle_t) (m : Slots) {size : Nat} (h0 : size ≠ 0)
    (h : s.indexWriteHead ≠ s.indexWriteTail) :
    RcsFifoSendAcquire (some s) size (some m) = ⟨RCS_FIFO_NOT_ALLOWED, some s, some m⟩ := by
  unfold RcsFifoSendAcquire
  dsimp only
  rw [if_neg h0, if_pos h]

theorem sendAcquireNoSplit_not_allowed (s : RcsFifoHandle_t) (m : Slots) {size : Nat}
    (h0 : size ≠ 0) (h : s.indexWriteHead ≠ s.indexWriteTail) :
    RcsFifoSendAcquireNoSplit (some s) size (some m) = ⟨RCS_FIFO_NOT_ALLOWED, some s, some m⟩ := by
  unfold RcsFifoSendAcquireNoSplit
  dsimp only
  rw [if_neg h0, if_pos h]

theorem recvAcquire_not_allowed (s : RcsFifoHandle_t) (m : Slots) {size : Nat} (h0 : size ≠ 0)
    (h : s.indexReadHead ≠ s.indexReadTail) :
    RcsFifoRecvAcquire (some s) size (some m) = ⟨RCS_FIFO_NOT_ALLOWED, some s, some m⟩ := by
  unfold RcsFifoRecvAcquire
  dsimp only
  rw [if_neg h0, if_pos h]

theorem recvAcquireNoSplit_not_allowed (s : RcsFifoHandle_t) (m : Slots) {size : Nat}
    (h0 : size ≠ 0) (h : s.indexReadHead ≠ s.indexReadTail) :
    RcsFifoRecvAcquireNoSplit (some s) size (some m) = ⟨RCS_FIFO_NOT_ALLOWED, some s, some m⟩ := by
  unfold RcsFifoRecvAcquireNoSplit
  dsimp only
  rw [if_neg h0, if_pos h]

theorem sendAcquire_no_space (s : RcsFifoHandle_t) (m : Slots) {size : Nat} (h0 : size ≠ 0)
    (hidle : s.indexWriteHead = s.indexWriteTail) (h : RCS_FIFO_FREE_SPACE s < size) :
    RcsFifoSendAcquire (some s) size (some m) = ⟨RCS_FIFO_NO_SPACE, some s, some m⟩ := by
  unfold RcsFifoSendAcquire
  dsimp only
  rw [if_neg h0, if_neg (fun hne => hne hidle), if_pos h]

theorem recvAcquire_no_data (s : RcsFifoHandle_t) (m : Slots) {size : Nat} (h0 : size ≠ 0)
    (hidle : s.indexReadHead = s.indexReadTail) (h : RCS_FIFO_USED_SPACE s < size) :
    RcsFifoRecvAcquire (some s) size (some m) = ⟨RCS_FIFO_NO_DATA, some s, some m⟩ := by
  unfold RcsFifoRecvAcquire
  dsimp only
  rw [if_neg h0, if_neg (fun hne => hne hidle), if_pos h]

/-- A successful `RcsFifoSendAcquire` returns a positive value. -/
theorem sendAcquire_ret_pos {s : RcsFifoHandle_t} (m : Slots) {size : Nat} (hv : Valid s)
    (hidle : s.indexWriteHead = s.indexWriteTail) (h0 : 0 < size)
    (hfree : size ≤ RCS_FIFO_FREE_SPACE s) :
    0 < (RcsFifoSendAcquire (some s) size (some m)).ret := by
  rw [sendAcquire_ok m hv hidle h0 hfree]
  obtain ⟨hc0, hmax, hwh, hwt, hrh, hrt⟩ := hv
  simp only
  split <;> omega

theorem recvAcquire_ret_pos {s : RcsFifoHandle_t} (m : Slots) {size : Nat} (hv : Valid s)
    (hidle : s.indexReadHead = s.indexReadTail) (h0 : 0 < size)
    (hused : size ≤ RCS_FIFO_USED_SPACE s) :
    0 < (RcsFifoRecvAcquire (some s) size (some m)).ret := by
  rw [recvAcquire_ok m hv hidle h0 hused]
  obtain ⟨hc0, hmax, hwh, hwt, hrh, hrt⟩ := hv
  simp only
  split <;> omega

/-! ## Copying through the spans -/

theorem memcpy_to_apply (l : List Nat) : ∀ (mem : Mem) (off a : Nat),
    memcpy_to mem off l a = if off ≤ a then l.getD (a - off) (mem a) else mem a := by
  induction l with
  | nil => intro mem off a; simp [memcpy_to]
  | cons b bs ih =>
    intro mem off a
    rw [memcpy_to, ih]
    by_cases h1 : off + 1 ≤ a
    · have h2 : off ≤ a := by omega
      have h3 : a ≠ off := by omega
      have h4 : a - off = (a - (off + 1)) + 1 := by omega
      rw [if_pos h1, if_pos h2, h4, List.getD_cons_succ, if_neg h3]
    · by_cases h2 : a = off
      · subst h2
        simp
      · rw [if_neg h1, if_neg h2, if_neg (by omega)]

theorem bytes_at_memcpy_same (mem : Mem) (off : Nat) (l : List Nat) :
    bytes_at (memcpy_to mem off l) off l.length = l := by
  apply List.ext_getElem
  · simp [bytes_at]
  · intro i h1 h2
    simp only [bytes_at, List.getElem_map, List.getElem_range, memcpy_to_apply]
    rw [if_pos (by omega), Nat.add_sub_cancel_left]
    exact List.getD_eq_getElem l _ h2

theorem bytes_at_memcpy_len (mem : Mem) (off n : Nat) (l : List Nat) (h : l.length = n) :
    bytes_at (memcpy_to mem off l) off n = l := by
  subst h
  exact bytes_at_memcpy_same mem off l

theorem bytes_at_memcpy_after (mem : Mem) (off off2 n : Nat) (l : List Nat)
    (h : off2 + l.length ≤ off) :
    bytes_at (memcpy_to mem off2 l) off n = bytes_at mem off n := by
  apply List.ext_getElem
  · simp [bytes_at]
  · intro i h1 h2
    simp only [bytes_at, List.getElem_map, List.getElem_range, memcpy_to_apply]
    rw [if_pos (by omega), List.getD_eq_default _ _ (by omega)]

theorem spans_single (mem : Mem) (p size : Nat) (data : List Nat) (hlen : data.length = size) :
    readSpans (fillSpans mem (some p, none) size data) (some p, none) size size = data := by
  simp only [readSpans, fillSpans, List.append_nil]
  rw [List.take_of_length_le (by omega)]
  subst hlen
  exact bytes_at_memcpy_same mem p data

theorem spans_split (mem : Mem) (p first size : Nat) (data : List Nat)
    (hlen : data.length = size) (hf : first ≤ size) (hd : size - first ≤ p) :
    readSpans (fillSpans mem (some p, some 0) first data) (some p, some 0) first size = data := by
  simp only [readSpans, fillSpans]
  have h1 : (data.take first).length = first := by simp; omega
  have h2 : (data.drop first).length = size - first := by simp; omega
  rw [bytes_at_memcpy_after _ p 0 first _ (by omega), bytes_at_memcpy_len _ _ _ _ h1,
    bytes_at_memcpy_len _ _ _ _ h2]
  exact List.take_append_drop first data

/-! ## One call from a valid descriptor -/

theorem advance_ne {c h size : Nat} (hh : h < c) (h0 : 0 < size) (hs : size < c) :
    (h + size) % c ≠ h := by
  rw [mod_wrap (h + size) c (by omega)]
  split <;> omega

theorem sendAcquire_step {s : RcsFifoHandle_t} (hv : Valid s) (size : Nat) (mo : Option Slots) :
    ((RcsFifoSendAcquire (some s) size mo).ret < 0
      ∧ (RcsFifoSendAcquire (some s) size mo).fifo = some s
      ∧ (RcsFifoSendAcquire (some s) size mo).memAcquired = mo)
    ∨ (0 < (RcsFifoSendAcquire (some s) size mo).ret
      ∧ (RcsFifoSendAcquire (some s) size mo).fifo
          = some { s with indexWriteHead := (s.indexWriteHead + size) % s.memSize }
      ∧ (s.indexWriteHead + size) % s.memSize ≠ s.indexWriteTail
      ∧ s.indexWriteHead = s.indexWriteTail ∧ 0 < size ∧ size ≤ RCS_FIFO_FREE_SPACE s) := by
  rcases sendAcquire_cases s size mo with ⟨e, he, hr⟩ | ⟨m, rfl, h0, hidle, hfree⟩
  · left; rw [hr]; exact ⟨he, rfl, rfl⟩
  · right
    refine ⟨sendAcquire_ret_pos m hv hidle h0 hfree, ?_, ?_, hidle, h0, hfree⟩
    · rw [sendAcquire_ok m hv hidle h0 hfree]
    · have hf := hfree
      rw [free_space_eq hv] at hf
      obtain ⟨hc0, hmax, hwh, hwt, hrh, hrt⟩ := hv
      rw [← hidle]
      exact advance_ne hwh h0 (by split at hf <;> omega)

theorem sendAcquireNoSplit_step {s : RcsFifoHandle_t} (hv : Valid s) (size : Nat)
    (mo : Option Slots) :
    ((RcsFifoSendAcquireNoSplit (some s) size mo).ret < 0
      ∧ (RcsFifoSendAcquireNoSplit (some s) size mo).fifo = some s
      ∧ (RcsFifoSendAcquireNoSplit (some s) size mo).memAcquired = mo)
    ∨ (0 < (RcsFifoSendAcquireNoSplit (some s) size mo).ret
      ∧ (RcsFifoSendAcquireNoSplit (some s) size mo).fifo
          = some { s with indexWriteHead := (s.indexWriteHead + size) % s.memSize }
      ∧ (s.indexWriteHead + size) % s.memSize ≠ s.indexWriteTail
      ∧ s.indexWriteHead = s.indexWriteTail ∧ 0 < size ∧ size ≤ RCS_FIFO_FREE_SPACE s) := by
  rcases sendAcquireNoSplit_cases s size mo with ⟨e, he, hr⟩ | ⟨m, rfl, h0, hidle, hfree⟩
  · left; rw [hr]; exact ⟨he, rfl, rfl⟩
  · right
    have hfree2 := Nat.le_trans hfree (free_nosplit_le hv)
    rw [sendAcquireNoSplit_ok m hv hidle h0 hfree]
    refine ⟨by simp only; omega, rfl, ?_, hidle, h0, hfree2⟩
    have hf := hfree2
    rw [free_space_eq hv] at hf
    obtain ⟨hc0, hmax, hwh, hwt, hrh, hrt⟩ := hv
    rw [← hidle]
    exact advance_ne hwh h0 (by split at hf <;> omega)

theorem recvAcquire_step {s : RcsFifoHandle_t} (hv : Valid s) (size : Nat) (mo : Option Slots) :
    ((RcsFifoRecvAcquire (some s) size mo).ret < 0
      ∧ (RcsFifoRecvAcquire (some s) size mo).fifo = some s
      ∧ (RcsFifoRecvAcquire (some s) size mo).memAcquired = mo)
    ∨ (0 < (RcsFifoRecvAcquire (some s) size mo).ret
      ∧ (RcsFifoRecvAcquire (some s) size mo).fifo
          = some { s with indexReadHead := (s.indexReadHead + size) % s.memSize }
      ∧ (s.indexReadHead + size) % s.memSize ≠ s.indexReadTail
      ∧ s.indexReadHead = s.indexReadTail ∧ 0 < size ∧ size ≤ RCS_FIFO_USED_SPACE s) := by
  rcases recvAcquire_cases s size mo with ⟨e, he, hr⟩ | ⟨m, rfl, h0, hidle, hused⟩
  · left; rw [hr]; exact ⟨he, rfl, rfl⟩
  · right
    refine ⟨recvAcquire_ret_pos m hv hidle h0 hused, ?_, ?_, hidle, h0, hused⟩
    · rw [recvAcquire_ok m hv hidle h0 hused]
    · have hf := hused
      rw [used_space_eq hv] at hf
      obtain ⟨hc0, hmax, hwh, hwt, hrh, hrt⟩ := hv
      rw [← hidle]
      exact advance_ne hrh h0 (by split at hf <;> omega)

theorem recvAcquireNoSplit_step {s : RcsFifoHandle_t} (hv : Valid s) (size : Nat)
    (mo : Option Slots) :
    ((RcsFifoRecvAcquireNoSplit (some s) size mo).ret < 0
      ∧ (RcsFifoRecvAcquireNoSplit (some s) size mo).fifo = some s
      ∧ (RcsFifoRecvAcquireNoSplit (some s) size mo).memAcquired = mo)
    ∨ (0 < (RcsFifoRecvAcquireNoSplit (some s) size mo).ret
      ∧ (RcsFifoRecvAcquireNoSplit (some s) size mo).fifo
          = some { s with indexReadHead := (s.indexReadHead + size) % s.memSize }
      ∧ (s.indexReadHead + size) % s.memSize ≠ s.indexReadTail
      ∧ s.indexReadHead = s.indexReadTail ∧ 0 < size ∧ size ≤ RCS_FIFO_USED_SPACE s) := by
  rcases recvAcquireNoSplit_cases s size mo with ⟨e, he, hr⟩ | ⟨m, rfl, h0, hidle, hused⟩
  · left; rw [hr]; exact ⟨he, rfl, rfl⟩
  · have hok := recvAcquireNoSplit_ok m hv hidle h0 hused
    by_cases hlt : s.indexWriteTail < s.indexReadHead
    · right
      rw [if_pos hlt] at hok
      have hused2 := Nat.le_trans hused (used_nosplit_le hv)
      rw [hok]
      refine ⟨by simp only; omega, rfl, ?_, hidle, h0, hused2⟩
      have hf := hused2
      rw [used_space_eq hv] at hf
      obtain ⟨hc0, hmax, hwh, hwt, hrh, hrt⟩ := hv
      rw [← hidle]
      exact advance_ne hrh h0 (by split at hf <;> omega)
    · left
      rw [if_neg hlt] at hok
      rw [hok]
      exact ⟨show RCS_FIFO_NOT_ALLOWED < 0 by decide, rfl, rfl⟩

/-! ## What one side sees of the other -/

theorem recvAcquire_frame_wh (s : RcsFifoHandle_t) (x k : Nat) (mo : Option Slots) :
    (RcsFifoRecvAcquire (some { s with indexWriteHead := x }) k mo).ret
        = (RcsFifoRecvAcquire (some s) k mo).ret
    ∧ (RcsFifoRecvAcquire (some { s with indexWriteHead := x }) k mo).memAcquired
        = (RcsFifoRecvAcquire (some s) k mo).memAcquired := by
  cases mo with
  | none => exact ⟨rfl, rfl⟩
  | some m =>
    unfold RcsFifoRecvAcquire RCS_FIFO_USED_SPACE
    dsimp only
    split_ifs <;> exact ⟨rfl, rfl⟩

theorem used_after_commit {s : RcsFifoHandle_t} {size : Nat} (hv : Valid s)
    (hw : s.indexWriteHead = s.indexWriteTail) (hr : s.indexReadHead = s.indexReadTail)
    (hfree : size ≤ RCS_FIFO_FREE_SPACE s) :
    RCS_FIFO_USED_SPACE
      { s with indexWriteHead := (s.indexWriteHead + size) % s.memSize,
               indexWriteTail := (s.indexWriteHead + size) % s.memSize }
      = RCS_FIFO_USED_SPACE s + size := by
  have hv2 : Valid ⟨s.memSize, (s.indexWriteHead + size) % s.memSize,
      (s.indexWriteHead + size) % s.memSize, s.indexReadHead, s.indexReadTail⟩ := by
    obtain ⟨hc0, hmax, hwh, hwt, hrh, hrt⟩ := hv
    exact ⟨hc0, hmax, Nat.mod_lt _ hc0, Nat.mod_lt _ hc0, hrh, hrt⟩
  rw [used_space_eq hv2, used_space_eq hv]
  rw [free_space_eq hv] at hfree
  obtain ⟨hc0, hmax, hwh, hwt, hrh, hrt⟩ := hv
  have hsz : size < s.memSize := by split at hfree <;> omega
  simp only
  rw [mod_wrap (s.indexWriteHead + size) s.memSize (by omega)]
  split_ifs at * <;> omega

theorem free_after_release {s : RcsFifoHandle_t} {k : Nat} (hv : Valid s) (ho : Ordered s)
    (hr : s.indexReadHead = s.indexReadTail) (hused : k ≤ RCS_FIFO_USED_SPACE s) :
    RCS_FIFO_FREE_SPACE
      { s with indexReadHead := (s.indexReadHead + k) % s.memSize,
               indexReadTail := (s.indexReadHead + k) % s.memSize }
      = RCS_FIFO_FREE_SPACE s + k := by
  have hv2 : Valid ⟨s.memSize, s.indexWriteHead, s.indexWriteTail,
      (s.indexReadHead + k) % s.memSize, (s.indexReadHead + k) % s.memSize⟩ := by
    obtain ⟨hc0, hmax, hwh, hwt, hrh, hrt⟩ := hv
    exact ⟨hc0, hmax, hwh, hwt, Nat.mod_lt _ hc0, Nat.mod_lt _ hc0⟩
  rw [free_space_eq hv2, free_space_eq hv]
  rw [used_space_eq hv] at hused
  obtain ⟨hc0, hmax, hwh, hwt, hrh, hrt⟩ := hv
  have hsz : k < s.memSize := by split at hused <;> omega
  unfold Ordered cdist at ho
  simp only
  rw [mod_wrap (s.indexReadHead + k) s.memSize (by omega)]
  split_ifs at * <;> omega

/-! ## The bookkeeping along a sequence of calls -/

theorem track_step (op : FifoOp) {s : RcsFifoHandle_t} {g : Outstanding} (hv : Valid s)
    (ho : Ordered s) (hg : Coherent s g) :
    ∃ t, (op.call (some s)).fifo = some t ∧ Valid t ∧ Ordered t
      ∧ Coherent t (g.track op (op.call (some s)).ret) := by
  obtain ⟨t, ht, hvt, hot, _⟩ := call_inv op hv ho
  refine ⟨t, ht, hvt, hot, ?_⟩
  obtain ⟨hgw, hgr⟩ := hg
  cases op with
  | sendAcquire size mo =>
    simp only [FifoOp.call] at ht ⊢
    simp only [Outstanding.track]
    rcases sendAcquire_step hv size mo with ⟨hneg, hf, _⟩ | ⟨hpos, hf, hne, _⟩
    · rw [hf] at ht; cases ht
      rw [if_neg (by omega)]; exact ⟨hgw, hgr⟩
    · rw [hf] at ht; cases ht
      rw [if_pos (by omega)]
      exact ⟨⟨fun h => absurd h hne, fun h => by simp at h⟩, hgr⟩
  | sendAcquireNoSplit size mo =>
    simp only [FifoOp.call] at ht ⊢
    simp only [Outstanding.track]
    rcases sendAcquireNoSplit_step hv size mo with ⟨hneg, hf, _⟩ | ⟨hpos, hf, hne, _⟩
    · rw [hf] at ht; cases ht
      rw [if_neg (by omega)]; exact ⟨hgw, hgr⟩
    · rw [hf] at ht; cases ht
      rw [if_pos (by omega)]
      exact ⟨⟨fun h => absurd h hne, fun h => by simp at h⟩, hgr⟩
  | sendComplete mo =>
    simp only [FifoOp.call] at ht ⊢
    simp only [Outstanding.track]
    rcases sendComplete_cases s mo with he | he
    · rw [he] at ht ⊢; cases ht
      rw [if_neg (show ¬ (RCS_FIFO_INVALID_PARAM = RCS_FIFO_OK) by decide)]; exact ⟨hgw, hgr⟩
    · rw [he] at ht ⊢; cases ht
      rw [if_pos rfl]
      exact ⟨⟨fun _ => rfl, fun _ => rfl⟩, hgr⟩
  | recvAcquire size mo =>
    simp only [FifoOp.call] at ht ⊢
    simp only [Outstanding.track]
    rcases recvAcquire_step hv size mo with ⟨hneg, hf, _⟩ | ⟨hpos, hf, hne, _⟩
    · rw [hf] at ht; cases ht
      rw [if_neg (by omega)]; exact ⟨hgw, hgr⟩
    · rw [hf] at ht; cases ht
      rw [if_pos (by omega)]
      exact ⟨hgw, ⟨fun h => absurd h hne, fun h => by simp at h⟩⟩
  | recvAcquireNoSplit size mo =>
    simp only [FifoOp.call] at ht ⊢
    simp only [Outstanding.track]
    rcases recvAcquireNoSplit_step hv size mo with ⟨hneg, hf, _⟩ | ⟨hpos, hf, hne, _⟩
    · rw [hf] at ht; cases ht
      rw [if_neg (by omega)]; exact ⟨hgw, hgr⟩
    · rw [hf] at ht; cases ht
      rw [if_pos (by omega)]
      exact ⟨hgw, ⟨fun h => absurd h hne, fun h => by simp at h⟩⟩
  | recvComplete mo =>
    simp only [FifoOp.call] at ht ⊢
    simp only [Outstanding.track]
    rcases recvComplete_cases s mo with he | he
    · rw [he] at ht ⊢; cases ht
      rw [if_neg (show ¬ (RCS_FIFO_INVALID_PARAM = RCS_FIFO_OK) by decide)]; exact ⟨hgw, hgr⟩
    · rw [he] at ht ⊢; cases ht
      rw [if_pos rfl]
      exact ⟨hgw, ⟨fun _ => rfl, fun _ => rfl⟩⟩

theorem runTracked_inv (ops : List FifoOp) : ∀ {s : RcsFifoHandle_t} {g : Outstanding},
    Valid s → Ordered s → Coherent s g →
    ∃ t, (runTracked (some s) g ops).1 = some t ∧ Valid t ∧ Ordered t
      ∧ Coherent t (runTracked (some s) g ops).2 := by
  induction ops with
  | nil => intro s g hv ho hg; exact ⟨s, rfl, hv, ho, hg⟩
  | cons op ops ih =>
    intro s g hv ho hg
    obtain ⟨t, ht, hvt, hot, hgt⟩ := track_step op hv ho hg
    have hstep : runTracked (some s) g (op :: ops)
        = runTracked (some t) (g.track op (op.call (some s)).ret) ops := by
      show runTracked ((op.call (some s)).fifo) _ ops = _
      rw [ht]
    rw [hstep]
    exact ih hvt hot hgt

/-- On the write side only `RcsFifoSendComplete` returning `RCS_FIFO_OK` ends an
outstanding acquisition. -/
theorem write_side_stays {s t : RcsFifoHandle_t} (op : FifoOp) (hv : Valid s)
    (hbusy : s.indexWriteHead ≠ s.indexWriteTail) (hop : (op.call (some s)).fifo = some t) :
    t.indexWriteHead = t.indexWriteTail ↔
      (op.isSendComplete = true ∧ (op.call (some s)).ret = RCS_FIFO_OK) := by
  cases op with
  | sendAcquire size mo =>
    simp only [FifoOp.call] at hop
    rcases sendAcquire_step hv size mo with ⟨_, hf, _⟩ | ⟨_, _, _, hidle, _⟩
    · rw [hf] at hop; cases hop
      simp [FifoOp.isSendComplete, hbusy]
    · exact absurd hidle hbusy
  | sendAcquireNoSplit size mo =>
    simp only [FifoOp.call] at hop
    rcases sendAcquireNoSplit_step hv size mo with ⟨_, hf, _⟩ | ⟨_, _, _, hidle, _⟩
    · rw [hf] at hop; cases hop
      simp [FifoOp.isSendComplete, hbusy]
    · exact absurd hidle hbusy
  | sendComplete mo =>
    simp only [FifoOp.call] at hop ⊢
    rcases sendComplete_cases s mo with he | he
    · rw [he] at hop ⊢; cases hop
      simp [FifoOp.isSendComplete, hbusy, RCS_FIFO_INVALID_PARAM, RCS_FIFO_OK]
    · rw [he] at hop ⊢; cases hop
      simp [FifoOp.isSendComplete]
  | recvAcquire size mo =>
    simp only [FifoOp.call] at hop
    rcases recvAcquire_step hv size mo with ⟨_, hf, _⟩ | ⟨_, hf, _⟩
    · rw [hf] at hop; cases hop
      simp [FifoOp.isSendComplete, hbusy]
    · rw [hf] at hop; cases hop
      simp [FifoOp.isSendComplete, hbusy]
  | recvAcquireNoSplit size mo =>
    simp only [FifoOp.call] at hop
    rcases recvAcquireNoSplit_step hv size mo with ⟨_, hf, _⟩ | ⟨_, hf, _⟩
    · rw [hf] at hop; cases hop
      simp [FifoOp.isSendComplete, hbusy]
    · rw [hf] at hop; cases hop
      simp [FifoOp.isSendComplete, hbusy]
  | recvComplete mo =>
    simp only [FifoOp.call] at hop
    rcases recvComplete_cases s mo with he | he
    · rw [he] at hop; cases hop
      simp [FifoOp.isSendComplete, hbusy]
    · rw [he] at hop; cases hop
      simp [FifoOp.isSendComplete, hbusy]

/-- On the read side only `RcsFifoRecvComplete` returning `RCS_FIFO_OK` ends an
outstanding acquisition. -/
theorem read_side_stays {s t : RcsFifoHandle_t} (op : FifoOp) (hv : Valid s)
    (hbusy : s.indexReadHead ≠ s.indexReadTail) (hop : (op.call (some s)).fifo = some t) :
    t.indexReadHead = t.indexReadTail ↔
      (op.isRecvComplete = true ∧ (op.call (some s)).ret = RCS_FIFO_OK) := by
  cases op with
  | recvAcquire size mo =>
    simp only [FifoOp.call] at hop
    rcases recvAcquire_step hv size mo with ⟨_, hf, _⟩ | ⟨_, _, _, hidle, _⟩
    · rw [hf] at hop; cases hop
      simp [FifoOp.isRecvComplete, hbusy]
    · exact absurd hidle hbusy
  | recvAcquireNoSplit size mo =>
    simp only [FifoOp.call] at hop
    rcases recvAcquireNoSplit_step hv size mo with ⟨_, hf, _⟩ | ⟨_, _, _, hidle, _⟩
    · rw [hf] at hop; cases hop
      simp [FifoOp.isRecvComplete, hbusy]
    · exact absurd hidle hbusy
  | recvComplete mo =>
    simp only [FifoOp.call] at hop ⊢
    rcases recvComplete_cases s mo with he | he
    · rw [he] at hop ⊢; cases hop
      simp [FifoOp.isRecvComplete, hbusy, RCS_FIFO_INVALID_PARAM, RCS_FIFO_OK]
    · rw [he] at hop ⊢; cases hop
      simp [FifoOp.isRecvComplete]
  | sendAcquire size mo =>
    simp only [FifoOp.call] at hop
    rcases sendAcquire_step hv size mo with ⟨_, hf, _⟩ | ⟨_, hf, _⟩
    · rw [hf] at hop; cases hop
      simp [FifoOp.isRecvComplete, hbusy]
    · rw [hf] at hop; cases hop
      simp [FifoOp.isRecvComplete, hbusy]
  | sendAcquireNoSplit size mo =>
    simp only [FifoOp.call] at hop
    rcases sendAcquireNoSplit_step hv size mo with ⟨_, hf, _⟩ | ⟨_, hf, _⟩
    · rw [hf] at hop; cases hop
      simp [FifoOp.isRecvComplete, hbusy]
    · rw [hf] at hop; cases hop
      simp [FifoOp.isRecvComplete, hbusy]
  | sendComplete mo =>
    simp only [FifoOp.call] at hop
    rcases sendComplete_cases s mo with he | he
    · rw [he] at hop; cases hop
      simp [FifoOp.isRecvComplete, hbusy]
    · rw [he] at hop; cases hop
      simp [FifoOp.isRecvComplete, hbusy]

theorem runTracked_none (ops : List FifoOp) : ∀ g : Outstanding,
    (runTracked none g ops).1 = none := by
  induction ops with
  | nil => intro g; rfl
  | cons op ops ih =>
    intro g
    show (runTracked ((op.call none).fifo) _ ops).1 = none
    rw [call_none]; exact ih _

theorem tracked_inv {c : Nat} {ops : List FifoOp} {s : RcsFifoHandle_t} {g : Outstanding}
    (hc : c ≤ INT_MAX)
    (hrun : runTracked (RcsFifoCreate c true true) ⟨false, false⟩ ops = (some s, g)) :
    Valid s ∧ Ordered s ∧ Coherent s g := by
  by_cases h0 : c = 0
  · subst h0
    have h1 : RcsFifoCreate 0 true true = none := rfl
    have h2 := runTracked_none ops ⟨false, false⟩
    rw [h1] at hrun
    rw [hrun] at h2
    exact absurd h2 (by simp)
  · have hpos : 0 < c := Nat.pos_of_ne_zero h0
    rw [create_eq hpos] at hrun
    have hv : Valid ⟨c, 0, 0, 0, 0⟩ := ⟨hpos, hc, hpos, hpos, hpos, hpos⟩
    have ho : Ordered ⟨c, 0, 0, 0, 0⟩ := by
      unfold Ordered cdist; simp only [le_refl, if_true]; omega
    have hg : Coherent ⟨c, 0, 0, 0, 0⟩ ⟨false, false⟩ := ⟨by simp, by simp⟩
    obtain ⟨t, ht, hvt, hot, hgt⟩ := runTracked_inv ops hv ho hg
    rw [hrun] at ht hgt
    cases ht
    exact ⟨hvt, hot, hgt⟩

/-! ## Span shapes, refusals and malformed calls -/

theorem sendAcquire_window {s : RcsFifoHandle_t} (m : Slots) {size : Nat} (hv : Valid s)
    (hidle : s.indexWriteHead = s.indexWriteTail) (h0 : 0 < size)
    (hfree : size ≤ RCS_FIFO_FREE_SPACE s) :
    RcsFifoSendAcquire (some s) size (some m) =
      ⟨((if s.indexWriteHead + size ≤ s.memSize then size
          else s.memSize - s.indexWriteHead : Nat) : Int),
       some { s with indexWriteHead := (s.indexWriteHead + size) % s.memSize },
       some (some s.indexWriteHead,
          if s.indexWriteHead + size ≤ s.memSize then none else some 0)⟩ := by
  have hok := sendAcquire_ok m hv hidle h0 hfree
  rw [free_space_eq hv] at hfree
  obtain ⟨hc0, hmax, hwh, hwt, hrh, hrt⟩ := hv
  have hcond : (s.indexReadTail ≤ s.indexWriteHead ∧ s.memSize - s.indexWriteHead < size)
      ↔ ¬ (s.indexWriteHead + size ≤ s.memSize) := by
    split at hfree <;> omega
  simp only [hcond, ite_not] at hok
  exact hok

theorem recvAcquire_window {s : RcsFifoHandle_t} (m : Slots) {size : Nat} (hv : Valid s)
    (hidle : s.indexReadHead = s.indexReadTail) (h0 : 0 < size)
    (hused : size ≤ RCS_FIFO_USED_SPACE s) :
    RcsFifoRecvAcquire (some s) size (some m) =
      ⟨((if s.indexReadHead + size ≤ s.memSize then size
          else s.memSize - s.indexReadHead : Nat) : Int),
       some { s with indexReadHead := (s.indexReadHead + size) % s.memSize },
       some (some s.indexReadHead,
          if s.indexReadHead + size ≤ s.memSize then none else some 0)⟩ := by
  have hok := recvAcquire_ok m hv hidle h0 hused
  rw [used_space_eq hv] at hused
  obtain ⟨hc0, hmax, hwh, hwt, hrh, hrt⟩ := hv
  have hcond : (s.indexWriteTail ≤ s.indexReadHead ∧ s.memSize - s.indexReadHead < size)
      ↔ ¬ (s.indexReadHead + size ≤ s.memSize) := by
    split at hused <;> omega
  simp only [hcond, ite_not] at hok
  exact hok

theorem sendAcquireNoSplit_no_space (s : RcsFifoHandle_t) (m : Slots) {size : Nat}
    (h0 : size ≠ 0) (hidle : s.indexWriteHead = s.indexWriteTail)
    (h : RCS_FIFO_FREE_NOSPLIT_SPACE s < size) :
    RcsFifoSendAcquireNoSplit (some s) size (some m) = ⟨RCS_FIFO_NO_SPACE, some s, some m⟩ := by
  unfold RcsFifoSendAcquireNoSplit
  dsimp only
  rw [if_neg h0, if_neg (fun hne => hne hidle), if_pos h]

theorem recvAcquireNoSplit_no_data (s : RcsFifoHandle_t) (m : Slots) {size : Nat}
    (h0 : size ≠ 0) (hidle : s.indexReadHead = s.indexReadTail)
    (h : RCS_FIFO_USED_NOSPLIT_SPACE s < size) :
    RcsFifoRecvAcquireNoSplit (some s) size (some m) = ⟨RCS_FIFO_NO_DATA, some s, some m⟩ := by
  unfold RcsFifoRecvAcquireNoSplit
  dsimp only
  rw [if_neg h0, if_neg (fun hne => hne hidle), if_pos h]

/-- When the run from `indexWriteHead` to the physical end is shorter than the
request, the space check of `RcsFifoSendAcquireNoSplit` already fails: the
branches behind it that relocate to offset 0 or return
`RCS_FIFO_NOT_ALLOWED` are not reached. -/
theorem sendAcquireNoSplit_short_run {s : RcsFifoHandle_t} (m : Slots) {size : Nat}
    (hv : Valid s) (hidle : s.indexWriteHead = s.indexWriteTail)
    (hge : s.indexReadTail ≤ s.indexWriteHead) (hshort : s.memSize - s.indexWriteHead < size) :
    RcsFifoSendAcquireNoSplit (some s) size (some m) = ⟨RCS_FIFO_NO_SPACE, some s, some m⟩ := by
  apply sendAcquireNoSplit_no_space s m (by omega) hidle
  rw [free_nosplit_eq hv, if_neg (by omega)]
  omega

/-- With the committed data lying ahead of `indexReadHead` in one run,
`RcsFifoRecvAcquireNoSplit` compares that run with `memSize` instead of
`size` and refuses every admitted request. -/
theorem recvAcquireNoSplit_forward {s : RcsFifoHandle_t} (m : Slots) {size : Nat}
    (hv : Valid s) (hidle : s.indexReadHead = s.indexReadTail)
    (hlt : s.indexReadHead < s.indexWriteTail) (h1 : 1 ≤ size)
    (hle : size ≤ s.indexWriteTail - s.indexReadHead) :
    RcsFifoRecvAcquireNoSplit (some s) size (some m)
      = ⟨RCS_FIFO_NOT_ALLOWED, some s, some m⟩ := by
  have hused : size ≤ RCS_FIFO_USED_NOSPLIT_SPACE s := by
    rw [used_nosplit_eq hv, if_pos (by omega)]; exact hle
  rw [recvAcquireNoSplit_ok m hv hidle (by omega) hused, if_neg (by omega)]

theorem sendAcquire_invalid (fifo : Option RcsFifoHandle_t) (size : Nat) (mo : Option Slots)
    (h : fifo = none ∨ mo = none ∨ size = 0) :
    RcsFifoSendAcquire fifo size mo = ⟨RCS_FIFO_INVALID_PARAM, fifo, mo⟩ := by
  cases fifo with
  | none => rfl
  | some s =>
    cases mo with
    | none => rfl
    | some m =>
      have h0 : size = 0 := by simpa using h
      simp [RcsFifoSendAcquire, h0]

theorem sendAcquireNoSplit_invalid (fifo : Option RcsFifoHandle_t) (size : Nat)
    (mo : Option Slots) (h : fifo = none ∨ mo = none ∨ size = 0) :
    RcsFifoSendAcquireNoSplit fifo size mo = ⟨RCS_FIFO_INVALID_PARAM, fifo, mo⟩ := by
  cases fifo with
  | none => rfl
  | some s =>
    cases mo with
    | none => rfl
    | some m =>
      have h0 : size = 0 := by simpa using h
      simp [RcsFifoSendAcquireNoSplit, h0]

theorem recvAcquire_invalid (fifo : Option RcsFifoHandle_t) (size : Nat) (mo : Option Slots)
    (h : fifo = none ∨ mo = none ∨ size = 0) :
    RcsFifoRecvAcquire fifo size mo = ⟨RCS_FIFO_INVALID_PARAM, fifo, mo⟩ := by
  cases fifo with
  | none => rfl
  | some s =>
    cases mo with
    | none => rfl
    | some m =>
      have h0 : size = 0 := by simpa using h
      simp [RcsFifoRecvAcquire, h0]

theorem recvAcquireNoSplit_invalid (fifo : Option RcsFifoHandle_t) (size : Nat)
    (mo : Option Slots) (h : fifo = none ∨ mo = none ∨ size = 0) :
    RcsFifoRecvAcquireNoSplit fifo size mo = ⟨RCS_FIFO_INVALID_PARAM, fifo, mo⟩ := by
  cases fifo with
  | none => rfl
  | some s =>
    cases mo with
    | none => rfl
    | some m =>
      have h0 : size = 0 := by simpa using h
      simp [RcsFifoRecvAcquireNoSplit, h0]

theorem sendComplete_invalid (fifo : Option RcsFifoHandle_t) (mo : Option Slots)
    (h : fifo = none ∨ mo = none ∨ mo.map Prod.fst = some none) :
    RcsFifoSendComplete fifo mo = ⟨RCS_FIFO_INVALID_PARAM, fifo, mo⟩ := by
  cases fifo with
  | none => rfl
  | some s =>
    rcases mo with _ | ⟨_ | o, x⟩
    · rfl
    · rfl
    · simp at h

theorem recvComplete_invalid (fifo : Option RcsFifoHandle_t) (mo : Option Slots)
    (h : fifo = none ∨ mo = none ∨ mo.map Prod.fst = some none) :
    RcsFifoRecvComplete fifo mo = ⟨RCS_FIFO_INVALID_PARAM, fifo, mo⟩ := by
  cases fifo with
  | none => rfl
  | some s =>
    rcases mo with _ | ⟨_ | o, x⟩
    · rfl
    · rfl
    · simp at h

theorem sendAcquire_shape (s : RcsFifoHandle_t) (size : Nat) (mo : Option Slots) :
    (RcsFifoSendAcquire (some s) size mo).fifo = some s
    ∨ ∃ x, (RcsFifoSendAcquire (some s) size mo).fifo
        = some { s with indexWriteHead := x % s.memSize } := by
  cases mo with
  | none => exact Or.inl rfl
  | some m =>
    unfold RcsFifoSendAcquire
    dsimp only
    split_ifs <;> first | exact Or.inl rfl | exact Or.inr ⟨_, rfl⟩

theorem recvAcquire_shape (s : RcsFifoHandle_t) (size : Nat) (mo : Option Slots) :
    (RcsFifoRecvAcquire (some s) size mo).fifo = some s
    ∨ ∃ x, (RcsFifoRecvAcquire (some s) size mo).fifo
        = some { s with indexReadHead := x % s.memSize } := by
  cases mo with
  | none => exact Or.inl rfl
  | some m =>
    unfold RcsFifoRecvAcquire
    dsimp only
    split_ifs <;> first | exact Or.inl rfl | exact Or.inr ⟨_, rfl⟩

theorem sendAcquireNoSplit_shape (s : RcsFifoHandle_t) (size : Nat) (mo : Option Slots) :
    (RcsFifoSendAcquireNoSplit (some s) size mo).fifo = some s
    ∨ ∃ x, (RcsFifoSendAcquireNoSplit (some s) size mo).fifo
        = some { s with indexWriteHead := x % s.memSize } := by
  cases mo with
  | none => exact Or.inl rfl
  | some m =>
    unfold RcsFifoSendAcquireNoSplit
    dsimp only
    split_ifs <;> first | exact Or.inl rfl | exact Or.inr ⟨_, rfl⟩

theorem recvAcquireNoSplit_shape (s : RcsFifoHandle_t) (size : Nat) (mo : Option Slots) :
    (RcsFifoRecvAcquireNoSplit (some s) size mo).fifo = some s
    ∨ ∃ x, (RcsFifoRecvAcquireNoSplit (some s) size mo).fifo
        = some { s with indexReadHead := x % s.memSize } := by
  cases mo with
  | none => exact Or.inl rfl
  | some m =>
    unfold RcsFifoRecvAcquireNoSplit
    dsimp only
    split_ifs <;> first | exact Or.inl rfl | exact Or.inr ⟨_, rfl⟩

theorem call_range (op : FifoOp) {s : RcsFifoHandle_t} (h : InRange s) :
    ∃ t, (op.call (some s)).fifo = some t ∧ InRange t ∧ t.memSize = s.memSize := by
  obtain ⟨hwh, hwt, hrh, hrt⟩ := h
  have hpos : 0 < s.memSize := by omega
  cases op with
  | sendAcquire size mo =>
    rcases sendAcquire_shape s size mo with he | ⟨x, he⟩
    · exact ⟨s, he, ⟨hwh, hwt, hrh, hrt⟩, rfl⟩
    · exact ⟨_, he, ⟨Nat.mod_lt _ hpos, hwt, hrh, hrt⟩, rfl⟩
  | sendAcquireNoSplit size mo =>
    rcases sendAcquireNoSplit_shape s size mo with he | ⟨x, he⟩
    · exact ⟨s, he, ⟨hwh, hwt, hrh, hrt⟩, rfl⟩
    · exact ⟨_, he, ⟨Nat.mod_lt _ hpos, hwt, hrh, hrt⟩, rfl⟩
  | sendComplete mo =>
    rcases sendComplete_cases s mo with he | he
    · exact ⟨s, by simp [FifoOp.call, he], ⟨hwh, hwt, hrh, hrt⟩, rfl⟩
    · exact ⟨⟨s.memSize, s.indexWriteHead, s.indexWriteHead, s.indexReadHead, s.indexReadTail⟩,
        by simp only [FifoOp.call, he], ⟨hwh, hwh, hrh, hrt⟩, rfl⟩
  | recvAcquire size mo =>
    rcases recvAcquire_shape s size mo with he | ⟨x, he⟩
    · exact ⟨s, he, ⟨hwh, hwt, hrh, hrt⟩, rfl⟩
    · exact ⟨_, he, ⟨hwh, hwt, Nat.mod_lt _ hpos, hrt⟩, rfl⟩
  | recvAcquireNoSplit size mo =>
    rcases recvAcquireNoSplit_shape s size mo with he | ⟨x, he⟩
    · exact ⟨s, he, ⟨hwh, hwt, hrh, hrt⟩, rfl⟩
    · exact ⟨_, he, ⟨hwh, hwt, Nat.mod_lt _ hpos, hrt⟩, rfl⟩
  | recvComplete mo =>
    rcases recvComplete_cases s mo with he | he
    · exact ⟨s, by simp [FifoOp.call, he], ⟨hwh, hwt, hrh, hrt⟩, rfl⟩
    · exact ⟨⟨s.memSize, s.indexWriteHead, s.indexWriteTail, s.indexReadHead, s.indexReadHead⟩,
        by simp only [FifoOp.call, he], ⟨hwh, hwt, hrh, hrh⟩, rfl⟩

theorem run_range (ops : List FifoOp) : ∀ {s : RcsFifoHandle_t}, InRange s →
    ∃ t, run (some s) ops = some t ∧ InRange t ∧ t.memSize = s.memSize := by
  induction ops with
  | nil => intro s h; exact ⟨s, rfl, h, rfl⟩
  | cons op ops ih =>
    intro s h
    obtain ⟨t, ht, hrt, hmt⟩ := call_range op h
    obtain ⟨u, hu, hru, hmu⟩ := ih hrt
    refine ⟨u, ?_, hru, hmu.trans hmt⟩
    show run ((op.call (some s)).fifo) ops = some u
    rw [ht]; exact hu

theorem run_from_initial {c : Nat} {f0 : Option RcsFifoHandle_t} {ops : List FifoOp}
    {s : RcsFifoHandle_t} (hf0 : f0 = none ∨ (0 < c ∧ f0 = some ⟨c, 0, 0, 0, 0⟩))
    (hrun : run f0 ops = some s) : InRange s ∧ s.memSize = c := by
  rcases hf0 with h | ⟨hc, h⟩
  · rw [h, run_none] at hrun
    exact absurd hrun (by simp)
  · rw [h] at hrun
    obtain ⟨t, ht, hrt, hmt⟩ := run_range ops (s := ⟨c, 0, 0, 0, 0⟩) ⟨hc, hc, hc, hc⟩
    rw [ht] at hrun
    cases hrun
    exact ⟨hrt, hmt⟩

theorem create_initial (c : Nat) (ha hm : Bool) :
    RcsFifoCreate c ha hm = none
    ∨ (0 < c ∧ RcsFifoCreate c ha hm = some ⟨c, 0, 0, 0, 0⟩) := by
  unfold RcsFifoCreate
  split_ifs with h1 h2 h3
  · exact Or.inl rfl
  · exact Or.inl rfl
  · exact Or.inl rfl
  · exact Or.inr ⟨Nat.pos_of_ne_zero h1, rfl⟩

theorem createStatic_initial (c : Nat) (h : Option RcsFifoHandle_t) (mem : Bool) :
    RcsFifoCreateStatic c h mem = none
    ∨ (0 < c ∧ RcsFifoCreateStatic c h mem = some ⟨c, 0, 0, 0, 0⟩) := by
  cases h with
  | none => exact Or.inl rfl
  | some d =>
    unfold RcsFifoCreateStatic
    dsimp only
    split_ifs with h1
    · exact Or.inl rfl
    · exact Or.inr ⟨Nat.pos_of_ne_zero (fun h0 => h1 (Or.inr h0)), rfl⟩

/-! ## Regions of the ring -/

/-- The integer remainder `(b - a) mod c` of two positions below `c` is their
cyclic distance. -/
theorem emod_cdist {c a b : Nat} (ha : a < c) (hb : b < c) :
    ((b : Int) - (a : Int)) % (c : Int) = ((cdist c a b : Nat) : Int) := by
  unfold cdist
  by_cases h : a ≤ b
  · rw [if_pos h, Int.emod_eq_of_lt (by omega) (by omega)]
    omega
  · rw [if_neg h]
    have h1 : ((b : Int) - (a : Int)) % (c : Int)
        = ((b : Int) - (a : Int) + (c : Int)) % (c : Int) := by
      rw [Int.add_emod_self]
    rw [h1, Int.emod_eq_of_lt (by omega) (by omega)]
    omega

theorem cdist_lt {c a b : Nat} (ha : a < c) (hb : b < c) : cdist c a b < c := by
  unfold cdist
  split <;> omega

theorem unwrap_one {c a b : Nat} (ha : a < c) (hb : b < c) : (a + cdist c a b) % c = b := by
  have hlt : a + cdist c a b < 2 * c := by have := cdist_lt ha hb; omega
  rw [mod_wrap _ _ hlt]
  unfold cdist
  split_ifs <;> omega

theorem unwrap_two {c a b d : Nat} (ha : a < c) (hb : b < c) (hd : d < c)
    (h : cdist c a b + cdist c b d < c) : (a + cdist c a b + cdist c b d) % c = d := by
  have hlt : a + cdist c a b + cdist c b d < 2 * c := by omega
  rw [mod_wrap _ _ hlt]
  unfold cdist at *
  split_ifs at * <;> omega

theorem unwrap_three {c a b d e : Nat} (ha : a < c) (hb : b < c) (hd : d < c) (he : e < c)
    (h : cdist c a b + cdist c b d + cdist c d e < c) :
    (a + cdist c a b + cdist c b d + cdist c d e) % c = e := by
  have hlt : a + cdist c a b + cdist c b d + cdist c d e < 2 * c := by omega
  rw [mod_wrap _ _ hlt]
  unfold cdist at *
  split_ifs at * <;> omega

/-- The four regions fill the ring except for one byte. -/
theorem regions_sum {s : RcsFifoHandle_t} (hv : Valid s) (ho : Ordered s) :
    cdist s.memSize s.indexReadTail s.indexReadHead
      + cdist s.memSize s.indexReadHead s.indexWriteTail
      + cdist s.memSize s.indexWriteTail s.indexWriteHead
      + RCS_FIFO_FREE_SPACE s + 1 = s.memSize := by
  rw [free_space_eq hv]
  obtain ⟨hc0, hmax, hwh, hwt, hrh, hrt⟩ := hv
  unfold Ordered cdist at *
  split_ifs at * <;> omega

/-- Two positions that differ by less than a full turn are different offsets. -/
theorem offsets_differ {c x k : Nat} (h0 : 0 < k) (hk : k < c) : (x + k) % c ≠ x % c := by
  intro h
  have h1 : Nat.ModEq c (x + k) (x + 0) := by
    show (x + k) % c = (x + 0) % c
    rw [Nat.add_zero]; exact h
  have h2 : Nat.ModEq c k 0 := Nat.ModEq.add_left_cancel' x h1
  have h3 : k % c = 0 % c := h2
  rw [Nat.mod_eq_of_lt hk, Nat.zero_mod] at h3
  omega

/-- The window handed to the writer shares no offset with the bytes that are
committed or being read. -/
theorem window_avoids_filled {s : RcsFifoHandle_t} {size i j : Nat} (hv : Valid s)
    (ho : Ordered s) (hidle : s.indexWriteHead = s.indexWriteTail)
    (hfree : size ≤ RCS_FIFO_FREE_SPACE s) (hi : i < size)
    (hj : j < cdist s.memSize s.indexReadTail s.indexReadHead
              + cdist s.memSize s.indexReadHead s.indexWriteTail) :
    (s.indexWriteHead + i) % s.memSize ≠ (s.indexReadTail + j) % s.memSize := by
  have hsum := regions_sum hv ho
  obtain ⟨hc0, hmax, hwh, hwt, hrh, hrt⟩ := hv
  have hd : cdist s.memSize s.indexWriteTail s.indexWriteHead = 0 := by
    unfold cdist; rw [hidle]; simp
  have hA : cdist s.memSize s.indexReadTail s.indexReadHead
      + cdist s.memSize s.indexReadHead s.indexWriteTail < s.memSize := by omega
  have hwt2 := unwrap_two hrt hrh hwt hA
  rw [hidle]
  have hrew : (s.indexWriteTail + i) % s.memSize
      = (s.indexReadTail + j + (cdist s.memSize s.indexReadTail s.indexReadHead
          + cdist s.memSize s.indexReadHead s.indexWriteTail + i - j)) % s.memSize := by
    conv_lhs => rw [← hwt2, Nat.mod_add_mod]
    congr 1
    omega
  rw [hrew]
  exact offsets_differ (by omega) (by omega)

/-- A request fits the no-split space exactly when it fits the wrap-around
space and ends at or before the physical end. -/
theorem nosplit_fits_iff {s : RcsFifoHandle_t} (hv : Valid s) (size : Nat) :
    size ≤ RCS_FIFO_FREE_NOSPLIT_SPACE s ↔
      (size ≤ RCS_FIFO_FREE_SPACE s ∧ s.indexWriteHead + size ≤ s.memSize) := by
  rw [free_nosplit_eq hv, free_space_eq hv]
  obtain ⟨hc0, hmax, hwh, hwt, hrh, hrt⟩ := hv
  split_ifs <;> omega

/-! ## The nesting counter at each return -/

theorem enter_exit (n : Int) :
    FifoPortExitCriticalFromAll (FifoPortEnterCriticalFromAll n) = n := by
  unfold FifoPortExitCriticalFromAll FifoPortEnterCriticalFromAll
  omega

theorem sendAcquire_crit_balanced (fifo : Option RcsFifoHandle_t) (size : Nat)
    (mo : Option Slots) (n : Int) : RcsFifoSendAcquire_crit fifo size mo n = n := by
  unfold RcsFifoSendAcquire_crit
  split
  · rfl
  · rfl
  · dsimp only
    split_ifs <;> first | rfl | exact enter_exit n

theorem sendAcquireNoSplit_crit_balanced (fifo : Option RcsFifoHandle_t) (size : Nat)
    (mo : Option Slots) (n : Int) : RcsFifoSendAcquireNoSplit_crit fifo size mo n = n := by
  unfold RcsFifoSendAcquireNoSplit_crit
  split
  · rfl
  · rfl
  · dsimp only
    split_ifs <;> first | rfl | exact enter_exit n

theorem recvAcquire_crit_balanced (fifo : Option RcsFifoHandle_t) (size : Nat)
    (mo : Option Slots) (n : Int) : RcsFifoRecvAcquire_crit fifo size mo n = n := by
  unfold RcsFifoRecvAcquire_crit
  split
  · rfl
  · rfl
  · dsimp only
    split_ifs <;> first | rfl | exact enter_exit n

theorem sendComplete_crit_balanced (fifo : Option RcsFifoHandle_t)
    (mo : Option Slots) (n : Int) : RcsFifoSendComplete_crit fifo mo n = n := by
  unfold RcsFifoSendComplete_crit
  split <;> first | rfl | exact enter_exit n

theorem recvComplete_crit_balanced (fifo : Option RcsFifoHandle_t)
    (mo : Option Slots) (n : Int) : RcsFifoRecvComplete_crit fifo mo n = n := by
  unfold RcsFifoRecvComplete_crit
  split <;> first | rfl | exact enter_exit n

/-- In a valid descriptor `RcsFifoRecvAcquireNoSplit` returns inside the
critical section exactly on the refusal of a request that passed the space
check with the data ahead of `indexReadHead`. -/
theorem recvAcquireNoSplit_crit_eq {s : RcsFifoHandle_t} (hv : Valid s) (m : Slots)
    (size : Nat) (n : Int) :
    RcsFifoRecvAcquireNoSplit_crit (some s) size (some m) n =
      if size ≠ 0 ∧ s.indexReadHead = s.indexReadTail
          ∧ size ≤ RCS_FIFO_USED_NOSPLIT_SPACE s ∧ s.indexReadHead < s.indexWriteTail
      then n + 1 else n := by
  have hu := used_nosplit_eq hv
  obtain ⟨hc0, hmax, hwh, hwt, hrh, hrt⟩ := hv
  have hmax' : s.memSize ≤ 2147483647 := hmax
  have hM : s.memSize < SIZE_MOD := by unfold SIZE_MOD; omega
  have hr : size_sub s.memSize s.indexReadHead = s.memSize - s.indexReadHead :=
    size_sub_eq (by omega) hM
  unfold RcsFifoRecvAcquireNoSplit_crit
  dsimp only
  by_cases h0 : size = 0
  · rw [if_pos h0, if_neg (by simp [h0])]
  · rw [if_neg h0]
    by_cases hidle : s.indexReadHead = s.indexReadTail
    · rw [if_neg (fun h => h hidle)]
      by_cases hf : size ≤ RCS_FIFO_USED_NOSPLIT_SPACE s
      · rw [if_neg (by omega)]
        by_cases hlt : s.indexReadHead < s.indexWriteTail
        · have hts : size_sub s.indexWriteTail s.indexReadHead
              = s.indexWriteTail - s.indexReadHead := size_sub_eq (by omega) (by omega)
          rw [if_neg (by omega), hts, if_neg (by omega), if_pos ⟨h0, hidle, hf, hlt⟩]
          rfl
        · rw [hu] at hf
          have hne : s.indexWriteTail ≠ s.indexReadHead := by
            intro he
            rw [if_pos (by omega)] at hf
            omega
          rw [if_neg (by omega)] at hf
          rw [if_pos (by omega), hr, if_pos (by omega), enter_exit,
            if_neg (fun h => hlt h.2.2.2)]
      · rw [if_pos (by omega), enter_exit, if_neg (fun h => hf h.2.2.1)]
    · rw [if_pos hidle, enter_exit, if_neg (fun h => hidle h.2.1)]

/-! ## Descriptors of any `size_t` capacity -/

theorem free_space_eq_gen {s : RcsFifoHandle_t} (hr : InRange s) (hM : s.memSize < SIZE_MOD) :
    RCS_FIFO_FREE_SPACE s =
      if s.indexReadTail > s.indexWriteHead then s.indexReadTail - s.indexWriteHead - 1
      else s.memSize - (s.indexWriteHead - s.indexReadTail) - 1 := by
  obtain ⟨hwh, hwt, hrh, hrt⟩ := hr
  unfold RCS_FIFO_FREE_SPACE size_sub
  unfold SIZE_MOD at *
  split <;> omega

theorem used_space_eq_gen {s : RcsFifoHandle_t} (hr : InRange s) (hM : s.memSize < SIZE_MOD) :
    RCS_FIFO_USED_SPACE s =
      if s.indexWriteTail ≥ s.indexReadHead then s.indexWriteTail - s.indexReadHead
      else s.memSize - (s.indexReadHead - s.indexWriteTail) := by
  obtain ⟨hwh, hwt, hrh, hrt⟩ := hr
  unfold RCS_FIFO_USED_SPACE size_sub
  unfold SIZE_MOD at *
  split <;> omega

theorem free_nosplit_eq_gen {s : RcsFifoHandle_t} (hr : InRange s)
    (hM : s.memSize < SIZE_MOD) :
    RCS_FIFO_FREE_NOSPLIT_SPACE s =
      if s.indexReadTail > s.indexWriteHead then s.indexReadTail - s.indexWriteHead - 1
      else s.memSize - s.indexWriteHead - (if s.indexReadTail = 0 then 1 else 0) := by
  obtain ⟨hwh, hwt, hrh, hrt⟩ := hr
  unfold RCS_FIFO_FREE_NOSPLIT_SPACE size_sub
  unfold SIZE_MOD at *
  split
  · omega
  · split <;> omega

theorem used_nosplit_eq_gen {s : RcsFifoHandle_t} (hr : InRange s)
    (hM : s.memSize < SIZE_MOD) :
    RCS_FIFO_USED_NOSPLIT_SPACE s =
      if s.indexWriteTail ≥ s.indexReadHead then s.indexWriteTail - s.indexReadHead
      else s.memSize - s.indexReadHead := by
  obtain ⟨hwh, hwt, hrh, hrt⟩ := hr
  unfold RCS_FIFO_USED_NOSPLIT_SPACE size_sub
  unfold SIZE_MOD at *
  split <;> omega

theorem free_nosplit_le_gen {s : RcsFifoHandle_t} (hr : InRange s)
    (hM : s.memSize < SIZE_MOD) :
    RCS_FIFO_FREE_NOSPLIT_SPACE s ≤ RCS_FIFO_FREE_SPACE s := by
  rw [free_space_eq_gen hr hM, free_nosplit_eq_gen hr hM]
  obtain ⟨hwh, hwt, hrh, hrt⟩ := hr
  split_ifs <;> omega

theorem used_nosplit_le_gen {s : RcsFifoHandle_t} (hr : InRange s)
    (hM : s.memSize < SIZE_MOD) :
    RCS_FIFO_USED_NOSPLIT_SPACE s ≤ RCS_FIFO_USED_SPACE s := by
  rw [used_space_eq_gen hr hM, used_nosplit_eq_gen hr hM]
  obtain ⟨hwh, hwt, hrh, hrt⟩ := hr
  split_ifs <;> omega

/-- The descriptor after the success path of `RcsFifoSendAcquire`. -/
theorem sendAcquire_fifo (s : RcsFifoHandle_t) (m : Slots) {size : Nat} (h0 : size ≠ 0)
    (hidle : s.indexWriteHead = s.indexWriteTail) (hfree : size ≤ RCS_FIFO_FREE_SPACE s) :
    (RcsFifoSendAcquire (some s) size (some m)).fifo
      = some { s with indexWriteHead := size_add s.indexWriteHead size % s.memSize } := by
  unfold RcsFifoSendAcquire
  dsimp only
  rw [if_neg h0, if_neg (fun h => h hidle), if_neg (Nat.not_lt.mpr hfree)]

/-- The descriptor after the success path of `RcsFifoRecvAcquire`. -/
theorem recvAcquire_fifo (s : RcsFifoHandle_t) (m : Slots) {size : Nat} (h0 : size ≠ 0)
    (hidle : s.indexReadHead = s.indexReadTail) (hused : size ≤ RCS_FIFO_USED_SPACE s) :
    (RcsFifoRecvAcquire (some s) size (some m)).fifo
      = some { s with indexReadHead := size_add s.indexReadHead size % s.memSize } := by
  unfold RcsFifoRecvAcquire
  dsimp only
  rw [if_neg h0, if_neg (fun h => h hidle), if_neg (Nat.not_lt.mpr hused)]

/-- The descriptor after `RcsFifoSendAcquireNoSplit` passed its space check. -/
theorem sendAcquireNoSplit_fifo {s : RcsFifoHandle_t} (m : Slots) {size : Nat}
    (hr : InRange s) (hM : s.memSize < SIZE_MOD) (h0 : size ≠ 0)
    (hidle : s.indexWriteHead = s.indexWriteTail)
    (hfree : size ≤ RCS_FIFO_FREE_NOSPLIT_SPACE s) :
    (RcsFifoSendAcquireNoSplit (some s) size (some m)).fifo
      = some { s with indexWriteHead := size_add s.indexWriteHead size % s.memSize } := by
  have hfree' := hfree
  rw [free_nosplit_eq_gen hr hM] at hfree'
  obtain ⟨hwh, hwt, hrh, hrt⟩ := hr
  have hsz : size ≤ s.memSize - s.indexWriteHead := by split at hfree' <;> omega
  have hrr : size_sub s.memSize s.indexWriteHead = s.memSize - s.indexWriteHead :=
    size_sub_eq (by omega) hM
  unfold RcsFifoSendAcquireNoSplit
  dsimp only
  rw [if_neg h0, if_neg (fun h => h hidle), if_neg (Nat.not_lt.mpr hfree), hrr]
  by_cases h1 : s.indexReadTail ≤ s.indexWriteHead
  · simp [h1, hsz]
  · have hts : size_sub s.indexReadTail s.indexWriteHead = s.indexReadTail - s.indexWriteHead :=
      size_sub_eq (by omega) (by omega)
    have h3 : size < s.indexReadTail - s.indexWriteHead := by
      rw [if_pos (by omega)] at hfree'; omega
    simp [h1, hts, h3]

/-- The descriptor after `RcsFifoRecvAcquireNoSplit` passed its space check:
advanced when the data lies behind the physical end, unchanged otherwise. -/
theorem recvAcquireNoSplit_fifo {s : RcsFifoHandle_t} (m : Slots) {size : Nat}
    (hr : InRange s) (hM : s.memSize < SIZE_MOD) (h0 : size ≠ 0)
    (hidle : s.indexReadHead = s.indexReadTail)
    (hused : size ≤ RCS_FIFO_USED_NOSPLIT_SPACE s) :
    (RcsFifoRecvAcquireNoSplit (some s) size (some m)).fifo
      = if s.indexWriteTail < s.indexReadHead then
          some { s with indexReadHead := size_add s.indexReadHead size % s.memSize }
        else some s := by
  have hused' := hused
  rw [used_nosplit_eq_gen hr hM] at hused'
  obtain ⟨hwh, hwt, hrh, hrt⟩ := hr
  have hrr : size_sub s.memSize s.indexReadHead = s.memSize - s.indexReadHead :=
    size_sub_eq (by omega) hM
  unfold RcsFifoRecvAcquireNoSplit
  dsimp only
  rw [if_neg h0, if_neg (fun h => h hidle), if_neg (Nat.not_lt.mpr hused), hrr]
  by_cases h1 : s.indexWriteTail < s.indexReadHead
  · have hsz : size ≤ s.memSize - s.indexReadHead := by
      rw [if_neg (by omega)] at hused'; omega
    simp [h1, Nat.le_of_lt h1, hsz]
  · have h00 : 0 < size := Nat.pos_of_ne_zero h0
    have h2 : s.indexReadHead < s.indexWriteTail := by
      rw [if_pos (by omega)] at hused'; omega
    have hts : size_sub s.indexWriteTail s.indexReadHead
        = s.indexWriteTail - s.indexReadHead := size_sub_eq (by omega) (by omega)
    have h3 : ¬ (s.indexWriteTail ≤ s.indexReadHead) := by omega
    have h4 : ¬ (s.memSize ≤ s.indexWriteTail - s.indexReadHead) := by omega
    simp [h1, h3, hts, h4]

/-- The head written by an acquire: the `size_t` sum, possibly wrapped, reduced
modulo the capacity, lies `e` positions ahead of the old head with
`1 ≤ e ≤ size`, and exactly `size` positions ahead when `2 * c ≤ SIZE_MOD`. -/
theorem advance_gen {c h size : Nat} (hc : c < SIZE_MOD) (hh : h < c) (h0 : 0 < size)
    (hs : size < c) :
    ∃ e, 0 < e ∧ e ≤ size ∧ (2 * c ≤ SIZE_MOD → e = size)
      ∧ size_add h size % c = if h + e < c then h + e else h + e - c := by
  unfold size_add
  unfold SIZE_MOD at *
  by_cases hw : h + size < 18446744073709551616
  · refine ⟨size, h0, Nat.le_refl _, fun _ => rfl, ?_⟩
    rw [Nat.mod_eq_of_lt hw]
    exact mod_wrap _ _ (by omega)
  · refine ⟨size - (18446744073709551616 - c), by omega, by omega, fun h2 => by omega, ?_⟩
    have hy : (h + size) % 18446744073709551616 = h + size - 18446744073709551616 := by omega
    rw [hy, Nat.mod_eq_of_lt (by omega), if_neg (by omega)]
    omega

theorem ordered_send_gen {s : RcsFifoHandle_t} {size : Nat} (hr : InRange s)
    (hM : s.memSize < SIZE_MOD) (ho : Ordered s)
    (hidle : s.indexWriteHead = s.indexWriteTail) (h0 : 0 < size)
    (hfree : size ≤ RCS_FIFO_FREE_SPACE s) :
    Ordered { s with indexWriteHead := size_add s.indexWriteHead size % s.memSize } := by
  rw [free_space_eq_gen hr hM] at hfree
  obtain ⟨hwh, hwt, hrh, hrt⟩ := hr
  have hsz : size < s.memSize := by split at hfree <;> omega
  obtain ⟨e, he0, hes, _, hx⟩ := advance_gen hM hwh h0 hsz
  unfold Ordered cdist at *
  simp only
  rw [hx]
  split_ifs at * <;> omega

theorem ordered_recv_gen {s : RcsFifoHandle_t} {size : Nat} (hr : InRange s)
    (hM : s.memSize < SIZE_MOD) (ho : Ordered s)
    (hidle : s.indexReadHead = s.indexReadTail) (h0 : 0 < size)
    (hused : size ≤ RCS_FIFO_USED_SPACE s) :
    Ordered { s with indexReadHead := size_add s.indexReadHead size % s.memSize } := by
  rw [used_space_eq_gen hr hM] at hused
  obtain ⟨hwh, hwt, hrh, hrt⟩ := hr
  have hsz : size < s.memSize := by split at hused <;> omega
  obtain ⟨e, he0, hes, _, hx⟩ := advance_gen hM hrh h0 hsz
  unfold Ordered cdist at *
  simp only
  rw [hx]
  split_ifs at * <;> omega

theorem ordered_sendComplete_gen {s : RcsFifoHandle_t} (hr : InRange s) (ho : Ordered s) :
    Ordered { s with indexWriteTail := s.indexWriteHead } := by
  obtain ⟨hwh, hwt, hrh, hrt⟩ := hr
  unfold Ordered cdist at *
  simp only
  split_ifs at * <;> omega

theorem ordered_recvComplete_gen {s : RcsFifoHandle_t} (hr : InRange s) (ho : Ordered s) :
    Ordered { s with indexReadTail := s.indexReadHead } := by
  obtain ⟨hwh, hwt, hrh, hrt⟩ := hr
  unfold Ordered cdist at *
  simp only
  split_ifs at * <;> omega

theorem call_ord (op : FifoOp) {s : RcsFifoHandle_t} (hr : InRange s)
    (hM : s.memSize < SIZE_MOD) (ho : Ordered s) :
    ∃ t, (op.call (some s)).fifo = some t ∧ InRange t ∧ Ordered t
      ∧ t.memSize = s.memSize := by
  obtain ⟨t, ht, hrt, hmt⟩ := call_range op hr
  refine ⟨t, ht, hrt, ?_, hmt⟩
  cases op with
  | sendAcquire size mo =>
    simp only [FifoOp.call] at ht
    rcases sendAcquire_cases s size mo with ⟨e, _, he⟩ | ⟨m, rfl, h0, hidle, hfree⟩
    · rw [he] at ht; cases ht; exact ho
    · rw [sendAcquire_fifo s m (by omega) hidle hfree] at ht
      cases ht
      exact ordered_send_gen hr hM ho hidle h0 hfree
  | sendAcquireNoSplit size mo =>
    simp only [FifoOp.call] at ht
    rcases sendAcquireNoSplit_cases s size mo with ⟨e, _, he⟩ | ⟨m, rfl, h0, hidle, hfree⟩
    · rw [he] at ht; cases ht; exact ho
    · rw [sendAcquireNoSplit_fifo m hr hM (by omega) hidle hfree] at ht
      cases ht
      exact ordered_send_gen hr hM ho hidle h0
        (Nat.le_trans hfree (free_nosplit_le_gen hr hM))
  | sendComplete mo =>
    simp only [FifoOp.call] at ht
    rcases sendComplete_cases s mo with he | he
    · rw [he] at ht; cases ht; exact ho
    · rw [he] at ht; cases ht; exact ordered_sendComplete_gen hr ho
  | recvAcquire size mo =>
    simp only [FifoOp.call] at ht
    rcases recvAcquire_cases s size mo with ⟨e, _, he⟩ | ⟨m, rfl, h0, hidle, hused⟩
    · rw [he] at ht; cases ht; exact ho
    · rw [recvAcquire_fifo s m (by omega) hidle hused] at ht
      cases ht
      exact ordered_recv_gen hr hM ho hidle h0 hused
  | recvAcquireNoSplit size mo =>
    simp only [FifoOp.call] at ht
    rcases recvAcquireNoSplit_cases s size mo with ⟨e, _, he⟩ | ⟨m, rfl, h0, hidle, hused⟩
    · rw [he] at ht; cases ht; exact ho
    · rw [recvAcquireNoSplit_fifo m hr hM (by omega) hidle hused] at ht
      by_cases hlt : s.indexWriteTail < s.indexReadHead
      · rw [if_pos hlt] at ht
        cases ht
        exact ordered_recv_gen hr hM ho hidle h0
          (Nat.le_trans hused (used_nosplit_le_gen hr hM))
      · rw [if_neg hlt] at ht
        cases ht
        exact ho
  | recvComplete mo =>
    simp only [FifoOp.call] at ht
    rcases recvComplete_cases s mo with he | he
    · rw [he] at ht; cases ht; exact ho
    · rw [he] at ht; cases ht; exact ordered_recvComplete_gen hr ho

theorem run_ord (ops : List FifoOp) : ∀ {s : RcsFifoHandle_t}, InRange s →
    s.memSize < SIZE_MOD → Ordered s →
    ∃ t, run (some s) ops = some t ∧ InRange t ∧ Ordered t ∧ t.memSize = s.memSize := by
  induction ops with
  | nil => intro s hr _ ho; exact ⟨s, rfl, hr, ho, rfl⟩
  | cons op ops ih =>
    intro s hr hM ho
    obtain ⟨t, ht, hrt, hot, hmt⟩ := call_ord op hr hM ho
    obtain ⟨u, hu, hru, hou, hmu⟩ := ih hrt (by rw [hmt]; exact hM) hot
    refine ⟨u, ?_, hru, hou, hmu.trans hmt⟩
    show run ((op.call (some s)).fifo) ops = some u
    rw [ht]; exact hu

/-- Every descriptor reachable from a buffer created with a `size_t` capacity
has its indices in range and in cyclic order. -/
theorem reachable_ordered {c : Nat} {s : RcsFifoHandle_t} (hc : c < SIZE_MOD)
    (h : Reachable c s) : InRange s ∧ Ordered s ∧ s.memSize = c := by
  obtain ⟨ops, hops⟩ := h
  rcases create_initial c true true with h0 | ⟨hpos, h0⟩
  · rw [h0, run_none] at hops
    exact absurd hops (by simp)
  · rw [h0] at hops
    have hr : InRange ⟨c, 0, 0, 0, 0⟩ := ⟨hpos, hpos, hpos, hpos⟩
    have ho : Ordered ⟨c, 0, 0, 0, 0⟩ := by
      unfold Ordered cdist; simp only [le_refl, if_true]; omega
    obtain ⟨t, ht, hrt, hot, hmt⟩ := run_ord ops hr hc ho
    rw [ht] at hops
    cases hops
    exact ⟨hrt, hot, hmt⟩

/-- The four regions fill the ring except for one byte, for any `size_t`
capacity. -/
theorem regions_sum_gen {s : RcsFifoHandle_t} (hr : InRange s) (hM : s.memSize < SIZE_MOD)
    (ho : Ordered s) :
    cdist s.memSize s.indexReadTail s.indexReadHead
      + cdist s.memSize s.indexReadHead s.indexWriteTail
      + cdist s.memSize s.indexWriteTail s.indexWriteHead
      + RCS_FIFO_FREE_SPACE s + 1 = s.memSize := by
  rw [free_space_eq_gen hr hM]
  obtain ⟨hwh, hwt, hrh, hrt⟩ := hr
  unfold Ordered cdist at *
  split_ifs at * <;> omega

theorem window_avoids_filled_gen {s : RcsFifoHandle_t} {size i j : Nat} (hr : InRange s)
    (hM : s.memSize < SIZE_MOD) (ho : Ordered s)
    (hidle : s.indexWriteHead = s.indexWriteTail)
    (hfree : size ≤ RCS_FIFO_FREE_SPACE s) (hi : i < size)
    (hj : j < cdist s.memSize s.indexReadTail s.indexReadHead
              + cdist s.memSize s.indexReadHead s.indexWriteTail) :
    (s.indexWriteHead + i) % s.memSize ≠ (s.indexReadTail + j) % s.memSize := by
  have hsum := regions_sum_gen hr hM ho
  obtain ⟨hwh, hwt, hrh, hrt⟩ := hr
  have hd : cdist s.memSize s.indexWriteTail s.indexWriteHead = 0 := by
    unfold cdist; rw [hidle]; simp
  have hA : cdist s.memSize s.indexReadTail s.indexReadHead
      + cdist s.memSize s.indexReadHead s.indexWriteTail < s.memSize := by omega
  have hwt2 := unwrap_two hrt hrh hwt hA
  rw [hidle]
  have hrew : (s.indexWriteTail + i) % s.memSize
      = (s.indexReadTail + j + (cdist s.memSize s.indexReadTail s.indexReadHead
          + cdist s.memSize s.indexReadHead s.indexWriteTail + i - j)) % s.memSize := by
    conv_lhs => rw [← hwt2, Nat.mod_add_mod]
    congr 1
    omega
  rw [hrew]
  exact offsets_differ (by omega) (by omega)

/-- All four space macros yield a `size_t` value. -/
theorem spaces_lt (s : RcsFifoHandle_t) :
    RCS_FIFO_FREE_SPACE s < SIZE_MOD ∧ RCS_FIFO_FREE_NOSPLIT_SPACE s < SIZE_MOD
    ∧ RCS_FIFO_USED_SPACE s < SIZE_MOD ∧ RCS_FIFO_USED_NOSPLIT_SPACE s < SIZE_MOD := by
  unfold RCS_FIFO_FREE_SPACE RCS_FIFO_FREE_NOSPLIT_SPACE RCS_FIFO_USED_SPACE
    RCS_FIFO_USED_NOSPLIT_SPACE size_sub SIZE_MOD
  refine ⟨?_, ?_, ?_, ?_⟩ <;> split <;> omega

/-- In a descriptor with its indices in range no space macro reaches the
capacity. -/
theorem spaces_lt_capacity {s : RcsFifoHandle_t} (hr : InRange s) :
    RCS_FIFO_FREE_SPACE s < s.memSize ∧ RCS_FIFO_FREE_NOSPLIT_SPACE s < s.memSize
    ∧ RCS_FIFO_USED_SPACE s < s.memSize ∧ RCS_FIFO_USED_NOSPLIT_SPACE s < s.memSize := by
  by_cases hM : s.memSize < SIZE_MOD
  · have h1 := free_space_eq_gen hr hM
    have h2 := free_nosplit_le_gen hr hM
    have h3 := used_space_eq_gen hr hM
    have h4 := used_nosplit_le_gen hr hM
    obtain ⟨hwh, hwt, hrh, hrt⟩ := hr
    have hf : RCS_FIFO_FREE_SPACE s < s.memSize := by rw [h1]; split <;> omega
    have hu : RCS_FIFO_USED_SPACE s < s.memSize := by rw [h3]; split <;> omega
    exact ⟨hf, by omega, hu, by omega⟩
  · obtain ⟨a, b, c, d⟩ := spaces_lt s
    exact ⟨by omega, by omega, by omega, by omega⟩

/-- C1 (counterexample): with capacity `2^31 + 1`, position 0 and size `2^31`
(so `2 ≤ c`, `p < c` and `0 < size < c`), `RcsFifoSendAcquire` moves
`indexWriteHead` to `2^31` but returns `(int)2^31 = -2147483648`, a negative
value: the call does not report success, and after `RcsFifoSendComplete` the
matching `RcsFifoRecvAcquire` returns the same negative value. -/
theorem C1_round_trip_counterexample :
    RcsFifoSendAcquire (some ⟨2147483649, 0, 0, 0, 0⟩) 2147483648 (some (none, none))
      = ⟨-2147483648, some ⟨2147483649, 2147483648, 0, 0, 0⟩, some (some 0, none)⟩
    ∧ ¬ (0 ≤ (RcsFifoSendAcquire (some ⟨2147483649, 0, 0, 0, 0⟩) 2147483648
          (some (none, none))).ret)
    ∧ RcsFifoSendComplete (some ⟨2147483649, 2147483648, 0, 0, 0⟩) (some (some 0, none))
      = ⟨RCS_FIFO_OK, some ⟨2147483649, 2147483648, 2147483648, 0, 0⟩, some (some 0, none)⟩
    ∧ ¬ (0 ≤ (RcsFifoRecvAcquire (some ⟨2147483649, 2147483648, 2147483648, 0, 0⟩) 2147483648
          (some (none, none))).ret) :=
  ⟨by decide, by decide, by decide, by decide⟩

/-- C1 (amended, round trip): for a capacity `2 ≤ c ≤ INT_MAX`, a position
`p < c` and a size `0 < size < c`, from the state with all four indices at `p`:
`RcsFifoSendAcquire` succeeds with span 0 at `p` and a second span (at offset
0) exactly when `p + size > c`; after `RcsFifoSendComplete`,
`RcsFifoRecvAcquire` of the same size returns the same value and the same
spans; the bytes filled into the write spans are the bytes collected from the
read spans; after `RcsFifoRecvComplete` all four indices are
`(p + size) % c`, again a position below `c`. -/
theorem C1_round_trip (c p size : Nat) (m0 m1 : Slots) (mem : Mem) (data : List Nat)
    (hc : 2 ≤ c) (hmax : c ≤ INT_MAX) (hp : p < c) (h0 : 0 < size) (hsz : size < c)
    (hlen : data.length = size) :
    let w := RcsFifoSendAcquire (some ⟨c, p, p, p, p⟩) size (some m0)
    let wc := RcsFifoSendComplete w.fifo w.memAcquired
    let r := RcsFifoRecvAcquire wc.fifo size (some m1)
    let rc := RcsFifoRecvComplete r.fifo r.memAcquired
    0 ≤ w.ret
    ∧ w.ret = ((if p + size ≤ c then size else c - p : Nat) : Int)
    ∧ w.memAcquired = some (some p, if p + size ≤ c then none else some 0)
    ∧ wc.ret = RCS_FIFO_OK
    ∧ r.ret = w.ret
    ∧ r.memAcquired = w.memAcquired
    ∧ readSpans (fillSpans mem (w.memAcquired.getD (none, none)) w.ret.toNat data)
        (r.memAcquired.getD (none, none)) r.ret.toNat size = data
    ∧ rc.ret = RCS_FIFO_OK
    ∧ rc.fifo = some ⟨c, (p + size) % c, (p + size) % c, (p + size) % c, (p + size) % c⟩
    ∧ (p + size) % c < c := by
  have hq : (p + size) % c < c := Nat.mod_lt _ (by omega)
  have hqe := mod_wrap (p + size) c (by omega)
  have hv0 : Valid ⟨c, p, p, p, p⟩ := ⟨by show 0 < c; omega, hmax, hp, hp, hp, hp⟩
  have hf0 : size ≤ RCS_FIFO_FREE_SPACE ⟨c, p, p, p, p⟩ := by
    rw [free_space_eq hv0]; simp only [gt_iff_lt, lt_irrefl, if_false]; omega
  have hw := sendAcquire_ok m0 hv0 rfl h0 hf0
  simp only at hw
  have hcond : (p ≤ p ∧ c - p < size) ↔ ¬ (p + size ≤ c) := by omega
  simp only [hcond, ite_not] at hw
  have hv2 : Valid ⟨c, (p + size) % c, (p + size) % c, p, p⟩ := ⟨by show 0 < c; omega, hmax, hq, hq, hp, hp⟩
  have hu2 : size ≤ RCS_FIFO_USED_SPACE ⟨c, (p + size) % c, (p + size) % c, p, p⟩ := by
    rw [used_space_eq hv2]; simp only; rw [hqe]; split <;> split <;> omega
  have hr := recvAcquire_ok m1 hv2 rfl h0 hu2
  simp only at hr
  have hcond2 : ((p + size) % c ≤ p ∧ c - p < size) ↔ ¬ (p + size ≤ c) := by
    rw [hqe]; split <;> omega
  simp only [hcond2, ite_not] at hr
  intro w wc r rc
  have hwc : wc = ⟨RCS_FIFO_OK, some ⟨c, (p + size) % c, (p + size) % c, p, p⟩,
      some (some p, if p + size ≤ c then none else some 0)⟩ := by
    show RcsFifoSendComplete (RcsFifoSendAcquire _ _ _).fifo (RcsFifoSendAcquire _ _ _).memAcquired = _
    rw [hw]; exact sendComplete_ok _ _ _
  have hr' : r = ⟨((if p + size ≤ c then size else c - p : Nat) : Int),
      some ⟨c, (p + size) % c, (p + size) % c, (p + size) % c, p⟩,
      some (some p, if p + size ≤ c then none else some 0)⟩ := by
    show RcsFifoRecvAcquire wc.fifo size (some m1) = _
    rw [hwc]; exact hr
  have hrc : rc = ⟨RCS_FIFO_OK, some ⟨c, (p + size) % c, (p + size) % c, (p + size) % c, (p + size) % c⟩,
      some (some p, if p + size ≤ c then none else some 0)⟩ := by
    show RcsFifoRecvComplete r.fifo r.memAcquired = _
    rw [hr']; exact recvComplete_ok _ _ _
  have hw' : w = ⟨((if p + size ≤ c then size else c - p : Nat) : Int),
      some ⟨c, (p + size) % c, p, p, p⟩,
      some (some p, if p + size ≤ c then none else some 0)⟩ := hw
  rw [hrc, hr', hwc, hw']
  refine ⟨?_, rfl, rfl, rfl, rfl, rfl, ?_, rfl, rfl, hq⟩
  · simp only; omega
  · simp only [Option.getD_some, Int.toNat_ofNat]
    by_cases h : p + size ≤ c
    · simp only [if_pos h]
      exact spans_single mem p size data hlen
    · simp only [if_neg h]
      exact spans_split mem p (c - p) size data hlen (by omega) (by omega)

theorem C1_round_trip_witness :
    let w := RcsFifoSendAcquire (some ⟨16, 13, 13, 13, 13⟩) 5 (some (none, none))
    let wc := RcsFifoSendComplete w.fifo w.memAcquired
    let r := RcsFifoRecvAcquire wc.fifo 5 (some (none, none))
    let rc := RcsFifoRecvComplete r.fifo r.memAcquired
    0 ≤ w.ret
    ∧ w.ret = ((if 13 + 5 ≤ 16 then 5 else 16 - 13 : Nat) : Int)
    ∧ w.memAcquired = some (some 13, if 13 + 5 ≤ 16 then none else some 0)
    ∧ wc.ret = RCS_FIFO_OK
    ∧ r.ret = w.ret
    ∧ r.memAcquired = w.memAcquired
    ∧ readSpans (fillSpans (fun _ => 0) (w.memAcquired.getD (none, none)) w.ret.toNat [1, 2, 3, 4, 5])
        (r.memAcquired.getD (none, none)) r.ret.toNat 5 = [1, 2, 3, 4, 5]
    ∧ rc.ret = RCS_FIFO_OK
    ∧ rc.fifo = some ⟨16, (13 + 5) % 16, (13 + 5) % 16, (13 + 5) % 16, (13 + 5) % 16⟩
    ∧ (13 + 5) % 16 < 16 :=
  C1_round_trip 16 13 5 (none, none) (none, none) (fun _ => 0) [1, 2, 3, 4, 5]
    (by decide) (by decide) (by decide) (by decide) (by decide) rfl

/-- C2 (counterexample): with capacity `2^32 + 16`, all four indices at 16 and
size `2^32 + 5` (no write outstanding, `indexWriteHead ≥ indexReadTail`,
`memSize - indexWriteHead = 2^32 < size ≤ RCS_FIFO_FREE_SPACE`),
`RcsFifoSendAcquire` splits the request but returns `(int)2^32 = 0`, not
`memSize - indexWriteHead = 4294967296`. -/
theorem C2_wraparound_split_counterexample :
    (⟨4294967312, 16, 16, 16, 16⟩ : RcsFifoHandle_t).memSize - 16 < 4294967301
    ∧ 4294967301 ≤ RCS_FIFO_FREE_SPACE ⟨4294967312, 16, 16, 16, 16⟩
    ∧ RcsFifoSendAcquire (some ⟨4294967312, 16, 16, 16, 16⟩) 4294967301 (some (none, none))
      = ⟨0, some ⟨4294967312, 5, 16, 16, 16⟩, some (some 16, some 0)⟩
    ∧ (RcsFifoSendAcquire (some ⟨4294967312, 16, 16, 16, 16⟩) 4294967301
          (some (none, none))).ret ≠ ((4294967312 - 16 : Nat) : Int) :=
  ⟨by decide, by decide, by decide, by decide⟩

/-- C2 (amended, wrap-around split): in a valid descriptor (capacity at most
`INT_MAX`, indices below the capacity) with no write outstanding and
`indexWriteHead ≥ indexReadTail`, a request with
`memSize - indexWriteHead < size ≤ RCS_FIFO_FREE_SPACE` makes
`RcsFifoSendAcquire` return `memSize - indexWriteHead`, put span 0 at offset
`indexWriteHead` and span 1 at offset 0, and set `indexWriteHead` to
`size - (memSize - indexWriteHead)`; the two span lengths sum to `size`. -/
theorem C2_wraparound_split (s : RcsFifoHandle_t) (m : Slots) (size : Nat) (hv : Valid s)
    (hidle : s.indexWriteHead = s.indexWriteTail) (hge : s.indexWriteHead ≥ s.indexReadTail)
    (hlo : s.memSize - s.indexWriteHead < size) (hhi : size ≤ RCS_FIFO_FREE_SPACE s) :
    RcsFifoSendAcquire (some s) size (some m) =
      ⟨((s.memSize - s.indexWriteHead : Nat) : Int),
       some { s with indexWriteHead := size - (s.memSize - s.indexWriteHead) },
       some (some s.indexWriteHead, some 0)⟩
    ∧ (s.memSize - s.indexWriteHead) + (size - (s.memSize - s.indexWriteHead)) = size := by
  have h0 : 0 < size := by omega
  have hok := sendAcquire_ok m hv hidle h0 hhi
  rw [free_space_eq hv] at hhi
  obtain ⟨hc0, hmax, hwh, hwt, hrh, hrt⟩ := hv
  rw [if_neg (by omega)] at hhi
  have hm := mod_wrap (s.indexWriteHead + size) s.memSize (by omega)
  rw [if_neg (by omega)] at hm
  rw [if_pos ⟨hge, hlo⟩, if_pos ⟨hge, hlo⟩, hm] at hok
  refine ⟨?_, by omega⟩
  rw [hok]
  have : s.indexWriteHead + size - s.memSize = size - (s.memSize - s.indexWriteHead) := by omega
  rw [this]

theorem C2_wraparound_split_witness :
    (RcsFifoSendAcquire (some fifo16_at13) 5 (some (none, none)) =
      ⟨3, some ⟨16, 2, 13, 13, 13⟩, some (some 13, some 0)⟩ ∧ 3 + 2 = 5)
    ∧ (RcsFifoSendAcquire (some fifo16_at13) 15 (some (none, none)) =
      ⟨3, some ⟨16, 12, 13, 13, 13⟩, some (some 13, some 0)⟩ ∧ 3 + 12 = 15) :=
  ⟨C2_wraparound_split fifo16_at13 (none, none) 5 (by decide) (by decide) (by decide)
      (by decide) (by decide),
   C2_wraparound_split fifo16_at13 (none, none) 15 (by decide) (by decide) (by decide)
      (by decide) (by decide)⟩

/-- C3 (counterexample): on the idle descriptor of capacity `2^31 + 1` with all
indices 0 the free space of the claim's formula is `2^31`, and the request
`size = 2^31` is within it, but `RcsFifoSendAcquire` returns
`(int)2^31 = -2147483648`: the return value is negative although
`size ≤ free`. -/
theorem C3_write_admission_counterexample :
    ((2147483648 : Nat) : Int) ≤
        (if (⟨2147483649, 0, 0, 0, 0⟩ : RcsFifoHandle_t).indexReadTail
            > (⟨2147483649, 0, 0, 0, 0⟩ : RcsFifoHandle_t).indexWriteHead
          then ((0 : Nat) : Int) - ((0 : Nat) : Int) - 1
          else ((2147483649 : Nat) : Int) - (((0 : Nat) : Int) - ((0 : Nat) : Int)) - 1)
    ∧ (RcsFifoSendAcquire (some ⟨2147483649, 0, 0, 0, 0⟩) 2147483648 (some (none, none))).ret
      = -2147483648
    ∧ ¬ (0 ≤ (RcsFifoSendAcquire (some ⟨2147483649, 0, 0, 0, 0⟩) 2147483648
          (some (none, none))).ret) :=
  ⟨by decide, by decide, by decide⟩

/-- C3 (amended, write admission): in a valid descriptor (capacity at most
`INT_MAX`, indices below the capacity) with no write outstanding, for
`size ≥ 1` with a handle and an output array, `RcsFifoSendAcquire` succeeds
(non-negative return) exactly when `size ≤ free`, where `free` is
`readTail - writeHead - 1` if `readTail > writeHead` and
`capacity - (writeHead - readTail) - 1` otherwise (computed in the integers);
when `size > free` the call returns `RCS_FIFO_NO_SPACE` and leaves the
descriptor and the output array unchanged. -/
theorem C3_write_admission (s : RcsFifoHandle_t) (m : Slots) (size : Nat) (hv : Valid s)
    (hidle : s.indexWriteHead = s.indexWriteTail) (h1 : 1 ≤ size) :
    (0 ≤ (RcsFifoSendAcquire (some s) size (some m)).ret ↔
      (size : Int) ≤
        (if s.indexReadTail > s.indexWriteHead
          then (s.indexReadTail : Int) - s.indexWriteHead - 1
          else (s.memSize : Int) - ((s.indexWriteHead : Int) - s.indexReadTail) - 1))
    ∧ ((if s.indexReadTail > s.indexWriteHead
          then (s.indexReadTail : Int) - s.indexWriteHead - 1
          else (s.memSize : Int) - ((s.indexWriteHead : Int) - s.indexReadTail) - 1) < (size : Int)
        → RcsFifoSendAcquire (some s) size (some m) = ⟨RCS_FIFO_NO_SPACE, some s, some m⟩) := by
  have hf := free_space_eq hv
  have hfi : ((RCS_FIFO_FREE_SPACE s : Nat) : Int) =
      (if s.indexReadTail > s.indexWriteHead
          then (s.indexReadTail : Int) - s.indexWriteHead - 1
          else (s.memSize : Int) - ((s.indexWriteHead : Int) - s.indexReadTail) - 1) := by
    rw [hf]
    obtain ⟨hc0, hmax, hwh, hwt, hrh, hrt⟩ := hv
    split <;> omega
  rw [← hfi]
  have hne : size ≠ 0 := by omega
  by_cases h : size ≤ RCS_FIFO_FREE_SPACE s
  · have hpos := sendAcquire_ret_pos m hv hidle (by omega) h
    refine ⟨⟨fun _ => by exact_mod_cast h, fun _ => Int.le_of_lt hpos⟩, fun hlt => ?_⟩
    have : RCS_FIFO_FREE_SPACE s < size := by exact_mod_cast hlt
    omega
  · have hno := sendAcquire_no_space s m hne hidle (by omega)
    refine ⟨⟨fun hret => ?_, fun hle => ?_⟩, fun _ => hno⟩
    · rw [hno] at hret
      simp only at hret
      exact absurd hret (by decide)
    · have : size ≤ RCS_FIFO_FREE_SPACE s := by exact_mod_cast hle
      exact absurd this h

theorem C3_write_admission_witness :
    (0 ≤ (RcsFifoSendAcquire (some fifo16_at13) 16 (some (none, none))).ret ↔
      ((16 : Nat) : Int) ≤
        (if fifo16_at13.indexReadTail > fifo16_at13.indexWriteHead
          then (fifo16_at13.indexReadTail : Int) - fifo16_at13.indexWriteHead - 1
          else (fifo16_at13.memSize : Int)
            - ((fifo16_at13.indexWriteHead : Int) - fifo16_at13.indexReadTail) - 1))
    ∧ ((if fifo16_at13.indexReadTail > fifo16_at13.indexWriteHead
          then (fifo16_at13.indexReadTail : Int) - fifo16_at13.indexWriteHead - 1
          else (fifo16_at13.memSize : Int)
            - ((fifo16_at13.indexWriteHead : Int) - fifo16_at13.indexReadTail) - 1)
          < ((16 : Nat) : Int)
        → RcsFifoSendAcquire (some fifo16_at13) 16 (some (none, none)) =
          ⟨RCS_FIFO_NO_SPACE, some fifo16_at13, some (none, none)⟩) :=
  C3_write_admission fifo16_at13 (none, none) 16 (by decide) (by decide) (by decide)

/-- C4 (one outstanding acquisition per side): for every descriptor, output
array and `size ≥ 1`, when `indexWriteHead ≠ indexWriteTail` both
`RcsFifoSendAcquire` and `RcsFifoSendAcquireNoSplit` return
`RCS_FIFO_NOT_ALLOWED`, and when `indexReadHead ≠ indexReadTail` both
`RcsFifoRecvAcquire` and `RcsFifoRecvAcquireNoSplit` return
`RCS_FIFO_NOT_ALLOWED`; the descriptor and the output array are unchanged. -/
theorem C4_one_outstanding_per_side (s : RcsFifoHandle_t) (m : Slots) (size : Nat)
    (h1 : 1 ≤ size) :
    (s.indexWriteHead ≠ s.indexWriteTail →
      RcsFifoSendAcquire (some s) size (some m) = ⟨RCS_FIFO_NOT_ALLOWED, some s, some m⟩
      ∧ RcsFifoSendAcquireNoSplit (some s) size (some m)
          = ⟨RCS_FIFO_NOT_ALLOWED, some s, some m⟩)
    ∧ (s.indexReadHead ≠ s.indexReadTail →
      RcsFifoRecvAcquire (some s) size (some m) = ⟨RCS_FIFO_NOT_ALLOWED, some s, some m⟩
      ∧ RcsFifoRecvAcquireNoSplit (some s) size (some m)
          = ⟨RCS_FIFO_NOT_ALLOWED, some s, some m⟩) := by
  have hne : size ≠ 0 := by omega
  exact ⟨fun h => ⟨sendAcquire_not_allowed s m hne h, sendAcquireNoSplit_not_allowed s m hne h⟩,
    fun h => ⟨recvAcquire_not_allowed s m hne h, recvAcquireNoSplit_not_allowed s m hne h⟩⟩

theorem C4_one_outstanding_per_side_witness :
    (RcsFifoSendAcquire (some fifo16_busy) 3 (some (some 0, none))
        = ⟨RCS_FIFO_NOT_ALLOWED, some fifo16_busy, some (some 0, none)⟩
      ∧ RcsFifoSendAcquireNoSplit (some fifo16_busy) 3 (some (some 0, none))
        = ⟨RCS_FIFO_NOT_ALLOWED, some fifo16_busy, some (some 0, none)⟩)
    ∧ (RcsFifoRecvAcquire (some fifo16_busy) 3 (some (some 0, none))
        = ⟨RCS_FIFO_NOT_ALLOWED, some fifo16_busy, some (some 0, none)⟩
      ∧ RcsFifoRecvAcquireNoSplit (some fifo16_busy) 3 (some (some 0, none))
        = ⟨RCS_FIFO_NOT_ALLOWED, some fifo16_busy, some (some 0, none)⟩) :=
  ⟨(C4_one_outstanding_per_side fifo16_busy (some 0, none) 3 (by decide)).1 (by decide),
   (C4_one_outstanding_per_side fifo16_busy (some 0, none) 3 (by decide)).2 (by decide)⟩

/-- C5 (counterexample): on a buffer created with capacity `c = 2^31 + 1`,
`RcsFifoSendAcquire` of `c - 1 = 2^31` bytes returns `-2147483648`, not
`c - 1`, so the call does not report success. -/
theorem C5_usable_capacity_counterexample :
    RcsFifoSendAcquire (RcsFifoCreate 2147483649 true true) (2147483649 - 1) (some (none, none))
      = ⟨-2147483648, some ⟨2147483649, 2147483648, 0, 0, 0⟩, some (some 0, none)⟩
    ∧ (RcsFifoSendAcquire (RcsFifoCreate 2147483649 true true) (2147483649 - 1)
          (some (none, none))).ret ≠ ((2147483649 - 1 : Nat) : Int)
    ∧ ¬ (0 ≤ (RcsFifoSendAcquire (RcsFifoCreate 2147483649 true true) (2147483649 - 1)
          (some (none, none))).ret) :=
  ⟨by decide, by decide, by decide⟩

/-- C5 (amended, usable capacity is `capacity - 1`): on a buffer created with capacity
`2 ≤ c ≤ INT_MAX`, `RcsFifoSendAcquire` of `c - 1` bytes returns `c - 1` with
one span (second span null); after `RcsFifoSendComplete`, acquiring one more
byte returns `RCS_FIFO_NO_SPACE`, and still does after an uncompleted
`RcsFifoRecvAcquire` of `k` bytes (`1 ≤ k ≤ c - 1`, which succeeds); after the
matching `RcsFifoRecvComplete`, acquiring one byte succeeds. -/
theorem C5_usable_capacity (c k : Nat) (m : Slots) (hc : 2 ≤ c) (hmax : c ≤ INT_MAX)
    (hk1 : 1 ≤ k) (hk : k ≤ c - 1) :
    let a := RcsFifoSendAcquire (RcsFifoCreate c true true) (c - 1) (some m)
    let b := RcsFifoSendComplete a.fifo a.memAcquired
    let r := RcsFifoRecvAcquire b.fifo k (some m)
    let rc := RcsFifoRecvComplete r.fifo r.memAcquired
    a.ret = ((c - 1 : Nat) : Int)
    ∧ a.memAcquired = some (some 0, none)
    ∧ RcsFifoSendAcquire b.fifo 1 (some m) = ⟨RCS_FIFO_NO_SPACE, b.fifo, some m⟩
    ∧ 0 ≤ r.ret
    ∧ RcsFifoSendAcquire r.fifo 1 (some m) = ⟨RCS_FIFO_NO_SPACE, r.fifo, some m⟩
    ∧ 0 ≤ (RcsFifoSendAcquire rc.fifo 1 (some m)).ret := by
  have hc0 : 0 < c := by omega
  have hcm : c - 1 < c := by omega
  have hv0 : Valid ⟨c, 0, 0, 0, 0⟩ := ⟨hc0, hmax, hc0, hc0, hc0, hc0⟩
  have hv1 : Valid ⟨c, c - 1, c - 1, 0, 0⟩ := ⟨hc0, hmax, hcm, hcm, hc0, hc0⟩
  have hv2 : Valid ⟨c, c - 1, c - 1, k, 0⟩ := ⟨hc0, hmax, hcm, hcm, by show k < c; omega, hc0⟩
  have hv3 : Valid ⟨c, c - 1, c - 1, k, k⟩ :=
    ⟨hc0, hmax, hcm, hcm, by show k < c; omega, by show k < c; omega⟩
  -- the first acquisition
  have hf0 : c - 1 ≤ RCS_FIFO_FREE_SPACE ⟨c, 0, 0, 0, 0⟩ := by
    rw [free_space_eq hv0]; simp only [gt_iff_lt, lt_irrefl, if_false]; omega
  have ha := sendAcquire_ok m hv0 rfl (by omega) hf0
  simp only at ha
  rw [if_neg (by omega), if_neg (by omega), Nat.zero_add, Nat.mod_eq_of_lt hcm] at ha
  -- one more byte does not fit
  have hfull1 : RCS_FIFO_FREE_SPACE ⟨c, c - 1, c - 1, 0, 0⟩ < 1 := by
    rw [free_space_eq hv1]; simp only [gt_iff_lt]; rw [if_neg (by omega)]; omega
  have hfull2 : RCS_FIFO_FREE_SPACE ⟨c, c - 1, c - 1, k, 0⟩ < 1 := by
    rw [free_space_eq hv2]; simp only [gt_iff_lt]; rw [if_neg (by omega)]; omega
  -- the read acquisition
  have hu1 : k ≤ RCS_FIFO_USED_SPACE ⟨c, c - 1, c - 1, 0, 0⟩ := by
    rw [used_space_eq hv1]; simp only [ge_iff_le]; rw [if_pos (by omega)]; omega
  have hr := recvAcquire_ok m hv1 rfl (by omega) hu1
  simp only at hr
  rw [if_neg (by omega), if_neg (by omega), Nat.zero_add,
    Nat.mod_eq_of_lt (by omega : k < c)] at hr
  -- after the read is completed
  have hf3 : 1 ≤ RCS_FIFO_FREE_SPACE ⟨c, c - 1, c - 1, k, k⟩ := by
    rw [free_space_eq hv3]; simp only [gt_iff_lt]; rw [if_neg (by omega)]; omega
  intro a b r rc
  have ha' : a = ⟨((c - 1 : Nat) : Int), some ⟨c, c - 1, 0, 0, 0⟩, some (some 0, none)⟩ := by
    show RcsFifoSendAcquire (RcsFifoCreate c true true) (c - 1) (some m) = _
    rw [create_eq hc0]; exact ha
  have hb : b = ⟨RCS_FIFO_OK, some ⟨c, c - 1, c - 1, 0, 0⟩, some (some 0, none)⟩ := by
    show RcsFifoSendComplete a.fifo a.memAcquired = _
    rw [ha']; exact sendComplete_ok _ _ _
  have hr' : r = ⟨((k : Nat) : Int), some ⟨c, c - 1, c - 1, k, 0⟩, some (some 0, none)⟩ := by
    show RcsFifoRecvAcquire b.fifo k (some m) = _
    rw [hb]; exact hr
  have hrc : rc = ⟨RCS_FIFO_OK, some ⟨c, c - 1, c - 1, k, k⟩, some (some 0, none)⟩ := by
    show RcsFifoRecvComplete r.fifo r.memAcquired = _
    rw [hr']; exact recvComplete_ok _ _ _
  rw [hrc, hr', hb, ha']
  refine ⟨rfl, rfl, ?_, ?_, ?_, ?_⟩
  · exact sendAcquire_no_space _ m (by decide) rfl hfull1
  · simp only; omega
  · exact sendAcquire_no_space _ m (by decide) rfl hfull2
  · exact Int.le_of_lt (sendAcquire_ret_pos m hv3 rfl (by decide) hf3)

theorem C5_usable_capacity_witness :
    let a := RcsFifoSendAcquire (RcsFifoCreate 16 true true) (16 - 1) (some (none, none))
    let b := RcsFifoSendComplete a.fifo a.memAcquired
    let r := RcsFifoRecvAcquire b.fifo 4 (some (none, none))
    let rc := RcsFifoRecvComplete r.fifo r.memAcquired
    a.ret = ((16 - 1 : Nat) : Int)
    ∧ a.memAcquired = some (some 0, none)
    ∧ RcsFifoSendAcquire b.fifo 1 (some (none, none))
        = ⟨RCS_FIFO_NO_SPACE, b.fifo, some (none, none)⟩
    ∧ 0 ≤ r.ret
    ∧ RcsFifoSendAcquire r.fifo 1 (some (none, none))
        = ⟨RCS_FIFO_NO_SPACE, r.fifo, some (none, none)⟩
    ∧ 0 ≤ (RcsFifoSendAcquire rc.fifo 1 (some (none, none))).ret :=
  C5_usable_capacity 16 4 (none, none) (by decide) (by decide) (by decide) (by decide)

/-- C6 (counterexample): on the descriptor of capacity `2^31 + 1` holding
`2^31 - 1` committed bytes, `RcsFifoSendAcquire` of one byte succeeds; before
`RcsFifoSendComplete` a read of `2^31` bytes returns `RCS_FIFO_NO_DATA`; after
it the `2^31` bytes are there (`RCS_FIFO_USED_SPACE` is `2^31`) but
`RcsFifoRecvAcquire` returns `-2147483648`, a negative value. -/
theorem C6_reserved_not_readable_counterexample :
    RcsFifoSendAcquire (some ⟨2147483649, 2147483647, 2147483647, 0, 0⟩) 1 (some (none, none))
      = ⟨1, some ⟨2147483649, 2147483648, 2147483647, 0, 0⟩, some (some 2147483647, none)⟩
    ∧ RcsFifoRecvAcquire (some ⟨2147483649, 2147483648, 2147483647, 0, 0⟩) 2147483648
        (some (none, none))
      = ⟨RCS_FIFO_NO_DATA, some ⟨2147483649, 2147483648, 2147483647, 0, 0⟩, some (none, none)⟩
    ∧ RcsFifoSendComplete (some ⟨2147483649, 2147483648, 2147483647, 0, 0⟩)
        (some (some 2147483647, none))
      = ⟨RCS_FIFO_OK, some ⟨2147483649, 2147483648, 2147483648, 0, 0⟩,
          some (some 2147483647, none)⟩
    ∧ 2147483648 ≤ RCS_FIFO_USED_SPACE ⟨2147483649, 2147483647, 2147483647, 0, 0⟩ + 1
    ∧ RCS_FIFO_USED_SPACE ⟨2147483649, 2147483648, 2147483648, 0, 0⟩ = 2147483648
    ∧ RcsFifoRecvAcquire (some ⟨2147483649, 2147483648, 2147483648, 0, 0⟩) 2147483648
        (some (none, none))
      = ⟨-2147483648, some ⟨2147483649, 2147483648, 2147483648, 2147483648, 0⟩,
          some (some 0, none)⟩
    ∧ ¬ (0 ≤ (RcsFifoRecvAcquire (some ⟨2147483649, 2147483648, 2147483648, 0, 0⟩) 2147483648
          (some (none, none))).ret) :=
  ⟨by decide, by decide, by decide, by decide, by decide, by decide, by decide⟩

/-- C6 (amended, reserved but not readable): in a valid descriptor (capacity at
most `INT_MAX`, indices below the capacity), a successful
`RcsFifoSendAcquire` or `RcsFifoSendAcquireNoSplit` of `size` bytes sets
`indexWriteHead` to `(indexWriteHead + size) % memSize` and changes no other
field; `RcsFifoRecvAcquire` then returns the same status and spans as before
the acquisition for every read size (`RCS_FIFO_NO_DATA` on an empty buffer,
and for every size above the bytes committed before); once
`RcsFifoSendComplete` has run, read sizes up to the committed bytes plus
`size` are admitted. -/
theorem C6_reserved_not_readable (s : RcsFifoHandle_t) (m mr : Slots) (mo : Option Slots)
    (x : Ptr) (size k : Nat) (hv : Valid s)
    (hsucc : 0 ≤ (RcsFifoSendAcquire (some s) size (some m)).ret
      ∨ 0 ≤ (RcsFifoSendAcquireNoSplit (some s) size (some m)).ret) :
    (0 ≤ (RcsFifoSendAcquire (some s) size (some m)).ret →
      (RcsFifoSendAcquire (some s) size (some m)).fifo
        = some { s with indexWriteHead := (s.indexWriteHead + size) % s.memSize })
    ∧ (0 ≤ (RcsFifoSendAcquireNoSplit (some s) size (some m)).ret →
      (RcsFifoSendAcquireNoSplit (some s) size (some m)).fifo
        = some { s with indexWriteHead := (s.indexWriteHead + size) % s.memSize })
    ∧ (RcsFifoRecvAcquire
          (some { s with indexWriteHead := (s.indexWriteHead + size) % s.memSize }) k mo).ret
        = (RcsFifoRecvAcquire (some s) k mo).ret
    ∧ (RcsFifoRecvAcquire
          (some { s with indexWriteHead := (s.indexWriteHead + size) % s.memSize }) k
          mo).memAcquired
        = (RcsFifoRecvAcquire (some s) k mo).memAcquired
    ∧ (s.indexReadHead = s.indexReadTail → s.indexWriteTail = s.indexReadHead → 1 ≤ k →
        RcsFifoRecvAcquire
          (some { s with indexWriteHead := (s.indexWriteHead + size) % s.memSize }) k (some mr)
        = ⟨RCS_FIFO_NO_DATA,
            some { s with indexWriteHead := (s.indexWriteHead + size) % s.memSize }, some mr⟩)
    ∧ (s.indexReadHead = s.indexReadTail → RCS_FIFO_USED_SPACE s < k →
        RcsFifoRecvAcquire
          (some { s with indexWriteHead := (s.indexWriteHead + size) % s.memSize }) k (some mr)
        = ⟨RCS_FIFO_NO_DATA,
            some { s with indexWriteHead := (s.indexWriteHead + size) % s.memSize }, some mr⟩)
    ∧ (s.indexReadHead = s.indexReadTail → 1 ≤ k → k ≤ RCS_FIFO_USED_SPACE s + size →
        0 ≤ (RcsFifoRecvAcquire
          (RcsFifoSendComplete
            (some { s with indexWriteHead := (s.indexWriteHead + size) % s.memSize })
            (some (some s.indexWriteHead, x))).fifo k (some mr)).ret) := by
  -- what a successful acquisition of either kind implies
  have hfacts : s.indexWriteHead = s.indexWriteTail ∧ size ≤ RCS_FIFO_FREE_SPACE s := by
    rcases hsucc with h | h
    · rcases sendAcquire_step hv size (some m) with ⟨hneg, _, _⟩ | ⟨_, _, _, hidle, _, hfree⟩
      · omega
      · exact ⟨hidle, hfree⟩
    · rcases sendAcquireNoSplit_step hv size (some m) with
        ⟨hneg, _, _⟩ | ⟨_, _, _, hidle, _, hfree⟩
      · omega
      · exact ⟨hidle, hfree⟩
  obtain ⟨hidle, hfree⟩ := hfacts
  have hused1 : RCS_FIFO_USED_SPACE
      { s with indexWriteHead := (s.indexWriteHead + size) % s.memSize }
      = RCS_FIFO_USED_SPACE s := rfl
  refine ⟨fun h => ?_, fun h => ?_, (recvAcquire_frame_wh s _ k mo).1,
    (recvAcquire_frame_wh s _ k mo).2, fun hr he hk => ?_, fun hr hk => ?_, fun hr hk1 hk => ?_⟩
  · rcases sendAcquire_step hv size (some m) with ⟨hneg, _, _⟩ | ⟨_, hf, _⟩
    · omega
    · exact hf
  · rcases sendAcquireNoSplit_step hv size (some m) with ⟨hneg, _, _⟩ | ⟨_, hf, _⟩
    · omega
    · exact hf
  · refine recvAcquire_no_data ⟨s.memSize, (s.indexWriteHead + size) % s.memSize,
      s.indexWriteTail, s.indexReadHead, s.indexReadTail⟩ mr (show k ≠ 0 by omega) hr ?_
    rw [hused1, used_space_eq hv, if_pos (by omega)]
    omega
  · refine recvAcquire_no_data ⟨s.memSize, (s.indexWriteHead + size) % s.memSize,
      s.indexWriteTail, s.indexReadHead, s.indexReadTail⟩ mr (show k ≠ 0 by omega) hr ?_
    rw [hused1]
    exact hk
  · rw [sendComplete_ok]
    have hv2 : Valid ⟨s.memSize, (s.indexWriteHead + size) % s.memSize,
        (s.indexWriteHead + size) % s.memSize, s.indexReadHead, s.indexReadTail⟩ := by
      obtain ⟨hc0, hmax, hwh, hwt, hrh, hrt⟩ := hv
      exact ⟨hc0, hmax, Nat.mod_lt _ hc0, Nat.mod_lt _ hc0, hrh, hrt⟩
    have hu := used_after_commit hv hidle hr hfree
    exact Int.le_of_lt (recvAcquire_ret_pos mr hv2 hr (by omega) (by rw [hu]; exact hk))

theorem C6_reserved_not_readable_witness :
    (RcsFifoSendAcquire (some fifo16_at13) 5 (some (none, none))).fifo
        = some ⟨16, 2, 13, 13, 13⟩
    ∧ (RcsFifoRecvAcquire (some ⟨16, 2, 13, 13, 13⟩) 5 (some (none, none))).ret
        = (RcsFifoRecvAcquire (some fifo16_at13) 5 (some (none, none))).ret
    ∧ RcsFifoRecvAcquire (some ⟨16, 2, 13, 13, 13⟩) 5 (some (none, none))
        = ⟨RCS_FIFO_NO_DATA, some ⟨16, 2, 13, 13, 13⟩, some (none, none)⟩
    ∧ 0 ≤ (RcsFifoRecvAcquire
          (RcsFifoSendComplete (some ⟨16, 2, 13, 13, 13⟩) (some (some 13, some 0))).fifo
          5 (some (none, none))).ret :=
  ⟨(C6_reserved_not_readable fifo16_at13 (none, none) (none, none) (some (none, none))
      (some 0) 5 5 (by decide) (Or.inl (by decide))).1 (by decide),
   (C6_reserved_not_readable fifo16_at13 (none, none) (none, none) (some (none, none))
      (some 0) 5 5 (by decide) (Or.inl (by decide))).2.2.1,
   (C6_reserved_not_readable fifo16_at13 (none, none) (none, none) (some (none, none))
      (some 0) 5 5 (by decide) (Or.inl (by decide))).2.2.2.2.1 rfl rfl (by decide),
   (C6_reserved_not_readable fifo16_at13 (none, none) (none, none) (some (none, none))
      (some 0) 5 5 (by decide) (Or.inl (by decide))).2.2.2.2.2.2 rfl (by decide) (by decide)⟩

/-- C8 (complete publishes and is idempotent): for every descriptor,
`RcsFifoSendComplete` with a handle and a non-null first span pointer returns
`RCS_FIFO_OK`, sets `indexWriteTail` to `indexWriteHead` and changes nothing
else; when `indexWriteTail = indexWriteHead` already holds the descriptor is
unchanged, and a second call gives the same result as the first. The same
holds for `RcsFifoRecvComplete` with `indexReadTail := indexReadHead`. -/
theorem C8_complete_publishes_idempotent (s : RcsFifoHandle_t) (o : Nat) (x : Ptr) :
    (RcsFifoSendComplete (some s) (some (some o, x)) =
        ⟨RCS_FIFO_OK, some { s with indexWriteTail := s.indexWriteHead }, some (some o, x)⟩
      ∧ (s.indexWriteTail = s.indexWriteHead →
          (RcsFifoSendComplete (some s) (some (some o, x))).fifo = some s)
      ∧ RcsFifoSendComplete (RcsFifoSendComplete (some s) (some (some o, x))).fifo
            (RcsFifoSendComplete (some s) (some (some o, x))).memAcquired
          = RcsFifoSendComplete (some s) (some (some o, x)))
    ∧ (RcsFifoRecvComplete (some s) (some (some o, x)) =
        ⟨RCS_FIFO_OK, some { s with indexReadTail := s.indexReadHead }, some (some o, x)⟩
      ∧ (s.indexReadTail = s.indexReadHead →
          (RcsFifoRecvComplete (some s) (some (some o, x))).fifo = some s)
      ∧ RcsFifoRecvComplete (RcsFifoRecvComplete (some s) (some (some o, x))).fifo
            (RcsFifoRecvComplete (some s) (some (some o, x))).memAcquired
          = RcsFifoRecvComplete (some s) (some (some o, x))) := by
  refine ⟨⟨sendComplete_ok s o x, fun h => ?_, ?_⟩, ⟨recvComplete_ok s o x, fun h => ?_, ?_⟩⟩
  · rw [sendComplete_ok]; cases s; simp_all
  · rw [sendComplete_ok]; exact sendComplete_ok _ o x
  · rw [recvComplete_ok]; cases s; simp_all
  · rw [recvComplete_ok]; exact recvComplete_ok _ o x

theorem C8_complete_publishes_idempotent_witness :
    (RcsFifoSendComplete (some fifo16_busy) (some (some 0, none)) =
        ⟨RCS_FIFO_OK, some ⟨16, 6, 6, 3, 0⟩, some (some 0, none)⟩
      ∧ (RcsFifoSendComplete (some fifo16_at13) (some (some 0, none))).fifo = some fifo16_at13)
    ∧ (RcsFifoRecvComplete (some fifo16_busy) (some (some 0, none)) =
        ⟨RCS_FIFO_OK, some ⟨16, 6, 3, 3, 3⟩, some (some 0, none)⟩
      ∧ (RcsFifoRecvComplete (some fifo16_at13) (some (some 0, none))).fifo = some fifo16_at13) :=
  ⟨⟨(C8_complete_publishes_idempotent fifo16_busy 0 none).1.1,
    (C8_complete_publishes_idempotent fifo16_at13 0 none).1.2.1 (by decide)⟩,
   ⟨(C8_complete_publishes_idempotent fifo16_busy 0 none).2.1,
    (C8_complete_publishes_idempotent fifo16_at13 0 none).2.2.1 (by decide)⟩⟩

/-- C9 (counterexample): on the descriptor of capacity `2^31 + 1` with `2^31`
committed bytes and no read outstanding, the used space of the claim's formula
is `2^31` and the request `size = 2^31` is within it, but
`RcsFifoRecvAcquire` returns `(int)2^31 = -2147483648`: the return value is
negative although `size ≤ used`. -/
theorem C9_read_admission_counterexample :
    ((2147483648 : Nat) : Int) ≤
        (if (⟨2147483649, 2147483648, 2147483648, 0, 0⟩ : RcsFifoHandle_t).indexWriteTail
            ≥ (⟨2147483649, 2147483648, 2147483648, 0, 0⟩ : RcsFifoHandle_t).indexReadHead
          then ((2147483648 : Nat) : Int) - ((0 : Nat) : Int)
          else ((2147483649 : Nat) : Int) - (((0 : Nat) : Int) - ((2147483648 : Nat) : Int)))
    ∧ (RcsFifoRecvAcquire (some ⟨2147483649, 2147483648, 2147483648, 0, 0⟩) 2147483648
          (some (none, none))).ret = -2147483648
    ∧ ¬ (0 ≤ (RcsFifoRecvAcquire (some ⟨2147483649, 2147483648, 2147483648, 0, 0⟩) 2147483648
          (some (none, none))).ret) :=
  ⟨by decide, by decide, by decide⟩

/-- C9 (amended, read admission): in a valid descriptor (capacity at most
`INT_MAX`, indices below the capacity) with no read outstanding, for
`size ≥ 1` with a handle and an output array, `RcsFifoRecvAcquire` succeeds
(non-negative return) exactly when `size ≤ used`, where `used` is
`writeTail - readHead` if `writeTail ≥ readHead` and
`capacity - (readHead - writeTail)` otherwise (computed in the integers, no
byte subtracted); when `size > used` the call returns `RCS_FIFO_NO_DATA` and
leaves the descriptor and the output array unchanged; in particular, when
everything committed has been read and completed
(`indexWriteTail = indexReadHead`), `RcsFifoRecvAcquire` of one byte returns
`RCS_FIFO_NO_DATA`. -/
theorem C9_read_admission (s : RcsFifoHandle_t) (m : Slots) (size : Nat) (hv : Valid s)
    (hidle : s.indexReadHead = s.indexReadTail) (h1 : 1 ≤ size) :
    (0 ≤ (RcsFifoRecvAcquire (some s) size (some m)).ret ↔
      (size : Int) ≤
        (if s.indexWriteTail ≥ s.indexReadHead
          then (s.indexWriteTail : Int) - s.indexReadHead
          else (s.memSize : Int) - ((s.indexReadHead : Int) - s.indexWriteTail)))
    ∧ ((if s.indexWriteTail ≥ s.indexReadHead
          then (s.indexWriteTail : Int) - s.indexReadHead
          else (s.memSize : Int) - ((s.indexReadHead : Int) - s.indexWriteTail)) < (size : Int)
        → RcsFifoRecvAcquire (some s) size (some m) = ⟨RCS_FIFO_NO_DATA, some s, some m⟩)
    ∧ (s.indexWriteTail = s.indexReadHead
        → RcsFifoRecvAcquire (some s) 1 (some m) = ⟨RCS_FIFO_NO_DATA, some s, some m⟩) := by
  have hf := used_space_eq hv
  have hfi : ((RCS_FIFO_USED_SPACE s : Nat) : Int) =
      (if s.indexWriteTail ≥ s.indexReadHead
          then (s.indexWriteTail : Int) - s.indexReadHead
          else (s.memSize : Int) - ((s.indexReadHead : Int) - s.indexWriteTail)) := by
    rw [hf]
    obtain ⟨hc0, hmax, hwh, hwt, hrh, hrt⟩ := hv
    split <;> omega
  rw [← hfi]
  have hne : size ≠ 0 := by omega
  refine ⟨?_, ?_, fun he => ?_⟩
  · by_cases h : size ≤ RCS_FIFO_USED_SPACE s
    · have hpos := recvAcquire_ret_pos m hv hidle (by omega) h
      exact ⟨fun _ => by exact_mod_cast h, fun _ => Int.le_of_lt hpos⟩
    · have hno := recvAcquire_no_data s m hne hidle (by omega)
      refine ⟨fun hret => ?_, fun hle => ?_⟩
      · rw [hno] at hret
        simp only at hret
        exact absurd hret (by decide)
      · have : size ≤ RCS_FIFO_USED_SPACE s := by exact_mod_cast hle
        exact absurd this h
  · intro hlt
    have : RCS_FIFO_USED_SPACE s < size := by exact_mod_cast hlt
    exact recvAcquire_no_data s m hne hidle this
  · apply recvAcquire_no_data s m (by decide) hidle
    rw [hf, if_pos (by omega)]
    omega

theorem C9_read_admission_witness :
    (0 ≤ (RcsFifoRecvAcquire (some fifo16_at13) 1 (some (none, none))).ret ↔
      ((1 : Nat) : Int) ≤
        (if fifo16_at13.indexWriteTail ≥ fifo16_at13.indexReadHead
          then (fifo16_at13.indexWriteTail : Int) - fifo16_at13.indexReadHead
          else (fifo16_at13.memSize : Int)
            - ((fifo16_at13.indexReadHead : Int) - fifo16_at13.indexWriteTail)))
    ∧ ((if fifo16_at13.indexWriteTail ≥ fifo16_at13.indexReadHead
          then (fifo16_at13.indexWriteTail : Int) - fifo16_at13.indexReadHead
          else (fifo16_at13.memSize : Int)
            - ((fifo16_at13.indexReadHead : Int) - fifo16_at13.indexWriteTail))
          < ((1 : Nat) : Int)
        → RcsFifoRecvAcquire (some fifo16_at13) 1 (some (none, none))
          = ⟨RCS_FIFO_NO_DATA, some fifo16_at13, some (none, none)⟩)
    ∧ (fifo16_at13.indexWriteTail = fifo16_at13.indexReadHead
        → RcsFifoRecvAcquire (some fifo16_at13) 1 (some (none, none))
          = ⟨RCS_FIFO_NO_DATA, some fifo16_at13, some (none, none)⟩) :=
  C9_read_admission fifo16_at13 (none, none) 1 (by decide) (by decide) (by decide)

/-- C10 (counterexample): on a buffer created with capacity `2^31 + 1`, the
call `RcsFifoSendAcquire` of `2^31` bytes returns `-2147483648`, so no
successful acquisition is recorded on the write side, yet the state reached has
`indexWriteHead = 2^31 ≠ 0 = indexWriteTail`: `head = tail` does not hold
although no acquisition is outstanding. -/
theorem C10_idle_acquired_counterexample :
    runTracked (RcsFifoCreate 2147483649 true true) ⟨false, false⟩
        [.sendAcquire 2147483648 (some (none, none))]
      = (some ⟨2147483649, 2147483648, 0, 0, 0⟩, ⟨false, false⟩)
    ∧ (RcsFifoSendAcquire (RcsFifoCreate 2147483649 true true) 2147483648
          (some (none, none))).ret = -2147483648
    ∧ ¬ ((⟨2147483649, 2147483648, 0, 0, 0⟩ : RcsFifoHandle_t).indexWriteHead
          = (⟨2147483649, 2147483648, 0, 0, 0⟩ : RcsFifoHandle_t).indexWriteTail
        ↔ (⟨false, false⟩ : Outstanding).write = false) :=
  ⟨by decide, by decide, by decide⟩

/-- C10 (amended, Idle/Acquired state machine): in every state reached from a buffer
created with capacity `c ≤ INT_MAX`, with the bookkeeping of outstanding
acquisitions kept along the calls: a successful acquire of any of the four
kinds advances its head by `size` modulo the capacity to a position different
from its tail; `head = tail` holds on a side exactly when no acquisition is
outstanding on it; while one is outstanding, a further acquire on that side
returns `RCS_FIFO_NOT_ALLOWED` and changes nothing; and any call `op` leaves
an acquired side acquired unless it is the matching complete returning
`RCS_FIFO_OK`. -/
theorem C10_idle_acquired_state_machine (c : Nat) (ops : List FifoOp) (s : RcsFifoHandle_t)
    (g : Outstanding) (size : Nat) (m : Slots) (op : FifoOp) (t : RcsFifoHandle_t)
    (hc : c ≤ INT_MAX)
    (hrun : runTracked (RcsFifoCreate c true true) ⟨false, false⟩ ops = (some s, g))
    (h1 : 1 ≤ size) (hop : (op.call (some s)).fifo = some t) :
    (0 ≤ (RcsFifoSendAcquire (some s) size (some m)).ret →
      (RcsFifoSendAcquire (some s) size (some m)).fifo
          = some { s with indexWriteHead := (s.indexWriteHead + size) % s.memSize }
        ∧ (s.indexWriteHead + size) % s.memSize ≠ s.indexWriteTail)
    ∧ (0 ≤ (RcsFifoSendAcquireNoSplit (some s) size (some m)).ret →
      (RcsFifoSendAcquireNoSplit (some s) size (some m)).fifo
          = some { s with indexWriteHead := (s.indexWriteHead + size) % s.memSize }
        ∧ (s.indexWriteHead + size) % s.memSize ≠ s.indexWriteTail)
    ∧ (0 ≤ (RcsFifoRecvAcquire (some s) size (some m)).ret →
      (RcsFifoRecvAcquire (some s) size (some m)).fifo
          = some { s with indexReadHead := (s.indexReadHead + size) % s.memSize }
        ∧ (s.indexReadHead + size) % s.memSize ≠ s.indexReadTail)
    ∧ (0 ≤ (RcsFifoRecvAcquireNoSplit (some s) size (some m)).ret →
      (RcsFifoRecvAcquireNoSplit (some s) size (some m)).fifo
          = some { s with indexReadHead := (s.indexReadHead + size) % s.memSize }
        ∧ (s.indexReadHead + size) % s.memSize ≠ s.indexReadTail)
    ∧ (s.indexWriteHead = s.indexWriteTail ↔ g.write = false)
    ∧ (s.indexReadHead = s.indexReadTail ↔ g.read = false)
    ∧ (g.write = true →
        RcsFifoSendAcquire (some s) size (some m) = ⟨RCS_FIFO_NOT_ALLOWED, some s, some m⟩
        ∧ RcsFifoSendAcquireNoSplit (some s) size (some m)
            = ⟨RCS_FIFO_NOT_ALLOWED, some s, some m⟩)
    ∧ (g.read = true →
        RcsFifoRecvAcquire (some s) size (some m) = ⟨RCS_FIFO_NOT_ALLOWED, some s, some m⟩
        ∧ RcsFifoRecvAcquireNoSplit (some s) size (some m)
            = ⟨RCS_FIFO_NOT_ALLOWED, some s, some m⟩)
    ∧ (g.write = true →
        (t.indexWriteHead = t.indexWriteTail ↔
          (op.isSendComplete = true ∧ (op.call (some s)).ret = RCS_FIFO_OK)))
    ∧ (g.read = true →
        (t.indexReadHead = t.indexReadTail ↔
          (op.isRecvComplete = true ∧ (op.call (some s)).ret = RCS_FIFO_OK))) := by
  obtain ⟨hv, _, hgw, hgr⟩ := tracked_inv hc hrun
  have hne : size ≠ 0 := by omega
  have hwbusy : g.write = true → s.indexWriteHead ≠ s.indexWriteTail := by
    intro h hidle
    rw [hgw.mp hidle] at h
    exact absurd h (by decide)
  have hrbusy : g.read = true → s.indexReadHead ≠ s.indexReadTail := by
    intro h hidle
    rw [hgr.mp hidle] at h
    exact absurd h (by decide)
  refine ⟨fun h => ?_, fun h => ?_, fun h => ?_, fun h => ?_, hgw, hgr, fun h => ?_,
    fun h => ?_, fun h => write_side_stays op hv (hwbusy h) hop,
    fun h => read_side_stays op hv (hrbusy h) hop⟩
  · rcases sendAcquire_step hv size (some m) with ⟨hneg, _, _⟩ | ⟨_, hf, hn, _⟩
    · omega
    · exact ⟨hf, hn⟩
  · rcases sendAcquireNoSplit_step hv size (some m) with ⟨hneg, _, _⟩ | ⟨_, hf, hn, _⟩
    · omega
    · exact ⟨hf, hn⟩
  · rcases recvAcquire_step hv size (some m) with ⟨hneg, _, _⟩ | ⟨_, hf, hn, _⟩
    · omega
    · exact ⟨hf, hn⟩
  · rcases recvAcquireNoSplit_step hv size (some m) with ⟨hneg, _, _⟩ | ⟨_, hf, hn, _⟩
    · omega
    · exact ⟨hf, hn⟩
  · exact ⟨sendAcquire_not_allowed s m hne (hwbusy h),
      sendAcquireNoSplit_not_allowed s m hne (hwbusy h)⟩
  · exact ⟨recvAcquire_not_allowed s m hne (hrbusy h),
      recvAcquireNoSplit_not_allowed s m hne (hrbusy h)⟩

theorem C10_idle_acquired_state_machine_witness :
    ((RcsFifoSendAcquire (some ⟨16, 0, 0, 0, 0⟩) 3 (some (none, none))).fifo
          = some ⟨16, (0 + 3) % 16, 0, 0, 0⟩
        ∧ (0 + 3) % 16 ≠ 0)
    ∧ (RcsFifoSendAcquire (some ⟨16, 3, 0, 0, 0⟩) 3 (some (none, none))
          = ⟨RCS_FIFO_NOT_ALLOWED, some ⟨16, 3, 0, 0, 0⟩, some (none, none)⟩
        ∧ RcsFifoSendAcquireNoSplit (some ⟨16, 3, 0, 0, 0⟩) 3 (some (none, none))
          = ⟨RCS_FIFO_NOT_ALLOWED, some ⟨16, 3, 0, 0, 0⟩, some (none, none)⟩)
    ∧ ((3 : Nat) = 3 ↔
        ((FifoOp.sendComplete (some (some 0, none))).isSendComplete = true
          ∧ ((FifoOp.sendComplete (some (some 0, none))).call (some ⟨16, 3, 0, 0, 0⟩)).ret
              = RCS_FIFO_OK)) :=
  ⟨(C10_idle_acquired_state_machine 16 [] ⟨16, 0, 0, 0, 0⟩ ⟨false, false⟩ 3 (none, none)
      (.recvComplete none) ⟨16, 0, 0, 0, 0⟩ (by decide) (by decide) (by decide)
      (by decide)).1 (by decide),
   (C10_idle_acquired_state_machine 16 ops_acquired ⟨16, 3, 0, 0, 0⟩ ⟨true, false⟩ 3
      (none, none) (.sendComplete (some (some 0, none))) ⟨16, 3, 3, 0, 0⟩ (by decide)
      (by decide) (by decide) (by decide)).2.2.2.2.2.2.1 rfl,
   (C10_idle_acquired_state_machine 16 ops_acquired ⟨16, 3, 0, 0, 0⟩ ⟨true, false⟩ 3
      (none, none) (.sendComplete (some (some 0, none))) ⟨16, 3, 3, 0, 0⟩ (by decide)
      (by decide) (by decide) (by decide)).2.2.2.2.2.2.2.2.1 rfl⟩

/-- C12 (no-split failure code, the code at the failing input): the
capacity-16 descriptor with `indexWriteHead = indexWriteTail = 13` and
`indexReadHead = indexReadTail = 2` is reachable; a 4-byte request is admitted
by `RcsFifoSendAcquire` as a split (3 bytes at offset 13, 1 byte at offset 0)
and no single run holds it (`16 - 13 < 4` and `2 ≤ 4`), yet
`RcsFifoSendAcquireNoSplit` returns `RCS_FIFO_NO_SPACE`, which is not
`RCS_FIFO_NOT_ALLOWED`: the check against `RCS_FIFO_FREE_NOSPLIT_SPACE` (here
3) returns before the branch that would return `RCS_FIFO_NOT_ALLOWED`. -/
theorem C12_nosplit_failure_code_at_input :
    Reachable 16 fifo16_13_2
    ∧ RcsFifoSendAcquire (some fifo16_13_2) 4 (some (none, none))
        = ⟨3, some ⟨16, 1, 13, 2, 2⟩, some (some 13, some 0)⟩
    ∧ fifo16_13_2.memSize - fifo16_13_2.indexWriteHead < 4
    ∧ fifo16_13_2.indexReadTail ≤ 4
    ∧ RCS_FIFO_FREE_NOSPLIT_SPACE fifo16_13_2 = 3
    ∧ RcsFifoSendAcquireNoSplit (some fifo16_13_2) 4 (some (none, none))
        = ⟨RCS_FIFO_NO_SPACE, some fifo16_13_2, some (none, none)⟩
    ∧ RCS_FIFO_NO_SPACE ≠ RCS_FIFO_NOT_ALLOWED :=
  ⟨⟨ops_13_2, by decide⟩, by decide, by decide, by decide, by decide, by decide, by decide⟩

/-- C13 (no-split relocation, the code at the failing input): the capacity-16
descriptor with all four indices at 13 is reachable and meets the conditions
of the relocation (`indexWriteHead ≥ indexReadTail`, `16 - 13 < 5`,
`indexReadTail = 13 > 5`), yet `RcsFifoSendAcquireNoSplit` of 5 bytes returns
`RCS_FIFO_NO_SPACE` and leaves the descriptor and the output array unchanged:
no span at offset 0 is handed out and `indexWriteHead` stays 13. -/
theorem C13_nosplit_relocation_code_at_input :
    Reachable 16 fifo16_at13
    ∧ fifo16_at13.indexWriteHead = fifo16_at13.indexWriteTail
    ∧ fifo16_at13.indexWriteHead ≥ fifo16_at13.indexReadTail
    ∧ fifo16_at13.memSize - fifo16_at13.indexWriteHead < 5
    ∧ fifo16_at13.indexReadTail > 5
    ∧ RcsFifoSendAcquireNoSplit (some fifo16_at13) 5 (some (none, none))
        = ⟨RCS_FIFO_NO_SPACE, some fifo16_at13, some (none, none)⟩ :=
  ⟨⟨ops_at13, by decide⟩, by decide, by decide, by decide, by decide, by decide⟩

/-- C14 (read no-split, the code at the failing input): on the capacity-16
buffer holding 5 committed bytes at offsets 0..4 (reachable by writing 5 bytes
and completing), `RcsFifoRecvAcquire` of 5 bytes returns 5 with one span at
offset 0, but `RcsFifoRecvAcquireNoSplit` of 5 bytes returns
`RCS_FIFO_NOT_ALLOWED` and leaves `indexReadHead` at 0. -/
theorem C14_read_nosplit_code_at_input :
    Reachable 16 fifo16_five
    ∧ fifo16_five.indexReadHead = fifo16_five.indexReadTail
    ∧ fifo16_five.indexReadHead < fifo16_five.indexWriteTail
    ∧ 5 ≤ fifo16_five.indexWriteTail - fifo16_five.indexReadHead
    ∧ RcsFifoRecvAcquire (some fifo16_five) 5 (some (none, none))
        = ⟨5, some ⟨16, 5, 5, 5, 0⟩, some (some 0, none)⟩
    ∧ RcsFifoRecvAcquireNoSplit (some fifo16_five) 5 (some (none, none))
        = ⟨RCS_FIFO_NOT_ALLOWED, some fifo16_five, some (none, none)⟩ :=
  ⟨⟨ops_five, by decide⟩, by decide, by decide, by decide, by decide, by decide⟩

/-- C15 (counterexample): the capacity-16 descriptor with all indices at 13 is
reachable, `RcsFifoSendAcquire` and `RcsFifoRecvAcquire` of 5 bytes succeed on
it (resp. on the descriptor reached after the write is completed) with two
spans, and both return 3, the length of the first span, not the requested
size 5. -/
theorem C15_return_value_counterexample :
    Reachable 16 fifo16_at13
    ∧ RcsFifoSendAcquire (some fifo16_at13) 5 (some (none, none))
        = ⟨3, some ⟨16, 2, 13, 13, 13⟩, some (some 13, some 0)⟩
    ∧ (RcsFifoSendAcquire (some fifo16_at13) 5 (some (none, none))).ret ≠ ((5 : Nat) : Int)
    ∧ Reachable 16 fifo16_wrapped
    ∧ RcsFifoRecvAcquire (some fifo16_wrapped) 5 (some (none, none))
        = ⟨3, some ⟨16, 2, 2, 2, 13⟩, some (some 13, some 0)⟩
    ∧ (RcsFifoRecvAcquire (some fifo16_wrapped) 5 (some (none, none))).ret ≠ ((5 : Nat) : Int) :=
  ⟨⟨ops_at13, by decide⟩, by decide, by decide, ⟨ops_wrapped, by decide⟩, by decide,
    by decide⟩

/-- C15 (amended, return value is the length of the first span): in a state
reachable from a buffer created with capacity `c ≤ INT_MAX`, every successful
`RcsFifoSendAcquire` or `RcsFifoRecvAcquire` of `size` bytes returns a
positive integer equal to the length of the first span: `size` when
`head + size ≤ memSize` (second span null), and `memSize - head`, which is
smaller than `size`, when the acquisition is split (second span at offset 0);
the head of the side advances by `size` modulo `memSize`. -/
theorem C15_return_value_first_span (c : Nat) (s : RcsFifoHandle_t) (m : Slots) (size : Nat)
    (hc : c ≤ INT_MAX) (hreach : Reachable c s) :
    (0 ≤ (RcsFifoSendAcquire (some s) size (some m)).ret →
      0 < (RcsFifoSendAcquire (some s) size (some m)).ret
      ∧ RcsFifoSendAcquire (some s) size (some m) =
          ⟨((if s.indexWriteHead + size ≤ s.memSize then size
              else s.memSize - s.indexWriteHead : Nat) : Int),
           some { s with indexWriteHead := (s.indexWriteHead + size) % s.memSize },
           some (some s.indexWriteHead,
              if s.indexWriteHead + size ≤ s.memSize then none else some 0)⟩
      ∧ (¬ (s.indexWriteHead + size ≤ s.memSize) → s.memSize - s.indexWriteHead < size))
    ∧ (0 ≤ (RcsFifoRecvAcquire (some s) size (some m)).ret →
      0 < (RcsFifoRecvAcquire (some s) size (some m)).ret
      ∧ RcsFifoRecvAcquire (some s) size (some m) =
          ⟨((if s.indexReadHead + size ≤ s.memSize then size
              else s.memSize - s.indexReadHead : Nat) : Int),
           some { s with indexReadHead := (s.indexReadHead + size) % s.memSize },
           some (some s.indexReadHead,
              if s.indexReadHead + size ≤ s.memSize then none else some 0)⟩
      ∧ (¬ (s.indexReadHead + size ≤ s.memSize) → s.memSize - s.indexReadHead < size)) := by
  obtain ⟨hv, _, _⟩ := reachable_inv hc hreach
  constructor
  · intro hret
    rcases sendAcquire_cases s size (some m) with ⟨e, he, hr⟩ | ⟨m2, _, h0, hidle, hfree⟩
    · rw [hr] at hret
      simp only at hret
      omega
    · refine ⟨sendAcquire_ret_pos m hv hidle h0 hfree, sendAcquire_window m hv hidle h0 hfree,
        fun h => ?_⟩
      obtain ⟨hc0, hmax, hwh, hwt, hrh, hrt⟩ := hv
      omega
  · intro hret
    rcases recvAcquire_cases s size (some m) with ⟨e, he, hr⟩ | ⟨m2, _, h0, hidle, hused⟩
    · rw [hr] at hret
      simp only at hret
      omega
    · refine ⟨recvAcquire_ret_pos m hv hidle h0 hused, recvAcquire_window m hv hidle h0 hused,
        fun h => ?_⟩
      obtain ⟨hc0, hmax, hwh, hwt, hrh, hrt⟩ := hv
      omega

theorem C15_return_value_first_span_witness :
    (0 < (RcsFifoSendAcquire (some fifo16_at13) 5 (some (none, none))).ret
      ∧ RcsFifoSendAcquire (some fifo16_at13) 5 (some (none, none))
          = ⟨3, some ⟨16, 2, 13, 13, 13⟩, some (some 13, some 0)⟩
      ∧ (¬ (13 + 5 ≤ 16) → 16 - 13 < 5))
    ∧ (0 < (RcsFifoRecvAcquire (some fifo16_five) 5 (some (none, none))).ret
      ∧ RcsFifoRecvAcquire (some fifo16_five) 5 (some (none, none))
          = ⟨5, some ⟨16, 5, 5, 5, 0⟩, some (some 0, none)⟩
      ∧ (¬ (0 + 5 ≤ 16) → 16 - 0 < 5)) :=
  ⟨(C15_return_value_first_span 16 fifo16_at13 (none, none) 5 (by decide)
      ⟨ops_at13, by decide⟩).1 (by decide),
   (C15_return_value_first_span 16 fifo16_five (none, none) 5 (by decide)
      ⟨ops_five, by decide⟩).2 (by decide)⟩

/-- C16 (malformed acquire): each of the four acquire functions returns
`RCS_FIFO_INVALID_PARAM` when the handle is absent, when the output array is
absent, and when `size = 0`, whatever the descriptor holds (an outstanding
acquisition, a full or an empty buffer); the descriptor and the output array
are returned unchanged. -/
theorem C16_malformed_acquire (fifo : Option RcsFifoHandle_t) (size : Nat)
    (mo : Option Slots) :
    (RcsFifoSendAcquire none size mo = ⟨RCS_FIFO_INVALID_PARAM, none, mo⟩
      ∧ RcsFifoSendAcquire fifo size none = ⟨RCS_FIFO_INVALID_PARAM, fifo, none⟩
      ∧ RcsFifoSendAcquire fifo 0 mo = ⟨RCS_FIFO_INVALID_PARAM, fifo, mo⟩)
    ∧ (RcsFifoSendAcquireNoSplit none size mo = ⟨RCS_FIFO_INVALID_PARAM, none, mo⟩
      ∧ RcsFifoSendAcquireNoSplit fifo size none = ⟨RCS_FIFO_INVALID_PARAM, fifo, none⟩
      ∧ RcsFifoSendAcquireNoSplit fifo 0 mo = ⟨RCS_FIFO_INVALID_PARAM, fifo, mo⟩)
    ∧ (RcsFifoRecvAcquire none size mo = ⟨RCS_FIFO_INVALID_PARAM, none, mo⟩
      ∧ RcsFifoRecvAcquire fifo size none = ⟨RCS_FIFO_INVALID_PARAM, fifo, none⟩
      ∧ RcsFifoRecvAcquire fifo 0 mo = ⟨RCS_FIFO_INVALID_PARAM, fifo, mo⟩)
    ∧ (RcsFifoRecvAcquireNoSplit none size mo = ⟨RCS_FIFO_INVALID_PARAM, none, mo⟩
      ∧ RcsFifoRecvAcquireNoSplit fifo size none = ⟨RCS_FIFO_INVALID_PARAM, fifo, none⟩
      ∧ RcsFifoRecvAcquireNoSplit fifo 0 mo = ⟨RCS_FIFO_INVALID_PARAM, fifo, mo⟩) :=
  ⟨⟨sendAcquire_invalid none size mo (Or.inl rfl),
    sendAcquire_invalid fifo size none (Or.inr (Or.inl rfl)),
    sendAcquire_invalid fifo 0 mo (Or.inr (Or.inr rfl))⟩,
   ⟨sendAcquireNoSplit_invalid none size mo (Or.inl rfl),
    sendAcquireNoSplit_invalid fifo size none (Or.inr (Or.inl rfl)),
    sendAcquireNoSplit_invalid fifo 0 mo (Or.inr (Or.inr rfl))⟩,
   ⟨recvAcquire_invalid none size mo (Or.inl rfl),
    recvAcquire_invalid fifo size none (Or.inr (Or.inl rfl)),
    recvAcquire_invalid fifo 0 mo (Or.inr (Or.inr rfl))⟩,
   ⟨recvAcquireNoSplit_invalid none size mo (Or.inl rfl),
    recvAcquireNoSplit_invalid fifo size none (Or.inr (Or.inl rfl)),
    recvAcquireNoSplit_invalid fifo 0 mo (Or.inr (Or.inr rfl))⟩⟩

/-- C17 (malformed complete): `RcsFifoSendComplete` and `RcsFifoRecvComplete`
return `RCS_FIFO_INVALID_PARAM` when the handle is absent, when the span array
is absent, and when its first span pointer is null; the descriptor is returned
unchanged, so nothing is committed even if an acquisition is outstanding. -/
theorem C17_malformed_complete (fifo : Option RcsFifoHandle_t) (mo : Option Slots)
    (x : Ptr) :
    (RcsFifoSendComplete none mo = ⟨RCS_FIFO_INVALID_PARAM, none, mo⟩
      ∧ RcsFifoSendComplete fifo none = ⟨RCS_FIFO_INVALID_PARAM, fifo, none⟩
      ∧ RcsFifoSendComplete fifo (some (none, x))
          = ⟨RCS_FIFO_INVALID_PARAM, fifo, some (none, x)⟩)
    ∧ (RcsFifoRecvComplete none mo = ⟨RCS_FIFO_INVALID_PARAM, none, mo⟩
      ∧ RcsFifoRecvComplete fifo none = ⟨RCS_FIFO_INVALID_PARAM, fifo, none⟩
      ∧ RcsFifoRecvComplete fifo (some (none, x))
          = ⟨RCS_FIFO_INVALID_PARAM, fifo, some (none, x)⟩) :=
  ⟨⟨sendComplete_invalid none mo (Or.inl rfl),
    sendComplete_invalid fifo none (Or.inr (Or.inl rfl)),
    sendComplete_invalid fifo (some (none, x)) (Or.inr (Or.inr rfl))⟩,
   ⟨recvComplete_invalid none mo (Or.inl rfl),
    recvComplete_invalid fifo none (Or.inr (Or.inl rfl)),
    recvComplete_invalid fifo (some (none, x)) (Or.inr (Or.inr rfl))⟩⟩

/-- C18 (a request of the full capacity or more never succeeds): in a state
reachable from a buffer created with capacity `c`, for every `size ≥ c`, with
the write side idle `RcsFifoSendAcquire` and `RcsFifoSendAcquireNoSplit` return
`RCS_FIFO_NO_SPACE`, and with the read side idle `RcsFifoRecvAcquire` and
`RcsFifoRecvAcquireNoSplit` return `RCS_FIFO_NO_DATA`; the descriptor and the
output array are unchanged. No bound on `c` is needed. -/
theorem C18_full_capacity_never_succeeds (c : Nat) (s : RcsFifoHandle_t) (m : Slots)
    (size : Nat) (hreach : Reachable c s) (hsize : c ≤ size) :
    (s.indexWriteHead = s.indexWriteTail →
      RcsFifoSendAcquire (some s) size (some m) = ⟨RCS_FIFO_NO_SPACE, some s, some m⟩
      ∧ RcsFifoSendAcquireNoSplit (some s) size (some m)
          = ⟨RCS_FIFO_NO_SPACE, some s, some m⟩)
    ∧ (s.indexReadHead = s.indexReadTail →
      RcsFifoRecvAcquire (some s) size (some m) = ⟨RCS_FIFO_NO_DATA, some s, some m⟩
      ∧ RcsFifoRecvAcquireNoSplit (some s) size (some m)
          = ⟨RCS_FIFO_NO_DATA, some s, some m⟩) := by
  obtain ⟨ops, hops⟩ := hreach
  obtain ⟨hr, hmem⟩ := run_from_initial (create_initial c true true) hops
  obtain ⟨h1, h2, h3, h4⟩ := spaces_lt_capacity hr
  have hpos : 0 < s.memSize := by have := hr.1; omega
  have hne : size ≠ 0 := by omega
  exact ⟨fun hidle => ⟨sendAcquire_no_space s m hne hidle (by omega),
      sendAcquireNoSplit_no_space s m hne hidle (by omega)⟩,
    fun hidle => ⟨recvAcquire_no_data s m hne hidle (by omega),
      recvAcquireNoSplit_no_data s m hne hidle (by omega)⟩⟩

theorem C18_full_capacity_never_succeeds_witness :
    (RcsFifoSendAcquire (some ⟨16, 0, 0, 0, 0⟩) 16 (some (none, none))
        = ⟨RCS_FIFO_NO_SPACE, some ⟨16, 0, 0, 0, 0⟩, some (none, none)⟩
      ∧ RcsFifoSendAcquireNoSplit (some ⟨16, 0, 0, 0, 0⟩) 16 (some (none, none))
        = ⟨RCS_FIFO_NO_SPACE, some ⟨16, 0, 0, 0, 0⟩, some (none, none)⟩)
    ∧ (RcsFifoRecvAcquire (some ⟨16, 0, 0, 0, 0⟩) 16 (some (none, none))
        = ⟨RCS_FIFO_NO_DATA, some ⟨16, 0, 0, 0, 0⟩, some (none, none)⟩
      ∧ RcsFifoRecvAcquireNoSplit (some ⟨16, 0, 0, 0, 0⟩) 16 (some (none, none))
        = ⟨RCS_FIFO_NO_DATA, some ⟨16, 0, 0, 0, 0⟩, some (none, none)⟩)
    ∧ (RcsFifoSendAcquire (some ⟨4294967312, 5, 5, 0, 0⟩) 4294967312 (some (none, none))
        = ⟨RCS_FIFO_NO_SPACE, some ⟨4294967312, 5, 5, 0, 0⟩, some (none, none)⟩
      ∧ RcsFifoSendAcquireNoSplit (some ⟨4294967312, 5, 5, 0, 0⟩) 4294967312
          (some (none, none))
        = ⟨RCS_FIFO_NO_SPACE, some ⟨4294967312, 5, 5, 0, 0⟩, some (none, none)⟩) :=
  ⟨(C18_full_capacity_never_succeeds 16 ⟨16, 0, 0, 0, 0⟩ (none, none) 16
      ⟨[], by decide⟩ (by decide)).1 rfl,
   (C18_full_capacity_never_succeeds 16 ⟨16, 0, 0, 0, 0⟩ (none, none) 16
      ⟨[], by decide⟩ (by decide)).2 rfl,
   (C18_full_capacity_never_succeeds 4294967312 ⟨4294967312, 5, 5, 0, 0⟩ (none, none)
      4294967312 ⟨ops_five, by decide⟩ (by decide)).1 rfl⟩

/-- C19 (construction): `RcsFifoCreateStatic` returns an absent handle exactly
when the capacity is 0, the descriptor is absent or the memory pointer is
absent, and otherwise the descriptor with `memSize` equal to the capacity and
the four indices 0; `RcsFifoCreate` with capacity 0 returns an absent handle
whatever the allocator does, and with a positive capacity and both allocations
succeeding it returns the same initial descriptor. -/
theorem C19_construction (c : Nat) (h : Option RcsFifoHandle_t) (mem ha hm : Bool) :
    (RcsFifoCreateStatic c h mem = none ↔ (c = 0 ∨ h = none ∨ mem = false))
    ∧ (¬ (c = 0 ∨ h = none ∨ mem = false) →
        RcsFifoCreateStatic c h mem = some ⟨c, 0, 0, 0, 0⟩)
    ∧ RcsFifoCreate 0 ha hm = none
    ∧ (0 < c → RcsFifoCreate c true true = some ⟨c, 0, 0, 0, 0⟩) := by
  refine ⟨?_, ?_, rfl, fun hc => create_eq hc⟩
  · cases h with
    | none => simp [RcsFifoCreateStatic]
    | some d =>
      unfold RcsFifoCreateStatic
      by_cases h1 : mem = false ∨ c = 0
      · simp only [if_pos h1]
        simp only [true_iff]
        rcases h1 with h1 | h1
        · exact Or.inr (Or.inr h1)
        · exact Or.inl h1
      · simp only [if_neg h1]
        simp only [reduceCtorEq, false_iff, not_or]
        exact ⟨fun h => h1 (Or.inr h), ⟨by simp, fun h => h1 (Or.inl h)⟩⟩
  · intro hn
    cases h with
    | none => exact absurd (Or.inr (Or.inl rfl)) hn
    | some d =>
      unfold RcsFifoCreateStatic
      have h1 : ¬ (mem = false ∨ c = 0) := by
        intro h1
        rcases h1 with h1 | h1
        · exact hn (Or.inr (Or.inr h1))
        · exact hn (Or.inl h1)
      simp only [if_neg h1]

theorem C19_construction_witness :
    RcsFifoCreateStatic 16 (some ⟨7, 1, 2, 3, 4⟩) true = some ⟨16, 0, 0, 0, 0⟩
    ∧ RcsFifoCreate 16 true true = some ⟨16, 0, 0, 0, 0⟩ :=
  ⟨(C19_construction 16 (some ⟨7, 1, 2, 3, 4⟩) true true true).2.1 (by decide),
   (C19_construction 16 (some ⟨7, 1, 2, 3, 4⟩) true true true).2.2.2 (by decide)⟩

/-- C21 (index range invariant): in every descriptor reached from
`RcsFifoCreate` or `RcsFifoCreateStatic` with capacity `c` (whatever the
allocator outcome and the caller's descriptor) through any sequence of acquire
and complete calls with arbitrary sizes and slot arrays, successful or not,
`indexWriteHead`, `indexWriteTail`, `indexReadHead` and `indexReadTail` are
below `c` and `memSize` is `c`. No bound on `c` is needed: every index written
is a remainder modulo `memSize` or a copy of another index. -/
theorem C21_index_range_invariant (c : Nat) (ops : List FifoOp) (s : RcsFifoHandle_t)
    (h : Option RcsFifoHandle_t) (mem ha hm : Bool)
    (hrun : run (RcsFifoCreate c ha hm) ops = some s
      ∨ run (RcsFifoCreateStatic c h mem) ops = some s) :
    s.memSize = c ∧ s.indexWriteHead < c ∧ s.indexWriteTail < c
      ∧ s.indexReadHead < c ∧ s.indexReadTail < c := by
  have key : InRange s ∧ s.memSize = c := by
    rcases hrun with hr | hr
    · exact run_from_initial (create_initial c ha hm) hr
    · exact run_from_initial (createStatic_initial c h mem) hr
  obtain ⟨⟨h1, h2, h3, h4⟩, hm⟩ := key
  rw [hm] at h1 h2 h3 h4
  exact ⟨hm, h1, h2, h3, h4⟩

theorem C21_index_range_invariant_witness :
    (fifo16_wrapped.memSize = 16 ∧ fifo16_wrapped.indexWriteHead < 16
      ∧ fifo16_wrapped.indexWriteTail < 16 ∧ fifo16_wrapped.indexReadHead < 16
      ∧ fifo16_wrapped.indexReadTail < 16)
    ∧ (fifo16_five.memSize = 16 ∧ fifo16_five.indexWriteHead < 16
      ∧ fifo16_five.indexWriteTail < 16 ∧ fifo16_five.indexReadHead < 16
      ∧ fifo16_five.indexReadTail < 16) :=
  ⟨C21_index_range_invariant 16 ops_wrapped fifo16_wrapped none false true true
      (Or.inl (by decide)),
   C21_index_range_invariant 16 ops_five fifo16_five (some ⟨7, 1, 2, 3, 4⟩) true false false
      (Or.inr (by decide))⟩

/-- C22 (region conservation): in a state reachable from a buffer created with
a capacity `c` that is a `size_t` value (`c < SIZE_MOD`), with
`a = (readHead - readTail) mod c`, `b = (writeTail - readHead) mod c`,
`d = (writeHead - writeTail) mod c` and `f = RCS_FIFO_FREE_SPACE`:
`a + b + d + f = c - 1`; going forward from `readTail` by `a`, `a + b` and
`a + b + d` lands on `readHead`, `writeTail` and `writeHead` (modulo `c`), and
these positions are in the order `readTail ≤ readTail + a ≤ readTail + a + b ≤
readTail + a + b + d < readTail + c`; and the window of a successful
`RcsFifoSendAcquire` (offsets `(writeHead + i) % c`, `i < size`) contains none
of the `a + b` offsets `(readTail + j) % c` that are being read or
committed. -/
theorem C22_region_conservation (c : Nat) (s : RcsFifoHandle_t) (m : Slots)
    (size i j : Nat) (hc : c < SIZE_MOD) (hreach : Reachable c s) :
    let a : Int := ((s.indexReadHead : Int) - (s.indexReadTail : Int)) % (c : Int)
    let b : Int := ((s.indexWriteTail : Int) - (s.indexReadHead : Int)) % (c : Int)
    let d : Int := ((s.indexWriteHead : Int) - (s.indexWriteTail : Int)) % (c : Int)
    let f : Int := ((RCS_FIFO_FREE_SPACE s : Nat) : Int)
    a + b + d + f = (c : Int) - 1
    ∧ ((s.indexReadTail : Int) + a) % (c : Int) = (s.indexReadHead : Int)
    ∧ ((s.indexReadTail : Int) + a + b) % (c : Int) = (s.indexWriteTail : Int)
    ∧ ((s.indexReadTail : Int) + a + b + d) % (c : Int) = (s.indexWriteHead : Int)
    ∧ (s.indexReadTail : Int) ≤ (s.indexReadTail : Int) + a
    ∧ (s.indexReadTail : Int) + a ≤ (s.indexReadTail : Int) + a + b
    ∧ (s.indexReadTail : Int) + a + b ≤ (s.indexReadTail : Int) + a + b + d
    ∧ (s.indexReadTail : Int) + a + b + d < (s.indexReadTail : Int) + (c : Int)
    ∧ (0 ≤ (RcsFifoSendAcquire (some s) size (some m)).ret → i < size → (j : Int) < a + b →
        (s.indexWriteHead + i) % c ≠ (s.indexReadTail + j) % c) := by
  obtain ⟨hr, ho, hmem⟩ := reachable_ordered hc hreach
  have hM : s.memSize < SIZE_MOD := by rw [hmem]; exact hc
  have hsum := regions_sum_gen hr hM ho
  obtain ⟨hwh, hwt, hrh, hrt⟩ := hr
  have hr : InRange s := ⟨hwh, hwt, hrh, hrt⟩
  rw [hmem] at hwh hwt hrh hrt hsum
  have ho2 : cdist c s.indexReadTail s.indexReadHead + cdist c s.indexReadHead s.indexWriteTail
      + cdist c s.indexWriteTail s.indexWriteHead < c := by omega
  have ha := emod_cdist hrt hrh
  have hb := emod_cdist hrh hwt
  have hd := emod_cdist hwt hwh
  have e1 := unwrap_one hrt hrh
  have e2 := unwrap_two hrt hrh hwt (by omega)
  have e3 := unwrap_three hrt hrh hwt hwh ho2
  intro a b d f
  have ha' : a = ((cdist c s.indexReadTail s.indexReadHead : Nat) : Int) := ha
  have hb' : b = ((cdist c s.indexReadHead s.indexWriteTail : Nat) : Int) := hb
  have hd' : d = ((cdist c s.indexWriteTail s.indexWriteHead : Nat) : Int) := hd
  have hf' : f = ((RCS_FIFO_FREE_SPACE s : Nat) : Int) := rfl
  rw [ha', hb', hd', hf']
  refine ⟨by omega, by exact_mod_cast e1, by exact_mod_cast e2, by exact_mod_cast e3,
    by omega, by omega, by omega, by omega, fun hret hi hj => ?_⟩
  rcases sendAcquire_cases s size (some m) with ⟨e, he, hres⟩ | ⟨m2, _, h0, hidle, hfree⟩
  · rw [hres] at hret
    simp only at hret
    omega
  · have hj2 : j < cdist s.memSize s.indexReadTail s.indexReadHead
        + cdist s.memSize s.indexReadHead s.indexWriteTail := by
      rw [hmem]; exact_mod_cast hj
    have := window_avoids_filled_gen hr hM ho hidle hfree hi hj2
    rw [hmem] at this
    exact this

theorem C22_region_conservation_witness :
    (((fifo16_busy.indexReadHead : Int) - (fifo16_busy.indexReadTail : Int)) % ((16 : Nat) : Int)
      + ((fifo16_busy.indexWriteTail : Int) - (fifo16_busy.indexReadHead : Int))
          % ((16 : Nat) : Int)
      + ((fifo16_busy.indexWriteHead : Int) - (fifo16_busy.indexWriteTail : Int))
          % ((16 : Nat) : Int)
      + ((RCS_FIFO_FREE_SPACE fifo16_busy : Nat) : Int) = ((16 : Nat) : Int) - 1)
    ∧ (fifo16_five.indexWriteHead + 1) % 16 ≠ (fifo16_five.indexReadTail + 2) % 16
    ∧ (((3 : Nat) : Int) - ((0 : Nat) : Int)) % ((4294967312 : Nat) : Int)
      + (((3 : Nat) : Int) - ((3 : Nat) : Int)) % ((4294967312 : Nat) : Int)
      + (((6 : Nat) : Int) - ((3 : Nat) : Int)) % ((4294967312 : Nat) : Int)
      + ((RCS_FIFO_FREE_SPACE ⟨4294967312, 6, 3, 3, 0⟩ : Nat) : Int)
        = ((4294967312 : Nat) : Int) - 1 :=
  ⟨(C22_region_conservation 16 fifo16_busy (none, none) 3 1 2 (by decide)
      ⟨ops_busy, by decide⟩).1,
   (C22_region_conservation 16 fifo16_five (none, none) 3 1 2 (by decide)
      ⟨ops_five, by decide⟩).2.2.2.2.2.2.2.2 (by decide) (by decide) (by decide),
   (C22_region_conservation 4294967312 ⟨4294967312, 6, 3, 3, 0⟩ (none, none) 3 1 2
      (by decide) ⟨ops_busy, by decide⟩).1⟩

/-- C23 (counterexample): on the descriptor of capacity `2^31 + 1` with all
indices 0 and `size = 2^31`, `RcsFifoSendAcquire` returns `-2147483648` and so
does not succeed, yet `RcsFifoSendAcquireNoSplit` does not refuse with
`RCS_FIFO_NO_SPACE` leaving the descriptor unchanged: it also returns
`-2147483648` and moves `indexWriteHead` to `2^31`. -/
theorem C23_nosplit_restriction_counterexample :
    ¬ (0 ≤ (RcsFifoSendAcquire (some ⟨2147483649, 0, 0, 0, 0⟩) 2147483648
          (some (none, none))).ret)
    ∧ sendAcquireSingleSpan ⟨2147483649, 0, 0, 0, 0⟩ 2147483648 (none, none)
      = ⟨RCS_FIFO_NO_SPACE, some ⟨2147483649, 0, 0, 0, 0⟩, some (none, none)⟩
    ∧ RcsFifoSendAcquireNoSplit (some ⟨2147483649, 0, 0, 0, 0⟩) 2147483648 (some (none, none))
      = ⟨-2147483648, some ⟨2147483649, 2147483648, 0, 0, 0⟩, some (some 0, none)⟩
    ∧ RcsFifoSendAcquireNoSplit (some ⟨2147483649, 0, 0, 0, 0⟩) 2147483648 (some (none, none))
      ≠ sendAcquireSingleSpan ⟨2147483649, 0, 0, 0, 0⟩ 2147483648 (none, none) :=
  ⟨by decide, by decide, by decide, by decide⟩

/-- C23 (amended, the no-split send is the single-span restriction of the
send): in a valid descriptor (capacity at most `INT_MAX`, indices below the
capacity), for `size ≥ 1` with a handle and an output array,
`RcsFifoSendAcquireNoSplit` returns what `RcsFifoSendAcquire` returns when that
call succeeds with a null second span (same value, span and next descriptor),
and otherwise refuses without changing anything, with
`RCS_FIFO_NOT_ALLOWED` when a write is outstanding and `RCS_FIFO_NO_SPACE` in
every other case. The conditions under which the C function would reach the
relocation to offset 0 or one of its two inner `RCS_FIFO_NOT_ALLOWED` returns
never hold: once the space check is passed, `memSize - indexWriteHead ≥ size`
when `indexWriteHead ≥ indexReadTail`, and `indexReadTail - indexWriteHead >
size` otherwise; a success hands out the span at `indexWriteHead`. -/
theorem C23_nosplit_is_single_span_restriction (s : RcsFifoHandle_t) (m : Slots)
    (size : Nat) (hv : Valid s) (h1 : 1 ≤ size) :
    RcsFifoSendAcquireNoSplit (some s) size (some m) = sendAcquireSingleSpan s size m
    ∧ ((RcsFifoSendAcquireNoSplit (some s) size (some m)).ret = RCS_FIFO_NOT_ALLOWED →
        s.indexWriteHead ≠ s.indexWriteTail)
    ∧ (s.indexWriteHead = s.indexWriteTail → size ≤ RCS_FIFO_FREE_NOSPLIT_SPACE s →
        s.indexWriteHead ≥ s.indexReadTail → size_sub s.memSize s.indexWriteHead ≥ size)
    ∧ (s.indexWriteHead = s.indexWriteTail → size ≤ RCS_FIFO_FREE_NOSPLIT_SPACE s →
        ¬ (s.indexWriteHead ≥ s.indexReadTail) →
        size_sub s.indexReadTail s.indexWriteHead > size)
    ∧ (0 ≤ (RcsFifoSendAcquireNoSplit (some s) size (some m)).ret →
        (RcsFifoSendAcquireNoSplit (some s) size (some m)).memAcquired
            = some (some s.indexWriteHead, none)
        ∧ (RcsFifoSendAcquireNoSplit (some s) size (some m)).fifo
            = some { s with indexWriteHead := (s.indexWriteHead + size) % s.memSize }) := by
  have hne : size ≠ 0 := by omega
  have hfit := nosplit_fits_iff hv size
  have hfn := free_nosplit_eq hv
  have hM : s.memSize < SIZE_MOD := by
    have := hv.2.1
    unfold INT_MAX at this
    unfold SIZE_MOD
    omega
  refine ⟨?_, ?_, ?_, ?_, ?_⟩
  · unfold sendAcquireSingleSpan
    by_cases hidle : s.indexWriteHead = s.indexWriteTail
    · by_cases hf : size ≤ RCS_FIFO_FREE_NOSPLIT_SPACE s
      · obtain ⟨hfree, hend⟩ := hfit.mp hf
        have hw := sendAcquire_window m hv hidle (by omega) hfree
        rw [if_pos hend, if_pos hend] at hw
        rw [sendAcquireNoSplit_ok m hv hidle (by omega) hf, hw]
        rw [if_pos ⟨by simp, by simp⟩]
      · rw [sendAcquireNoSplit_no_space s m hne hidle (by omega)]
        by_cases hfree : size ≤ RCS_FIFO_FREE_SPACE s
        · have hend : ¬ (s.indexWriteHead + size ≤ s.memSize) :=
            fun h => hf (hfit.mpr ⟨hfree, h⟩)
          have hw := sendAcquire_window m hv hidle (by omega) hfree
          rw [if_neg hend, if_neg hend] at hw
          rw [hw, if_neg (by simp), if_neg (fun h => h hidle)]
        · rw [sendAcquire_no_space s m hne hidle (by omega)]
          rw [if_neg (by simp [RCS_FIFO_NO_SPACE]), if_neg (fun h => h hidle)]
    · rw [sendAcquireNoSplit_not_allowed s m hne hidle, sendAcquire_not_allowed s m hne hidle]
      rw [if_neg (by simp [RCS_FIFO_NOT_ALLOWED]), if_pos hidle]
  · intro hret hidle
    rcases sendAcquireNoSplit_cases s size (some m) with ⟨e, he, hr⟩ | ⟨m2, _, h0, _, hfree⟩
    · by_cases hf : size ≤ RCS_FIFO_FREE_NOSPLIT_SPACE s
      · rw [sendAcquireNoSplit_ok m hv hidle (by omega) hf] at hret
        simp only [RCS_FIFO_NOT_ALLOWED] at hret
        omega
      · rw [sendAcquireNoSplit_no_space s m hne hidle (by omega)] at hret
        simp [RCS_FIFO_NO_SPACE, RCS_FIFO_NOT_ALLOWED] at hret
    · rw [sendAcquireNoSplit_ok m hv hidle (by omega) hfree] at hret
      simp only [RCS_FIFO_NOT_ALLOWED] at hret
      omega
  · intro _ hf hge
    obtain ⟨_, hend⟩ := hfit.mp hf
    have hwh := hv.2.2.1
    rw [size_sub_eq (by omega) hM]
    omega
  · intro _ hf hlt
    rw [hfn, if_pos (by omega)] at hf
    have hrt := hv.2.2.2.2.2
    rw [size_sub_eq (by omega) (by omega)]
    omega
  · intro hret
    rcases sendAcquireNoSplit_cases s size (some m) with ⟨e, he, hr⟩ | ⟨m2, _, h0, hidle, hfree⟩
    · rw [hr] at hret
      simp only at hret
      omega
    · rw [sendAcquireNoSplit_ok m hv hidle h0 hfree]
      exact ⟨rfl, rfl⟩

theorem C23_nosplit_is_single_span_restriction_witness :
    (RcsFifoSendAcquireNoSplit (some fifo16_at13) 3 (some (none, none))
        = sendAcquireSingleSpan fifo16_at13 3 (none, none)
      ∧ RcsFifoSendAcquireNoSplit (some fifo16_at13) 3 (some (none, none))
        = RcsFifoSendAcquire (some fifo16_at13) 3 (some (none, none)))
    ∧ (RcsFifoSendAcquireNoSplit (some fifo16_at13) 5 (some (none, none))
        = sendAcquireSingleSpan fifo16_at13 5 (none, none)
      ∧ RcsFifoSendAcquireNoSplit (some fifo16_at13) 5 (some (none, none))
        = ⟨RCS_FIFO_NO_SPACE, some fifo16_at13, some (none, none)⟩) :=
  ⟨⟨(C23_nosplit_is_single_span_restriction fifo16_at13 (none, none) 3 (by decide)
        (by decide)).1,
    (C23_nosplit_is_single_span_restriction fifo16_at13 (none, none) 3 (by decide)
        (by decide)).1⟩,
   ⟨(C23_nosplit_is_single_span_restriction fifo16_at13 (none, none) 5 (by decide)
        (by decide)).1,
    (C23_nosplit_is_single_span_restriction fifo16_at13 (none, none) 5 (by decide)
        (by decide)).1⟩⟩

/-- C24 (critical-section balance, the code at the failing input): with the
hooks counted as increments and decrements of a nesting counter,
`RcsFifoSendAcquire`, `RcsFifoSendAcquireNoSplit`, `RcsFifoSendComplete`,
`RcsFifoRecvAcquire` and `RcsFifoRecvComplete` return with the counter at its
entry value `n` on every input; `RcsFifoRecvAcquireNoSplit` does not: on the
reachable capacity-16 buffer holding 5 committed bytes at offsets 0..4, a
5-byte request returns `RCS_FIFO_NOT_ALLOWED` with the counter at 1 from an
entry value 0. -/
theorem C24_critical_section_code_at_input (fifo : Option RcsFifoHandle_t) (size : Nat)
    (mo : Option Slots) (n : Int) :
    RcsFifoSendAcquire_crit fifo size mo n = n
    ∧ RcsFifoSendAcquireNoSplit_crit fifo size mo n = n
    ∧ RcsFifoSendComplete_crit fifo mo n = n
    ∧ RcsFifoRecvAcquire_crit fifo size mo n = n
    ∧ RcsFifoRecvComplete_crit fifo mo n = n
    ∧ Reachable 16 fifo16_five
    ∧ RcsFifoRecvAcquireNoSplit (some fifo16_five) 5 (some (none, none))
        = ⟨RCS_FIFO_NOT_ALLOWED, some fifo16_five, some (none, none)⟩
    ∧ RcsFifoRecvAcquireNoSplit_crit (some fifo16_five) 5 (some (none, none)) 0 = 1 :=
  ⟨sendAcquire_crit_balanced fifo size mo n, sendAcquireNoSplit_crit_balanced fifo size mo n,
   sendComplete_crit_balanced fifo mo n, recvAcquire_crit_balanced fifo size mo n,
   recvComplete_crit_balanced fifo mo n, ⟨ops_five, by decide⟩, by decide, by decide⟩

end RcsFifo
